import Mathlib

/-!
# Intent engine: parser, validator, query translator, local filter, executors

A shallow embedding of `intentEngine/intent.go`, `intentEngine/parser.go` and
`intentEngine/executor.go`.

Conventions of the embedding

* A Go `string` is a list of code points (`Str`); the program only ever handles
  text, so strings are taken to be valid UTF-8.
* `uint32` values are natural numbers, reduced modulo `2^32` wherever the
  program does arithmetic on them.
* A `time.Time` is an instant (seconds since the Unix epoch plus nanoseconds)
  together with its location; a location is a table of zone transitions, and
  seconds are kept in 64 bits as in package `time`.
* The mail store (IMAP client) and the clock are inputs of the functions that
  use them.
* Names are those of the source; the variables `matches` and `end` of the
  source are `groups` and `endT` here.
-/

namespace IntentEngine

/-- Go strings, as lists of code points. -/
abbrev Str := List Char

deriving instance DecidableEq for Except

/-! ## The parts of package `strings` the program uses -/

/-- The predicate `unicode.IsSpace`: the white space code points of Unicode. -/
def isSpace (c : Char) : Bool :=
  c == '\t' || c == '\n' || c == '\x0b' || c == '\x0c' || c == '\r' || c == ' ' ||
  c == '\u0085' || c == '\u00a0' || c == '\u1680' ||
  ('\u2000' ≤ c && c ≤ '\u200a') ||
  c == '\u2028' || c == '\u2029' || c == '\u202f' || c == '\u205f' || c == '\u3000'

/-- The function `strings.TrimSpace`: leading and trailing white space removed. -/
def TrimSpace (s : Str) : Str :=
  ((s.dropWhile isSpace).reverse.dropWhile isSpace).reverse

/-- The map of `unicode.ToLower` above ASCII, as tabulated in `unicode.CaseRanges`
(Unicode 15.0.0): an entry `(lo, hi, stride, to)` sends the runes `lo`,
`lo + stride`, and so on up to `hi`, to `to`, `to + stride`, and so on. Runes in
no entry are their own lower case. -/
def lowerCaseRanges : List (Nat × Nat × Nat × Nat) :=
  [(192, 214, 1, 224), (216, 222, 1, 248), (256, 302, 2, 257), (304, 304, 1, 105),
   (306, 310, 2, 307), (313, 327, 2, 314), (330, 374, 2, 331), (376, 376, 1, 255),
   (377, 381, 2, 378), (385, 385, 1, 595), (386, 388, 2, 387), (390, 390, 1, 596),
   (391, 391, 1, 392), (393, 394, 1, 598), (395, 395, 1, 396), (398, 398, 1, 477),
   (399, 399, 1, 601), (400, 400, 1, 603), (401, 401, 1, 402), (403, 403, 1, 608),
   (404, 404, 1, 611), (406, 406, 1, 617), (407, 407, 1, 616), (408, 408, 1, 409),
   (412, 412, 1, 623), (413, 413, 1, 626), (415, 415, 1, 629), (416, 420, 2, 417),
   (422, 422, 1, 640), (423, 423, 1, 424), (425, 425, 1, 643), (428, 428, 1, 429),
   (430, 430, 1, 648), (431, 431, 1, 432), (433, 434, 1, 650), (435, 437, 2, 436),
   (439, 439, 1, 658), (440, 440, 1, 441), (444, 444, 1, 445), (452, 452, 1, 454),
   (453, 453, 1, 454), (455, 455, 1, 457), (456, 456, 1, 457), (458, 458, 1, 460),
   (459, 475, 2, 460), (478, 494, 2, 479), (497, 497, 1, 499), (498, 500, 2, 499),
   (502, 502, 1, 405), (503, 503, 1, 447), (504, 542, 2, 505), (544, 544, 1, 414),
   (546, 562, 2, 547), (570, 570, 1, 11365), (571, 571, 1, 572), (573, 573, 1, 410),
   (574, 574, 1, 11366), (577, 577, 1, 578), (579, 579, 1, 384), (580, 580, 1, 649),
   (581, 581, 1, 652), (582, 590, 2, 583), (880, 882, 2, 881), (886, 886, 1, 887),
   (895, 895, 1, 1011), (902, 902, 1, 940), (904, 906, 1, 941), (908, 908, 1, 972),
   (910, 911, 1, 973), (913, 929, 1, 945), (931, 939, 1, 963), (975, 975, 1, 983),
   (984, 1006, 2, 985), (1012, 1012, 1, 952), (1015, 1015, 1, 1016), (1017, 1017, 1, 1010),
   (1018, 1018, 1, 1019), (1021, 1023, 1, 891), (1024, 1039, 1, 1104), (1040, 1071, 1, 1072),
   (1120, 1152, 2, 1121), (1162, 1214, 2, 1163), (1216, 1216, 1, 1231), (1217, 1229, 2, 1218),
   (1232, 1326, 2, 1233), (1329, 1366, 1, 1377), (4256, 4293, 1, 11520), (4295, 4295, 1, 11559),
   (4301, 4301, 1, 11565), (5024, 5103, 1, 43888), (5104, 5109, 1, 5112), (7312, 7354, 1, 4304),
   (7357, 7359, 1, 4349), (7680, 7828, 2, 7681), (7838, 7838, 1, 223), (7840, 7934, 2, 7841),
   (7944, 7951, 1, 7936), (7960, 7965, 1, 7952), (7976, 7983, 1, 7968), (7992, 7999, 1, 7984),
   (8008, 8013, 1, 8000), (8025, 8031, 2, 8017), (8040, 8047, 1, 8032), (8072, 8079, 1, 8064),
   (8088, 8095, 1, 8080), (8104, 8111, 1, 8096), (8120, 8121, 1, 8112), (8122, 8123, 1, 8048),
   (8124, 8124, 1, 8115), (8136, 8139, 1, 8050), (8140, 8140, 1, 8131), (8152, 8153, 1, 8144),
   (8154, 8155, 1, 8054), (8168, 8169, 1, 8160), (8170, 8171, 1, 8058), (8172, 8172, 1, 8165),
   (8184, 8185, 1, 8056), (8186, 8187, 1, 8060), (8188, 8188, 1, 8179), (8486, 8486, 1, 969),
   (8490, 8490, 1, 107), (8491, 8491, 1, 229), (8498, 8498, 1, 8526), (8544, 8559, 1, 8560),
   (8579, 8579, 1, 8580), (9398, 9423, 1, 9424), (11264, 11311, 1, 11312),
   (11360, 11360, 1, 11361), (11362, 11362, 1, 619), (11363, 11363, 1, 7549),
   (11364, 11364, 1, 637), (11367, 11371, 2, 11368), (11373, 11373, 1, 593),
   (11374, 11374, 1, 625), (11375, 11375, 1, 592), (11376, 11376, 1, 594),
   (11378, 11378, 1, 11379), (11381, 11381, 1, 11382), (11390, 11391, 1, 575),
   (11392, 11490, 2, 11393), (11499, 11501, 2, 11500), (11506, 11506, 1, 11507),
   (42560, 42604, 2, 42561), (42624, 42650, 2, 42625), (42786, 42798, 2, 42787),
   (42802, 42862, 2, 42803), (42873, 42875, 2, 42874), (42877, 42877, 1, 7545),
   (42878, 42886, 2, 42879), (42891, 42891, 1, 42892), (42893, 42893, 1, 613),
   (42896, 42898, 2, 42897), (42902, 42920, 2, 42903), (42922, 42922, 1, 614),
   (42923, 42923, 1, 604), (42924, 42924, 1, 609), (42925, 42925, 1, 620), (42926, 42926, 1, 618),
   (42928, 42928, 1, 670), (42929, 42929, 1, 647), (42930, 42930, 1, 669),
   (42931, 42931, 1, 43859), (42932, 42946, 2, 42933), (42948, 42948, 1, 42900),
   (42949, 42949, 1, 642), (42950, 42950, 1, 7566), (42951, 42953, 2, 42952),
   (42960, 42960, 1, 42961), (42966, 42968, 2, 42967), (42997, 42997, 1, 42998),
   (65313, 65338, 1, 65345), (66560, 66599, 1, 66600), (66736, 66771, 1, 66776),
   (66928, 66964, 2, 66967), (66929, 66938, 1, 66968), (66941, 66954, 1, 66980),
   (66957, 66962, 1, 66996), (66965, 66965, 1, 67004), (68736, 68786, 1, 68800),
   (71840, 71871, 1, 71872), (93760, 93791, 1, 93792), (125184, 125217, 1, 125218)]

/-- The function `unicode.ToLower`: the letters `A` to `Z` among the ASCII
runes, the table above for the others. -/
def toLowerRune (c : Char) : Char :=
  if c.toNat ≤ 127 then
    if 'A' ≤ c && c ≤ 'Z' then Char.ofNat (c.toNat + 32) else c
  else
    match lowerCaseRanges.find?
        (fun r => r.1 ≤ c.toNat && c.toNat ≤ r.2.1 && (c.toNat - r.1) % r.2.2.1 == 0) with
    | some r => Char.ofNat (r.2.2.2 + (c.toNat - r.1))
    | none => c

/-- The function `strings.ToLower`: every code point mapped to lower case. -/
def ToLower (s : Str) : Str := s.map toLowerRune

/-- The function `strings.HasPrefix`. -/
def HasPrefix (s pre : Str) : Bool := pre.isPrefixOf s

/-- The function `strings.HasSuffix`. -/
def HasSuffix (s suf : Str) : Bool := suf.isSuffixOf s

/-- The function `strings.TrimPrefix`: `s` without the leading `pre`, or `s`. -/
def TrimPrefix (s pre : Str) : Str :=
  if HasPrefix s pre then s.drop pre.length else s

/-- The function `strings.Contains`: `sub` occurs in `s` at some position. -/
def Contains : Str → Str → Bool
  | [], sub => sub.isEmpty
  | c :: cs, sub => sub.isPrefixOf (c :: cs) || Contains cs sub

/-- The loop of `strings.FieldsFunc`: `cur` is the field being read (`none`
between fields, the code points read so far otherwise). -/
def fieldsLoop (f : Char → Bool) : Str → Option Str → List Str
  | [], none => []
  | [], some w => [w]
  | c :: cs, none => if f c then fieldsLoop f cs none else fieldsLoop f cs (some [c])
  | c :: cs, some w => if f c then w :: fieldsLoop f cs none else fieldsLoop f cs (some (w ++ [c]))

/-- The function `strings.FieldsFunc`: the maximal runs of code points that do
not satisfy `f`. -/
def FieldsFunc (s : Str) (f : Char → Bool) : List Str := fieldsLoop f s none

/-! ## The parts of package `regexp` the program uses

The patterns of the program use literals, character classes, concatenation,
alternation, greedy repetition of a one-character class, capture groups and the
anchors `^` and `$`. Matching is leftmost-first, as in package `regexp`: an
alternation prefers its left branch, a repetition prefers one more iteration. -/

/-- Regular expressions, in the fragment the program's patterns use. -/
inductive Regex where
  | empty : Regex
  | char (p : Char → Bool) : Regex
  | cat (a b : Regex) : Regex
  | alt (a b : Regex) : Regex
  | star (p : Char → Bool) : Regex
  | capture (i : Nat) (r : Regex) : Regex
  | beginText : Regex
  | endText : Regex

namespace Regex

/-- The quantifier `+` on a one-character class. -/
def plus (p : Char → Bool) : Regex := cat (char p) (star p)

/-- The quantifier `?`, greedy. -/
def opt (r : Regex) : Regex := alt r empty

/-- Concatenation of a list of expressions. -/
def seq : List Regex → Regex
  | [] => empty
  | [r] => r
  | r :: rs => cat r (seq rs)

/-- A literal. -/
def lit (s : String) : Regex := seq (s.toList.map fun c => char (· == c))

/-- The class a letter stands for under the flag `(?i)`: the code points of
its simple case folding orbit. Of the letters of the program's patterns only
`s` has an orbit of more than two code points (it holds U+017F). -/
def foldClass (c : Char) (x : Char) : Bool :=
  x == c || x == c.toUpper || (c == 's' && x == '\u017f') || (c == 'k' && x == '\u212a')

/-- A literal of lower-case letters under the flag `(?i)`. -/
def litFold (s : String) : Regex := seq (s.toList.map fun c => char (foldClass c))

/-- The class `\s` of package `regexp`: `[\t\n\f\r ]`. -/
def space (c : Char) : Bool :=
  c == '\t' || c == '\n' || c == '\x0c' || c == '\r' || c == ' '

/-- The class `\d`: `[0-9]`. -/
def digit (c : Char) : Bool := '0' ≤ c && c ≤ '9'

/-- The number of capture groups: the largest group index. -/
def numSubexp : Regex → Nat
  | cat a b => max a.numSubexp b.numSubexp
  | alt a b => max a.numSubexp b.numSubexp
  | capture i r => max i r.numSubexp
  | _ => 0

/-- Greedy repetition of a class `p` followed by the continuation `k`: the
longest run first, then shorter ones. -/
def starK {α : Type} (p : Char → Bool) (k : Str → Option α) : Str → Option α
  | [] => k []
  | c :: cs =>
    if p c then
      match starK p k cs with
      | some r => some r
      | none => k (c :: cs)
    else k (c :: cs)

/-- Backtracking match of `r` at the head of `s`, in a text of `n` code points;
`g` holds the text of the groups matched so far, `k` is what remains to be
matched. The first success in preference order is returned. -/
def matchK {α : Type} (n : Nat) : Regex → Str → (Nat → Str) → (Str → (Nat → Str) → Option α) → Option α
  | empty, s, g, k => k s g
  | char p, s, g, k =>
    match s with
    | [] => none
    | c :: cs => if p c then k cs g else none
  | cat a b, s, g, k => matchK n a s g (fun s1 g1 => matchK n b s1 g1 k)
  | alt a b, s, g, k =>
    match matchK n a s g k with
    | some r => some r
    | none => matchK n b s g k
  | star p, s, g, k => starK p (fun s1 => k s1 g) s
  | capture i r, s, g, k =>
    matchK n r s g (fun s1 g1 => k s1 (fun j => if j = i then s.take (s.length - s1.length) else g1 j))
  | beginText, s, g, k => if s.length = n then k s g else none
  | endText, s, g, k => if s.isEmpty then k s g else none

/-- The search of `FindStringSubmatch` from the suffix `s` of a text of `n`
code points: the match starting leftmost. The result holds the text of the
whole match and of every group (empty for a group that took no part). -/
def findFrom (re : Regex) (n : Nat) : Str → Option (List Str)
  | [] =>
    match matchK n re [] (fun _ => []) (fun s1 g1 => some (s1, g1)) with
    | some (_, g1) => some ([] :: (List.range re.numSubexp).map fun j => g1 (j + 1))
    | none => none
  | c :: cs =>
    match matchK n re (c :: cs) (fun _ => []) (fun s1 g1 => some (s1, g1)) with
    | some (s1, g1) =>
      some ((c :: cs).take ((c :: cs).length - s1.length) ::
        (List.range re.numSubexp).map fun j => g1 (j + 1))
    | none => findFrom re n cs

/-- The method `(*Regexp).FindStringSubmatch`. -/
def FindStringSubmatch (re : Regex) (s : Str) : Option (List Str) :=
  findFrom re s.length s

end Regex

open Regex in
/-- The pattern of `NewParser`:
`(?i)^\s*(search|listen)\s+(?:for|on)?\s*"([^"]+)"\s+from\s+"([^"]+)"(?:\s+\[([^\]]+)\])?\s*$`. -/
def commandPattern : Regex :=
  seq [beginText, star space,
    capture 1 (alt (litFold "search") (litFold "listen")),
    plus space, opt (alt (litFold "for") (litFold "on")), star space,
    lit "\"", capture 2 (plus (· != '"')), lit "\"",
    plus space, litFold "from", plus space,
    lit "\"", capture 3 (plus (· != '"')), lit "\"",
    opt (seq [plus space, lit "[", capture 4 (plus (· != ']')), lit "]"]),
    star space, endText]

open Regex in
/-- The pattern of `parseSimpleCommand`: `(?i)^\s*listen\s+from\s+"([^"]+)"\s*$`. -/
def listenPattern : Regex :=
  seq [beginText, star space, litFold "listen", plus space, litFold "from", plus space,
    lit "\"", capture 1 (plus (· != '"')), lit "\"", star space, endText]

/-! ## The parts of package `time` the program uses

Instants are counted in seconds from 1970-01-01T00:00:00Z; the calendar is the
proleptic Gregorian one. The package keeps seconds in 64-bit integers, and so
does the embedding. A location is its table of zone transitions. -/

/-- The value of an integer kept in an `int64`. -/
def int64 (x : Int) : Int :=
  (x + 9223372036854775808) % 18446744073709551616 - 9223372036854775808

/-- The type `time.Location`: the offset east of UTC, in seconds, in force before
the first transition, and the transitions in ascending order, each the instant
from which an offset is in force, with that offset. A location of fixed offset
has no transition. -/
structure Location where
  offset : Int
  zone : List (Int × Int) := []
deriving DecidableEq, Repr

/-- The loop of the method `lookup`: `offset` is in force from `start` on, up to
the first transition that is left. -/
def Location.lookupFrom (offset start : Int) : List (Int × Int) → Int → Int × Int × Int
  | [], _ => (offset, start, 9223372036854775807)
  | (w, o) :: rest, sec => if sec < w then (offset, start, w) else lookupFrom o w rest sec

/-- The method `lookup`: the offset in force at the instant `sec`, and the first
instant and the end of the period in which it is in force. -/
def Location.lookup (l : Location) (sec : Int) : Int × Int × Int :=
  Location.lookupFrom l.offset (-9223372036854775808) l.zone sec

/-- The type `time.Time`: the seconds from 1970-01-01T00:00:00Z (the count from
the year 1 that the package keeps, less 62135596800), the nanoseconds, and the
location, as its first offset and its transitions. -/
structure Time where
  unix : Int
  nsec : Nat
  offset : Int
  zone : List (Int × Int) := []
deriving DecidableEq, Repr

namespace Time

/-- Leap years of the Gregorian calendar. -/
def isLeap (year : Int) : Bool :=
  year % 4 == 0 && (year % 100 != 0 || year % 400 == 0)

/-- The number of days of the year before the first of `month` (1 to 12). -/
def daysBefore (year : Int) (month : Int) : Int :=
  (match month with
    | 1 => 0 | 2 => 31 | 3 => 59 | 4 => 90 | 5 => 120 | 6 => 151
    | 7 => 181 | 8 => 212 | 9 => 243 | 10 => 273 | 11 => 304 | _ => 334) +
  (if isLeap year && 3 ≤ month then 1 else 0)

/-- The number of days of `month` in `year`. -/
def daysIn (month : Int) (year : Int) : Int :=
  if month == 2 then (if isLeap year then 29 else 28)
  else if month == 4 || month == 6 || month == 9 || month == 11 then 30
  else 31

/-- The number of days from 0001-01-01 to the first of January of `year`. -/
def daysSinceYearOne (year : Int) : Int :=
  365 * (year - 1) + (year - 1) / 4 - (year - 1) / 100 + (year - 1) / 400

/-- The number of days from 1970-01-01 to the given day; `day` may lie outside
the month and `month` outside the year, as in `time.Date`, and they carry over. -/
def daysFromCivil (year month day : Int) : Int :=
  let y := year + (month - 1) / 12
  let m := (month - 1) % 12 + 1
  daysSinceYearOne y + daysBefore y m + (day - 1) - 719162

/-- The year and the day within the year (from 0) of a day counted from
0001-01-01: cycles of 400, 100, 4 and 1 years are cut off in turn. -/
def yearDay (d : Int) : Int × Int :=
  let n400 := d / 146097
  let d1 := d - 146097 * n400
  let n100 := d1 / 36524 - d1 / 36524 / 4
  let d2 := d1 - 36524 * n100
  let n4 := d2 / 1461
  let d3 := d2 - 1461 * n4
  let n1 := d3 / 365 - d3 / 365 / 4
  (400 * n400 + 100 * n100 + 4 * n4 + n1 + 1, d3 - 365 * n1)

/-- The month (1 to 12) and the day of the month of the day `yday` (from 0) of a
year. -/
def monthDay (leap : Bool) (yday : Int) : Int × Int :=
  let feb := if leap then 1 else 0
  if yday < 31 then (1, yday + 1)
  else if yday < 59 + feb then (2, yday - 30)
  else
    let d := yday - feb
    if d < 90 then (3, d - 58)
    else if d < 120 then (4, d - 89)
    else if d < 151 then (5, d - 119)
    else if d < 181 then (6, d - 150)
    else if d < 212 then (7, d - 180)
    else if d < 243 then (8, d - 211)
    else if d < 273 then (9, d - 242)
    else if d < 304 then (10, d - 272)
    else if d < 334 then (11, d - 303)
    else (12, d - 333)

/-- The seconds from the absolute zero of the package, the first of January of
the year -292277022399, to 1970-01-01T00:00:00Z: the constant
`unixToInternal + internalToAbsolute`, negated. -/
def unixToAbsolute : Int := 9223372028715321600

/-- The method `abs`, counted from 1970-01-01T00:00:00: the seconds of the wall
clock of `t` in its location. The package adds the offset in force at `t` and
keeps the count from its absolute zero in a `uint64`. -/
def wall (t : Time) : Int :=
  let sec := int64 t.unix
  let l : Location := { offset := t.offset, zone := t.zone }
  (sec + (l.lookup sec).1 + unixToAbsolute) % 18446744073709551616 - unixToAbsolute

/-- The methods `Year`, `Month` and `Day`. -/
def Year (t : Time) : Int := (yearDay (t.wall / 86400 + 719162)).1

@[inherit_doc Year]
def Month (t : Time) : Int :=
  let yd := yearDay (t.wall / 86400 + 719162)
  (monthDay (isLeap yd.1) yd.2).1

@[inherit_doc Year]
def Day (t : Time) : Int :=
  let yd := yearDay (t.wall / 86400 + 719162)
  (monthDay (isLeap yd.1) yd.2).2

/-- The methods `Hour`, `Minute` and `Second`. -/
def Hour (t : Time) : Int := t.wall % 86400 / 3600

@[inherit_doc Hour]
def Minute (t : Time) : Int := t.wall % 3600 / 60

@[inherit_doc Hour]
def Second (t : Time) : Int := t.wall % 60

/-- The location `time.UTC`. -/
def UTC : Location := { offset := 0 }

/-- The function `time.Date`, for a number of nanoseconds below `10^9`: the
seconds of the wall clock are computed in an `int64`; the offset is the one in
force at that count read as an instant or, when the instant that lies this
offset earlier is outside the period of that offset, the one in force there. -/
def Date (year month day hour min sec : Int) (nsec : Nat) (loc : Location) : Time :=
  let unix := int64 (daysFromCivil year month day * 86400 + hour * 3600 + min * 60 + sec)
  let r := loc.lookup unix
  let unix :=
    if r.1 ≠ 0 then
      let utc := int64 (unix - r.1)
      let offset := if utc < r.2.1 ∨ utc ≥ r.2.2 then (loc.lookup utc).1 else r.1
      int64 (unix - offset)
    else unix
  { unix := int64 (unix + 62135596800) - 62135596800
    nsec := nsec
    offset := loc.offset
    zone := loc.zone }

/-- The method `Location`. -/
def Location (t : Time) : IntentEngine.Location := { offset := t.offset, zone := t.zone }

/-- The method `AddDate`. -/
def AddDate (t : Time) (years months days : Int) : Time :=
  Date (t.Year + years) (t.Month + months) (t.Day + days) t.Hour t.Minute t.Second t.nsec t.Location

/-- The method `Before`. -/
def Before (t u : Time) : Bool :=
  t.unix < u.unix || (t.unix == u.unix && t.nsec < u.nsec)

/-- The method `After`. -/
def After (t u : Time) : Bool :=
  t.unix > u.unix || (t.unix == u.unix && t.nsec > u.nsec)

/-- The zero value of `time.Time`: 0001-01-01T00:00:00Z. -/
def zero : Time := { unix := -62135596800, nsec := 0, offset := 0 }

/-- The value of a string of decimal digits. -/
def atoi (s : Str) : Int :=
  s.foldl (fun n c => 10 * n + ((c.toNat : Int) - 48)) 0

/-- The function `time.Parse` with the layout `"2006-01-02"`: four digits, two
digits and two digits, separated by `-`, that name a day of the calendar. The
result is at midnight in UTC. -/
def Parse (value : Str) : Option Time :=
  match value with
  | [y1, y2, y3, y4, '-', m1, m2, '-', d1, d2] =>
    if [y1, y2, y3, y4, m1, m2, d1, d2].all Regex.digit then
      let year := atoi [y1, y2, y3, y4]
      let month := atoi [m1, m2]
      let day := atoi [d1, d2]
      if 1 ≤ month && month ≤ 12 && 1 ≤ day && day ≤ daysIn month year then
        some (Date year month day 0 0 0 0 UTC)
      else none
    else none
  | _ => none

end Time

/-! ## `intent.go` -/

/-- The type `CommandType`, a string. -/
abbrev CommandType := Str

/-- The constant `CommandSearch`. -/
def CommandSearch : CommandType := "search".toList

/-- The constant `CommandListen`. -/
def CommandListen : CommandType := "listen".toList

/-- The type `DateRange`. -/
structure DateRange where
  Start : Time
  End : Time
deriving DecidableEq, Repr

/-- The type `Intent`. -/
structure Intent where
  Command : CommandType
  Keywords : List Str
  Sender : Str
  DateRange : Option DateRange
  AllFromSender : Bool
deriving DecidableEq, Repr

/-- The function `NewIntent`. -/
def NewIntent (cmd : CommandType) : Intent :=
  { Command := cmd, Keywords := [], Sender := [], DateRange := none, AllFromSender := false }

namespace Intent

/-- The method `AddKeyword`. -/
def AddKeyword (i : Intent) (keyword : Str) : Intent :=
  { i with Keywords := i.Keywords ++ [keyword] }

/-- The method `SetSender`. -/
def SetSender (i : Intent) (sender : Str) (all : Bool) : Intent :=
  { i with Sender := sender, AllFromSender := all }

/-- The method `SetDateRange`. -/
def SetDateRange (i : Intent) (start endT : Time) : Intent :=
  { i with DateRange := some { Start := start, End := endT } }

/-- The method `SetRecentRange`; `now` is the reading of the clock. -/
def SetRecentRange (i : Intent) (now : Time) : Intent :=
  let yesterday := now.AddDate 0 0 (-1)
  let start := Time.Date yesterday.Year yesterday.Month yesterday.Day 0 0 0 0 yesterday.Location
  let endT := Time.Date now.Year now.Month now.Day 23 59 59 0 now.Location
  i.SetDateRange start endT

end Intent

/-! ## `parser.go` -/

/-- The errors of `parseDateRange`. -/
inductive DateError where
  | invalidStart
  | invalidEnd
  | unrecognized (dateStr : Str)
deriving DecidableEq, Repr

/-- The errors of `Parse`. -/
inductive ParseError where
  | emptyCommand
  | invalidFormat
  | unknownCommand (cmdStr : Str)
  | invalidDateRange (err : DateError)
  | listenKeywords
  | unableToParse
deriving DecidableEq, Repr

open Regex in
/-- The pattern `last\s+(\d+)\s+days?` of `parseDateRange`. -/
def lastDaysPattern : Regex :=
  seq [lit "last", plus space, capture 1 (plus digit), plus space, lit "day", opt (lit "s")]

open Regex in
/-- The pattern `\d{4}-\d{2}-\d{2}` . -/
def datePattern : Regex :=
  seq [char digit, char digit, char digit, char digit, lit "-", char digit, char digit,
    lit "-", char digit, char digit]

open Regex in
/-- The pattern `(\d{4}-\d{2}-\d{2})\s+to\s+(\d{4}-\d{2}-\d{2})` of `parseDateRange`. -/
def rangePattern : Regex :=
  seq [capture 1 datePattern, plus space, lit "to", plus space, capture 2 datePattern]

/-- The call `fmt.Sscanf(s, "%d", &days)` on a string of digits, `days` being 0
before: the number read, and 0 when it does not fit a 64-bit `int` (the call
then fails and leaves `days` as it was; the program drops the error). -/
def scanDays (s : Str) : Int :=
  if Time.atoi s < 2 ^ 63 then Time.atoi s else 0

/-- The method `parseDateRange`; `now` is the reading of the clock. -/
def parseDateRange (now : Time) (intent : Intent) (dateStr : Str) : Except DateError Intent :=
  let dateStr := ToLower (TrimSpace dateStr)
  if dateStr = "recent".toList then
    .ok (intent.SetRecentRange now)
  else if dateStr = "today".toList then
    let start := Time.Date now.Year now.Month now.Day 0 0 0 0 now.Location
    let endT := Time.Date now.Year now.Month now.Day 23 59 59 0 now.Location
    .ok (intent.SetDateRange start endT)
  else if dateStr = "yesterday".toList then
    let yesterday := now.AddDate 0 0 (-1)
    let start := Time.Date yesterday.Year yesterday.Month yesterday.Day 0 0 0 0 yesterday.Location
    let endT := Time.Date yesterday.Year yesterday.Month yesterday.Day 23 59 59 0 yesterday.Location
    .ok (intent.SetDateRange start endT)
  else
    match Regex.FindStringSubmatch lastDaysPattern dateStr with
    | some groups =>
      let days := scanDays (groups.getD 1 [])
      let start := now.AddDate 0 0 (-days)
      let start := Time.Date start.Year start.Month start.Day 0 0 0 0 start.Location
      let endT := Time.Date now.Year now.Month now.Day 23 59 59 0 now.Location
      .ok (intent.SetDateRange start endT)
    | none =>
      match Regex.FindStringSubmatch rangePattern dateStr with
      | some groups =>
        match Time.Parse (groups.getD 1 []) with
        | none => .error .invalidStart
        | some start =>
          match Time.Parse (groups.getD 2 []) with
          | none => .error .invalidEnd
          | some endT =>
            let endT := Time.Date endT.Year endT.Month endT.Day 23 59 59 0 endT.Location
            .ok (intent.SetDateRange start endT)
      | none =>
        match Time.Parse dateStr with
        | some singleDate =>
          let start := Time.Date singleDate.Year singleDate.Month singleDate.Day 0 0 0 0
            singleDate.Location
          let endT := Time.Date singleDate.Year singleDate.Month singleDate.Day 23 59 59 0
            singleDate.Location
          .ok (intent.SetDateRange start endT)
        | none => .error (.unrecognized dateStr)

/-- The sender part of `parseFullCommand` and `parseSimpleCommand`: a leading
`*`, then a leading `@`, are cut off a wildcard sender. -/
def setParsedSender (intent : Intent) (sender : Str) : Intent :=
  let allFromSender := HasPrefix sender "*@".toList || HasPrefix sender "*".toList
  let sender := if allFromSender then TrimPrefix (TrimPrefix sender "*".toList) "@".toList else sender
  intent.SetSender sender allFromSender

/-- The method `parseFullCommand`; `now` is the reading of the clock. -/
def parseFullCommand (now : Time) (groups : List Str) : Except ParseError Intent :=
  if groups.length < 4 then .error .invalidFormat
  else
    let cmdStr := ToLower (groups.getD 1 [])
    let known : Option CommandType :=
      if cmdStr = "search".toList then some CommandSearch
      else if cmdStr = "listen".toList then some CommandListen
      else none
    match known with
    | none => .error (.unknownCommand cmdStr)
    | some cmd =>
      let intent := NewIntent cmd
      let keywords := groups.getD 2 []
      let intent :=
        if keywords ≠ [] then
          (FieldsFunc keywords fun r => r == ',' || r == '|' || r == '&').foldl
            (fun (i : Intent) part =>
              let trimmed := TrimSpace part
              if trimmed ≠ [] then i.AddKeyword trimmed else i)
            intent
        else intent
      let sender := TrimSpace (groups.getD 3 [])
      let intent := if sender ≠ [] then setParsedSender intent sender else intent
      let dated : Except ParseError Intent :=
        if groups.length > 4 ∧ groups.getD 4 [] ≠ [] then
          match parseDateRange now intent (TrimSpace (groups.getD 4 [])) with
          | .error err => .error (.invalidDateRange err)
          | .ok i => .ok i
        else .ok intent
      match dated with
      | .error err => .error err
      | .ok intent =>
        if cmd = CommandListen ∧ intent.Keywords.length > 0 then .error .listenKeywords
        else .ok intent

/-- The method `parseSimpleCommand`. -/
def parseSimpleCommand (input : Str) : Except ParseError Intent :=
  match Regex.FindStringSubmatch listenPattern input with
  | some groups =>
    let intent := NewIntent CommandListen
    let sender := TrimSpace (groups.getD 1 [])
    .ok (setParsedSender intent sender)
  | none => .error .unableToParse

/-- The method `Parse`; `now` is the reading of the clock. -/
def Parse (now : Time) (input : Str) : Except ParseError Intent :=
  let input := TrimSpace input
  if input = [] then .error .emptyCommand
  else
    match Regex.FindStringSubmatch commandPattern input with
    | some groups => parseFullCommand now groups
    | none => parseSimpleCommand input

/-! ## `executor.go` -/

/-- The type `Email`. -/
structure Email where
  ID : Str
  From : Str
  Subject : Str
  Date : Time
  Body : Str
deriving DecidableEq, Repr

/-- The type `imap.Address`, with the fields the program reads. -/
structure Address where
  PersonalName : Str
  MailboxName : Str
  HostName : Str
deriving DecidableEq, Repr

/-- The type `imap.Envelope`, with the fields the program reads. -/
structure Envelope where
  Subject : Str
  From : List Address
deriving DecidableEq, Repr

/-- The type `imap.Message`, with the fields the program reads; `Envelope` is a
pointer that may be nil, `SeqNum` and `Uid` are `uint32`. -/
structure Message where
  SeqNum : Nat
  Uid : Nat
  Envelope : Option Envelope
  InternalDate : Time
deriving DecidableEq, Repr

/-- The type `imap.MailboxStatus`, with the fields the program reads. -/
structure MailboxStatus where
  Name : Str
  Messages : Nat
  UidNext : Nat
deriving DecidableEq, Repr

/-- The type `imap.SearchCriteria`, with the fields the program sets: the
header fields searched for (a `textproto.MIMEHeader`), the bounds on the
internal date (the zero time when unset) and the texts searched for. -/
structure SearchCriteria where
  Header : List (Str × List Str)
  Since : Time
  Before : Time
  Text : List Str
deriving DecidableEq, Repr

/-- The function `imap.NewSearchCriteria`. -/
def NewSearchCriteria : SearchCriteria :=
  { Header := [], Since := Time.zero, Before := Time.zero, Text := [] }

/-- The method `Set` of `textproto.MIMEHeader`, for a key in canonical form:
the key is bound to the single value. -/
def HeaderSet (h : List (Str × List Str)) (key value : Str) : List (Str × List Str) :=
  (key, [value]) :: h.filter (fun kv => kv.1 != key)

/-- The method `Get` of `textproto.MIMEHeader`, with `none` for a key that is
not bound. -/
def HeaderGet (h : List (Str × List Str)) (key : Str) : Option (List Str) :=
  (h.find? (fun kv => kv.1 == key)).map (·.2)

/-- The method `buildSearchCriteria`. -/
def buildSearchCriteria (intent : Intent) : SearchCriteria :=
  let criteria := NewSearchCriteria
  let criteria :=
    if intent.Sender ≠ [] then
      if intent.AllFromSender then criteria
      else { criteria with Header := HeaderSet criteria.Header "From".toList intent.Sender }
    else criteria
  let criteria :=
    match intent.DateRange with
    | some r => { criteria with Since := r.Start, Before := r.End }
    | none => criteria
  match intent.Keywords with
  | k :: _ => { criteria with Text := [k] }
  | [] => criteria

/-- The behaviour of the IMAP client at the calls of the one-shot search:
`Select`, `Search`, and `Fetch`, which streams messages and then reports. -/
structure Store where
  Select : Str → Except Str MailboxStatus
  Search : SearchCriteria → Except Str (List Nat)
  Fetch : List Nat → List Message × Option Str

/-- The text `mailbox@host` of an address. -/
def addrSpec (addr : Address) : Str := addr.MailboxName ++ "@".toList ++ addr.HostName

/-- The loop of `fetchMessages` over the streamed messages. -/
def fetchedEmails : List Message → List Email
  | [] => []
  | msg :: rest =>
    match msg.Envelope with
    | none => fetchedEmails rest
    | some env =>
      let sender : Str :=
        match env.From with
        | addr :: _ =>
          if addr.PersonalName ≠ [] then
            addr.PersonalName ++ " <".toList ++ addrSpec addr ++ ">".toList
          else addrSpec addr
        | [] => "Unknown".toList
      { ID := (Nat.repr msg.SeqNum).toList, From := sender, Subject := env.Subject,
        Date := msg.InternalDate, Body := [] } :: fetchedEmails rest

/-- The method `fetchMessages`; the error of the fetch is only logged. -/
def fetchMessages (store : Store) (seqNums : List Nat) : List Email :=
  if seqNums.length = 0 then []
  else fetchedEmails (store.Fetch seqNums).1

/-- The method `matchesIntent`. -/
def matchesIntent (email : Email) (intent : Intent) : Bool :=
  if intent.Sender ≠ [] ∧
      (if intent.AllFromSender then
        (!HasSuffix (ToLower email.From) ("@".toList ++ ToLower intent.Sender) &&
          !Contains (ToLower email.From) (ToLower intent.Sender))
      else !Contains (ToLower email.From) (ToLower intent.Sender)) then false
  else if intent.Keywords.length > 0 ∧
      !(intent.Keywords.any fun keyword =>
        Contains (ToLower (email.Subject ++ " ".toList ++ email.Body)) (ToLower keyword)) then false
  else
    match intent.DateRange with
    | some r => if email.Date.Before r.Start || email.Date.After r.End then false else true
    | none => true

/-- The method `FilterEmails`. -/
def FilterEmails (emails : List Email) (intent : Intent) : List Email :=
  emails.foldl (fun filtered email =>
    if matchesIntent email intent then filtered ++ [email] else filtered) []

/-- The errors of `Validate`. -/
inductive ValidateError where
  | nilIntent
  | searchRequires
  | listenRequiresSender
  | listenKeywords
  | unknownCommand (cmd : CommandType)
deriving DecidableEq, Repr

/-- The method `Validate`; `none` is the nil intent. -/
def Validate (intent : Option Intent) : Except ValidateError Unit :=
  match intent with
  | none => .error .nilIntent
  | some intent =>
    if intent.Command = CommandSearch then
      if intent.Keywords.length = 0 ∧ intent.Sender = [] then .error .searchRequires
      else .ok ()
    else if intent.Command = CommandListen then
      if intent.Sender = [] then .error .listenRequiresSender
      else if intent.Keywords.length > 0 then .error .listenKeywords
      else .ok ()
    else .error (.unknownCommand intent.Command)

/-- A number in decimal, padded with zeros to `width` digits. -/
def zeroPad (width : Nat) (x : Int) : Str :=
  let digits := (Nat.repr x.natAbs).toList
  (if x < 0 then ['-'] else []) ++ List.replicate (width - digits.length) '0' ++ digits

/-- The method `Format` with the layout `"2006-01-02 15:04:05"`. -/
def formatDateTime (t : Time) : Str :=
  zeroPad 4 t.Year ++ ['-'] ++ zeroPad 2 t.Month ++ ['-'] ++ zeroPad 2 t.Day ++ [' '] ++
  zeroPad 2 t.Hour ++ [':'] ++ zeroPad 2 t.Minute ++ [':'] ++ zeroPad 2 t.Second

/-- An entry of the `results` of `executeSearch`: the values at the keys
`from`, `subject` and `date`. -/
structure SearchResult where
  sender : Str
  subject : Str
  date : Str
deriving DecidableEq, Repr

/-- The value `executeSearch` returns: the values at the keys `command`,
`count` and `results`. -/
structure SearchOutput where
  command : Str
  count : Nat
  results : List SearchResult
deriving DecidableEq, Repr

/-- The errors of `executeSearch`. -/
inductive ExecError where
  | selectFailed (err : Str)
  | searchFailed (err : Str)
deriving DecidableEq, Repr

/-- The method `executeSearch`, without what it prints. -/
def executeSearch (store : Store) (intent : Intent) : Except ExecError SearchOutput :=
  match store.Select "INBOX".toList with
  | .error err => .error (.selectFailed err)
  | .ok _ =>
    let criteria := buildSearchCriteria intent
    match store.Search criteria with
    | .error err => .error (.searchFailed err)
    | .ok seqNums =>
      if seqNums.length = 0 then
        .ok { command := "search".toList, count := 0, results := [] }
      else
        let messages := fetchMessages store seqNums
        let results := messages.foldl (fun results msg =>
          results ++ [{ sender := msg.From, subject := msg.Subject,
                        date := formatDateTime msg.Date }]) []
        .ok { command := "search".toList, count := messages.length, results := results }

/-- One turn of the polling loop of `executeListen`, as the client answers it:
the selection fails, or it reports a mailbox status and the fetch, if the
program issues one, streams the given messages. -/
inductive Poll where
  | selectError (err : Str)
  | selected (mbox : MailboxStatus) (stream : List Message)
deriving DecidableEq, Repr

/-- What one turn of the polling loop does: the value of `lastUID` before and
after it, the bounds given to `AddRange` when a fetch was issued, and the
messages for which the notification was printed. -/
structure PollResult where
  start : Nat
  lastUID : Nat
  fetched : Option (Nat × Nat)
  notified : List Message
deriving DecidableEq, Repr

/-- The test of the loop of `executeListen` on a streamed message: whether the
notification is printed for it. -/
def notifies (intent : Intent) (msg : Message) : Bool :=
  match msg.Envelope with
  | none => false
  | some env =>
    match env.From with
    | [] => false
    | addr :: _ => Contains (ToLower (addrSpec addr)) (ToLower intent.Sender)

/-- The loop of `executeListen` over the streamed messages: `lastUID` after
it and the messages notified. -/
def drain (intent : Intent) : Nat → List Message → Nat × List Message
  | lastUID, [] => (lastUID, [])
  | _, msg :: rest =>
    let lastUID := msg.Uid
    let r := drain intent lastUID rest
    (r.1, if notifies intent msg then msg :: r.2 else r.2)

/-- One turn of the polling loop of `executeListen`, in `uint32` arithmetic. -/
def pollOnce (intent : Intent) (lastUID : Nat) : Poll → PollResult
  | .selectError _ => { start := lastUID, lastUID := lastUID, fetched := none, notified := [] }
  | .selected mbox stream =>
    if mbox.UidNext ≤ (lastUID + 1) % 2 ^ 32 then
      { start := lastUID, lastUID := lastUID, fetched := none, notified := [] }
    else
      let r := drain intent lastUID stream
      { start := lastUID
        lastUID := r.1
        fetched := some ((lastUID + 1) % 2 ^ 32, (mbox.UidNext + 2 ^ 32 - 1) % 2 ^ 32)
        notified := r.2 }

/-- The polling loop of `executeListen` over the given turns. -/
def pollLoop (intent : Intent) : Nat → List Poll → List PollResult
  | _, [] => []
  | lastUID, p :: ps =>
    let r := pollOnce intent lastUID p
    r :: pollLoop intent r.lastUID ps

/-- The method `executeListen`, run for the given turns of its loop: `first`
is the answer to the selection before the loop. The value of `lastUID` before
the loop comes first in the result. -/
def executeListen (intent : Intent) (first : Except Str MailboxStatus) (polls : List Poll) :
    Except Str (Nat × List PollResult) :=
  match first with
  | .error err => .error err
  | .ok mbox =>
    let lastUID := (mbox.UidNext + 2 ^ 32 - 1) % 2 ^ 32
    .ok (lastUID, pollLoop intent lastUID polls)

/-! ## The statements of the specification, as definitions -/

/-- The keywords the specification gives for a quoted keyword span: the span
is split at every `,`, `|` and `&`, the fragments are trimmed, and the empty
ones are dropped. -/
def specKeywords (span : Str) : List Str :=
  ((span.splitOnP fun c => c == ',' || c == '|' || c == '&').map TrimSpace).filter (· ≠ [])

/-- The sender and the wildcard flag the specification gives for a trimmed
sender value: a leading `*@`, or a leading `*`, is removed and sets the flag. -/
def specSender (v : Str) : Str × Bool :=
  match v with
  | '*' :: '@' :: rest => (rest, true)
  | '*' :: rest => (rest, true)
  | _ => (v, false)

/-- The messages a turn of the polling loop streams when a fetch is issued. -/
def Poll.stream : Poll → List Message
  | .selectError _ => []
  | .selected _ stream => stream

/-- The next identifier a turn reports is a `uint32`. -/
def Poll.WellTyped : Poll → Prop
  | .selectError _ => True
  | .selected mbox _ => mbox.UidNext < 2 ^ 32

/-- The store honours the range of a turn started at `lastUID`: when a fetch is
issued, every message streamed has its identifier within the bounds requested. -/
def HonoursRange (intent : Intent) (lastUID : Nat) (p : Poll) : Prop :=
  match (pollOnce intent lastUID p).fetched with
  | some (lo, hi) => ∀ m ∈ p.stream, lo ≤ m.Uid ∧ m.Uid ≤ hi
  | none => True

/-- The store honours the range of every turn of the loop started at `lastUID`. -/
def RunHonoursRange (intent : Intent) : Nat → List Poll → Prop
  | _, [] => True
  | lastUID, p :: ps =>
    HonoursRange intent lastUID p ∧ RunHonoursRange intent (pollOnce intent lastUID p).lastUID ps

/-- The messages of every turn are streamed in strictly ascending order of
identifier. -/
def RunAscending (polls : List Poll) : Prop :=
  ∀ p ∈ polls, (p.stream.map (·.Uid)).Pairwise (· < ·)

instance Poll.decWellTyped (p : Poll) : Decidable p.WellTyped := by
  cases p <;> unfold Poll.WellTyped <;> infer_instance

instance decHonoursRange (intent : Intent) (lastUID : Nat) (p : Poll) :
    Decidable (HonoursRange intent lastUID p) := by
  unfold HonoursRange
  split <;> infer_instance

instance decRunHonoursRange (intent : Intent) :
    (lastUID : Nat) → (polls : List Poll) → Decidable (RunHonoursRange intent lastUID polls)
  | _, [] => isTrue trivial
  | lastUID, p :: ps =>
    have := decRunHonoursRange intent (pollOnce intent lastUID p).lastUID ps
    inferInstanceAs (Decidable (HonoursRange intent lastUID p ∧
      RunHonoursRange intent (pollOnce intent lastUID p).lastUID ps))

instance decRunAscending (polls : List Poll) : Decidable (RunAscending polls) := by
  unfold RunAscending
  infer_instance

/-- A message from `mailbox@example.org` with the given identifier. -/
def sampleMessage (uid : Nat) (mailbox : String) : Message :=
  { SeqNum := uid, Uid := uid,
    Envelope := some { Subject := "hello".toList,
                       From := [{ PersonalName := [], MailboxName := mailbox.toList,
                                  HostName := "example.org".toList }] },
    InternalDate := { unix := 1700000000, nsec := 0, offset := 0 } }

/-- A mailbox status with the given next identifier. -/
def sampleStatus (uidNext : Nat) : MailboxStatus :=
  { Name := "[Gmail]/All Mail".toList, Messages := 0, UidNext := uidNext }

/-- The intent of `listen from "bob"`. -/
def listenBob : Intent :=
  { Command := CommandListen, Keywords := [], Sender := "bob".toList, DateRange := none,
    AllFromSender := false }

/-- The intent of `search for "hello" from "*@corp.com"`, a wildcard sender. -/
def searchCorp : Intent :=
  { Command := CommandSearch, Keywords := ["hello".toList], Sender := "corp.com".toList, DateRange := none,
    AllFromSender := true }

/-- A store whose search finds one message, from `bob@example.org`. -/
def sampleStore : Store :=
  { Select := fun _ => .ok (sampleStatus 8)
    Search := fun _ => .ok [1]
    Fetch := fun _ => ([sampleMessage 1 "bob"], none) }

/-- The order of instants: `t` is not after `u`. -/
def Time.notAfter (t u : Time) : Prop :=
  t.unix < u.unix ∨ (t.unix = u.unix ∧ t.nsec ≤ u.nsec)

/-- The order of instants: `t` is strictly before `u`. -/
def Time.strictlyBefore (t u : Time) : Prop :=
  t.unix < u.unix ∨ (t.unix = u.unix ∧ t.nsec < u.nsec)

/-- Modelled from the spec: the search of the mail store, which is not part of
the repository. A message satisfies the criteria when its from-address contains
the value of the header criterion `From`, its date is on or after `Since`, and
its date is strictly before `Before`, which is exclusive. -/
def storeAccepts (criteria : SearchCriteria) (email : Email) : Bool :=
  ((HeaderGet criteria.Header "From".toList).getD []).all (fun v => Contains email.From v) &&
  !email.Date.Before criteria.Since && email.Date.Before criteria.Before

/-- The intent of `search for ... from "bob"` over the first day of 2024, without
keywords: the range is 2024-01-01T00:00:00Z to 2024-01-01T23:59:59Z. -/
def searchBobNewYear : Intent :=
  { Command := CommandSearch, Keywords := [], Sender := "bob".toList,
    DateRange := some { Start := { unix := 1704067200, nsec := 0, offset := 0 },
                        End := { unix := 1704153599, nsec := 0, offset := 0 } },
    AllFromSender := false }

/-- A message from `bob@example.org` with the given date. -/
def emailFromBob (date : Time) : Email :=
  { ID := "1".toList, From := "bob@example.org".toList, Subject := "hello".toList,
    Date := date, Body := [] }

/-- The offsets of a location: the first one and those of its transitions. -/
def Location.offsets (l : Location) : List Int := l.offset :: l.zone.map Prod.snd

/-- Every offset of the location is within a day of UTC. -/
def Location.bounded (l : Location) : Prop := ∀ o ∈ l.offsets, -86400 ≤ o ∧ o ≤ 86400

/-- Any two offsets of the location differ by less than a day. -/
def Location.narrow (l : Location) : Prop :=
  ∀ a ∈ l.offsets, ∀ b ∈ l.offsets, a - b < 86400

/-- The zone table is stable at the wall-clock second `L`: the offset it gives
at `L`, read as an instant, is also the offset in force at the instant that lies
this offset before `L`. So it is everywhere in a location of fixed offset; in a
location with transitions it fails only within an offset of a transition. -/
def Location.stable (l : Location) (L : Int) : Prop :=
  (l.lookup (L - (l.lookup L).1)).1 = (l.lookup L).1

instance Location.decBounded (l : Location) : Decidable l.bounded := by
  unfold Location.bounded
  infer_instance

instance Location.decNarrow (l : Location) : Decidable l.narrow := by
  unfold Location.narrow
  infer_instance

instance Location.decStable (l : Location) (L : Int) : Decidable (l.stable L) := by
  unfold Location.stable
  infer_instance

/-- The instant lies between 0001-01-01T00:00:00Z and 9999-12-31T23:59:59Z. -/
def Time.inRange (t : Time) : Prop := -62135596800 ≤ t.unix ∧ t.unix ≤ 253402300799

instance Time.decInRange (t : Time) : Decidable t.inRange := by
  unfold Time.inRange
  infer_instance

/-- The instant `time.Date` returns for the wall-clock second `L`, counted from
1970-01-01T00:00:00, of a location. -/
def Time.ofWall (L : Int) (nsec : Nat) (loc : IntentEngine.Location) : Time :=
  Time.Date 1970 1 1 0 0 L nsec loc

/-- The wall-clock second `L` is settled in a location when `time.Date` resolves
it to an instant at which the wall clock of the location reads `L`. A wall-clock
second that a zone transition skips is not settled, nor is one out of the range
of 64-bit seconds. -/
def Location.settled (l : Location) (L : Int) : Prop := (Time.ofWall L 0 l).wall = L

instance Location.decSettled (l : Location) (L : Int) : Decidable (l.settled L) := by
  unfold Location.settled
  infer_instance

/-- The wall-clock second `c` of the day `k` days after the day of `t` is
settled in the location of `t`. -/
def Time.settledAt (t : Time) (k c : Int) : Prop :=
  t.Location.settled ((t.wall / 86400 + k) * 86400 + c)

instance Time.decSettledAt (t : Time) (k c : Int) : Decidable (t.settledAt k c) := by
  unfold Time.settledAt
  infer_instance

/-- The method `AddDate` by `k` days lands on the day `k` days after the day of
`now` in the calendar. -/
def Time.lands (now : Time) (k : Int) : Prop :=
  (now.AddDate 0 0 k).wall / 86400 = now.wall / 86400 + k

instance Time.decLands (now : Time) (k : Int) : Decidable (now.lands k) := by
  unfold Time.lands
  infer_instance

/-- The first instant of the day of `t`, as `parseDateRange` computes it:
`time.Date` at the year, month and day of `t`, 00:00:00, in the location of `t`. -/
def dayStart (t : Time) : Time := Time.Date t.Year t.Month t.Day 0 0 0 0 t.Location

/-- The last second of the day of `t`, as `parseDateRange` computes it:
`time.Date` at the year, month and day of `t`, 23:59:59, in the location of `t`. -/
def dayEnd (t : Time) : Time := Time.Date t.Year t.Month t.Day 23 59 59 0 t.Location

/-- The instant `time.Date` returns for 00:00:00 of the day `k` days after the
day of `t` (before it, for a negative `k`) in the location of `t`. -/
def startOfDay (t : Time) (k : Int) : Time :=
  Time.ofWall ((t.wall / 86400 + k) * 86400) 0 t.Location

/-- The instant `time.Date` returns for 23:59:59 of the day `k` days after the
day of `t` in the location of `t`. -/
def endOfDay (t : Time) (k : Int) : Time :=
  Time.ofWall ((t.wall / 86400 + k) * 86400 + 86399) 0 t.Location

/-- The text `YYYY-MM-DD` of a year, a month and a day: the last four decimal
digits of the year, a hyphen, the last two of the month, a hyphen, the last two
of the day. -/
def isoDate (y m d : Nat) : Str :=
  [Nat.digitChar (y / 1000 % 10), Nat.digitChar (y / 100 % 10), Nat.digitChar (y / 10 % 10),
    Nat.digitChar (y % 10), '-', Nat.digitChar (m / 10 % 10), Nat.digitChar (m % 10), '-',
    Nat.digitChar (d / 10 % 10), Nat.digitChar (d % 10)]

/-- The expression holds no group of index `i`. -/
def Regex.groupFree (i : Nat) : Regex → Bool
  | cat a b => a.groupFree i && b.groupFree i
  | alt a b => a.groupFree i && b.groupFree i
  | capture j r => j != i && r.groupFree i
  | _ => true

open Regex in
/-- The part of `commandPattern` that follows the command word. -/
def commandTail : List Regex :=
  [plus space, opt (alt (litFold "for") (litFold "on")), star space,
    lit "\"", capture 2 (plus (· != '"')), lit "\"",
    plus space, litFold "from", plus space,
    lit "\"", capture 3 (plus (· != '"')), lit "\"",
    opt (seq [plus space, lit "[", capture 4 (plus (· != ']')), lit "]"]),
    star space, endText]

open Regex in
/-- The part of `listenPattern` that follows the command word. -/
def listenTail : List Regex :=
  [plus space, litFold "from", plus space,
    lit "\"", capture 1 (plus (· != '"')), lit "\"", star space, endText]

/-- The text `w` is the word `word` of lower-case letters with every letter in
lower or in upper case. -/
def caseVariant : Str → Str → Bool
  | [], [] => true
  | c :: cs, x :: xs => (x == c || x == c.toUpper) && caseVariant cs xs
  | _, _ => false

/-- The test the specification gives for a notification: the message has an
envelope with at least one from-address, and the sender, in lower case, is a
substring of `mailbox@host` of the first from-address, in lower case. -/
def specNotifies (sender : Str) (msg : Message) : Bool :=
  match msg.Envelope with
  | none => false
  | some env =>
    match env.From.head? with
    | none => false
    | some addr =>
      decide (ToLower sender <:+: ToLower (addr.MailboxName ++ "@".toList ++ addr.HostName))

/-- A message with the given identifier and no envelope. -/
def bareMessage (uid : Nat) : Message :=
  { SeqNum := uid, Uid := uid, Envelope := none,
    InternalDate := { unix := 1700000000, nsec := 0, offset := 0 } }

/-- The text `k` is the text `f` with its leading and trailing white space cut
off: `f` is `k` between two runs of white space, and `k` neither begins nor
ends with white space. -/
def Trims (k f : Str) : Prop :=
  ∃ pre post : Str, f = pre ++ k ++ post ∧ (∀ c ∈ pre, isSpace c = true) ∧
    (∀ c ∈ post, isSpace c = true) ∧ (∀ c ∈ k.head?, isSpace c = false) ∧
    (∀ c ∈ k.getLast?, isSpace c = false)

/-- The fragments of a keyword span: the span split at every `,`, `|` and `&`. -/
def fragments (span : Str) : List Str :=
  span.splitOnP fun c => c == ',' || c == '|' || c == '&'

/-! ## Lemmas on strings and patterns -/

theorem contains_iff_infix (s sub : Str) : Contains s sub = true ↔ sub <:+: s := by
  induction s with
  | nil => cases sub <;> simp [Contains]
  | cons c cs ih =>
    rw [Contains, Bool.or_eq_true, ih, List.infix_cons_iff, List.isPrefixOf_iff_prefix]

theorem hasSuffix_iff_suffix (s suf : Str) : HasSuffix s suf = true ↔ suf <:+ s := by
  simp [HasSuffix]

theorem trimSpace_nil : TrimSpace [] = [] := rfl

theorem fieldsLoop_eq (f : Char → Bool) (s : Str) :
    fieldsLoop f s none = (s.splitOnP f).filter (· ≠ []) ∧
    ∀ w : Str, w ≠ [] →
      fieldsLoop f s (some w) = ((s.splitOnP f).modifyHead (w ++ ·)).filter (· ≠ []) := by
  induction s with
  | nil =>
    refine ⟨by simp [fieldsLoop], fun w hw => ?_⟩
    simp [fieldsLoop, List.modifyHead, hw]
  | cons c cs ih =>
    obtain ⟨ih1, ih2⟩ := ih
    by_cases hc : f c = true
    · refine ⟨?_, fun w hw => ?_⟩
      · simp [fieldsLoop, hc, List.splitOnP_cons, ih1]
      · simp [fieldsLoop, hc, List.splitOnP_cons, ih1, List.modifyHead, hw]
    · refine ⟨?_, fun w hw => ?_⟩
      · simp only [fieldsLoop, hc, List.splitOnP_cons]
        rw [ih2 [c] (by simp)]
        simp
      · simp only [fieldsLoop, hc, List.splitOnP_cons]
        rw [ih2 (w ++ [c]) (by simp)]
        cases List.splitOnP f cs <;> simp [List.modifyHead]

theorem fieldsFunc_eq (f : Char → Bool) (s : Str) :
    FieldsFunc s f = (s.splitOnP f).filter (· ≠ []) := (fieldsLoop_eq f s).1


theorem Regex.findFrom_length (re : Regex) (n : Nat) (s : Str) (g : List Str)
    (h : Regex.findFrom re n s = some g) : g.length = re.numSubexp + 1 := by
  induction s with
  | nil =>
    unfold Regex.findFrom at h
    split at h
    · cases h; simp
    · cases h
  | cons c cs ih =>
    unfold Regex.findFrom at h
    split at h
    · cases h; simp
    · exact ih h

theorem parseDateRange_eq (now : Time) (intent : Intent) (dateStr : Str) :
    parseDateRange now intent dateStr =
      match parseDateRange now (NewIntent CommandSearch) dateStr with
      | .ok j => .ok { intent with DateRange := j.DateRange }
      | .error e => .error e := by
  unfold parseDateRange
  simp only []
  repeat' split
  all_goals first
    | rfl
    | (simp_all [Intent.SetRecentRange, Intent.SetDateRange]; done)
    | (simp_all [Intent.SetRecentRange, Intent.SetDateRange]; rename_i h; rw [← h])

theorem foldl_addKeyword (parts : List Str) (intent : Intent) :
    parts.foldl (fun (i : Intent) part =>
        let trimmed := TrimSpace part
        if trimmed ≠ [] then i.AddKeyword trimmed else i) intent =
      { intent with Keywords := intent.Keywords ++ (parts.map TrimSpace).filter (· ≠ []) } := by
  induction parts generalizing intent with
  | nil => simp
  | cons p ps ih =>
    rw [List.foldl_cons, ih]
    by_cases h : TrimSpace p = []
    · simp [h]
    · simp [h, Intent.AddKeyword]


theorem filter_map_trim_filter (l : List Str) :
    (((l.filter (· ≠ [])).map TrimSpace).filter (· ≠ [])) = (l.map TrimSpace).filter (· ≠ []) := by
  induction l with
  | nil => rfl
  | cons x xs ih =>
    by_cases hx : x = []
    · subst hx
      simpa [trimSpace_nil] using ih
    · by_cases ht : TrimSpace x = []
      · simpa [hx, ht] using ih
      · simpa [hx, ht] using ih

theorem setParsedSender_eq (intent : Intent) (v : Str) :
    setParsedSender intent v =
      { intent with Sender := (specSender v).1, AllFromSender := (specSender v).2 } := by
  unfold setParsedSender specSender Intent.SetSender
  split
  · simp [HasPrefix, TrimPrefix]
  · rename_i rest h
    cases rest with
    | nil => simp [HasPrefix, TrimPrefix]
    | cons d rest =>
      have hd : d ≠ '@' := fun hd => h rest (by rw [hd])
      simp [HasPrefix, TrimPrefix, hd, hd.symm]
  · rename_i h1 h2
    cases v with
    | nil => simp [HasPrefix, TrimPrefix]
    | cons c rest =>
      have hc : c ≠ '*' := fun hc => h2 rest (by rw [hc])
      simp [HasPrefix, TrimPrefix, hc, hc.symm, List.isPrefixOf]

theorem parseFullCommand_eq (now : Time) (groups : List Str) (hlen : groups.length = 5) :
    parseFullCommand now groups =
      if ToLower (groups.getD 1 []) = "search".toList then
        if groups.getD 4 [] ≠ [] then
          match parseDateRange now (NewIntent CommandSearch) (TrimSpace (groups.getD 4 [])) with
          | .ok j => .ok
              { Command := CommandSearch, Keywords := specKeywords (groups.getD 2 []),
                Sender := (specSender (TrimSpace (groups.getD 3 []))).1,
                DateRange := j.DateRange,
                AllFromSender := (specSender (TrimSpace (groups.getD 3 []))).2 }
          | .error e => .error (.invalidDateRange e)
        else .ok
              { Command := CommandSearch, Keywords := specKeywords (groups.getD 2 []),
                Sender := (specSender (TrimSpace (groups.getD 3 []))).1,
                DateRange := none,
                AllFromSender := (specSender (TrimSpace (groups.getD 3 []))).2 }
      else if ToLower (groups.getD 1 []) = "listen".toList then
        if groups.getD 4 [] ≠ [] then
          match parseDateRange now (NewIntent CommandSearch) (TrimSpace (groups.getD 4 [])) with
          | .ok j =>
            if specKeywords (groups.getD 2 []) ≠ [] then .error .listenKeywords
            else .ok
              { Command := CommandListen, Keywords := [],
                Sender := (specSender (TrimSpace (groups.getD 3 []))).1,
                DateRange := j.DateRange,
                AllFromSender := (specSender (TrimSpace (groups.getD 3 []))).2 }
          | .error e => .error (.invalidDateRange e)
        else if specKeywords (groups.getD 2 []) ≠ [] then .error .listenKeywords
        else .ok
              { Command := CommandListen, Keywords := [],
                Sender := (specSender (TrimSpace (groups.getD 3 []))).1,
                DateRange := none,
                AllFromSender := (specSender (TrimSpace (groups.getD 3 []))).2 }
      else .error (.unknownCommand (ToLower (groups.getD 1 []))) := by
  have hkw : ∀ i : Intent,
      (if groups.getD 2 [] ≠ [] then
          (FieldsFunc (groups.getD 2 []) fun r => r == ',' || r == '|' || r == '&').foldl
            (fun (i : Intent) part =>
              let trimmed := TrimSpace part
              if trimmed ≠ [] then i.AddKeyword trimmed else i) i
        else i) = { i with Keywords := i.Keywords ++ specKeywords (groups.getD 2 []) } := by
    intro i
    by_cases h2 : groups.getD 2 [] = []
    · rw [if_neg (not_not_intro h2), h2]
      simp [specKeywords, trimSpace_nil]
    · rw [if_pos h2, foldl_addKeyword, fieldsFunc_eq, filter_map_trim_filter]; rfl
  have hsend : ∀ i : Intent,
      (if TrimSpace (groups.getD 3 []) ≠ [] then setParsedSender i (TrimSpace (groups.getD 3 []))
        else i) = if TrimSpace (groups.getD 3 []) ≠ [] then
          { i with Sender := (specSender (TrimSpace (groups.getD 3 []))).1,
                   AllFromSender := (specSender (TrimSpace (groups.getD 3 []))).2 } else i := by
    intro i; simp only [setParsedSender_eq]
  unfold parseFullCommand
  simp only [hlen, hkw, hsend]
  have hs0 : specSender ([] : Str) = ([], false) := rfl
  have hcl : (CommandSearch = CommandListen) = False := by simp; decide
  have hll : (CommandListen = CommandListen) = True := by simp
  have h54 : ((5:Nat) < 4) = False := by simp
  have h45 : ((5:Nat) > 4) = True := by simp
  by_cases h1 : ToLower (groups.getD 1 []) = "search".toList
  · rw [if_pos h1, if_pos h1]
    simp only [h54, h45, if_false, hcl, false_and, true_and]
    by_cases h4 : groups.getD 4 [] = []
    · rw [if_neg (not_not_intro h4), if_neg (not_not_intro h4)]
      by_cases h3 : TrimSpace (groups.getD 3 []) = []
      · rw [if_neg (not_not_intro h3), h3, hs0]; rfl
      · rw [if_pos h3]; rfl
    · rw [if_pos h4, if_pos h4]
      conv_lhs => rw [parseDateRange_eq]
      by_cases h3 : TrimSpace (groups.getD 3 []) = []
      · rw [if_neg (not_not_intro h3), h3, hs0]
        cases parseDateRange now (NewIntent CommandSearch) (TrimSpace (groups.getD 4 [])) <;> rfl
      · rw [if_pos h3]
        cases parseDateRange now (NewIntent CommandSearch) (TrimSpace (groups.getD 4 [])) <;> rfl
  · rw [if_neg h1, if_neg h1]
    by_cases h1l : ToLower (groups.getD 1 []) = "listen".toList
    · rw [if_pos h1l, if_pos h1l]
      simp only [h54, h45, if_false, hll, true_and]
      generalize specKeywords (groups.getD 2 []) = kw
      by_cases h4 : groups.getD 4 [] = []
      · rw [if_neg (not_not_intro h4), if_neg (not_not_intro h4)]
        by_cases h3 : TrimSpace (groups.getD 3 []) = []
        · rw [if_neg (not_not_intro h3), h3, hs0]
          cases kw <;> simp [NewIntent]
        · rw [if_pos h3]
          cases kw <;> simp [NewIntent]
      · rw [if_pos h4, if_pos h4]
        conv_lhs => rw [parseDateRange_eq]
        by_cases h3 : TrimSpace (groups.getD 3 []) = []
        · rw [if_neg (not_not_intro h3), h3, hs0]
          cases parseDateRange now (NewIntent CommandSearch) (TrimSpace (groups.getD 4 [])) with
          | error e => rfl
          | ok j =>
            cases kw <;> simp [NewIntent]
        · rw [if_pos h3]
          cases parseDateRange now (NewIntent CommandSearch) (TrimSpace (groups.getD 4 [])) with
          | error e => rfl
          | ok j =>
            cases kw <;> simp [NewIntent]
    · rw [if_neg h1l, if_neg h1l]
      simp only [h54, if_false]

theorem parse_of_primary (now : Time) (input : Str) (groups : List Str)
    (h : Regex.FindStringSubmatch commandPattern (TrimSpace input) = some groups) :
    Parse now input = parseFullCommand now groups ∧ groups.length = 5 := by
  have hne : TrimSpace input ≠ [] := by
    intro h0
    have hnil : Regex.FindStringSubmatch commandPattern [] = none := by decide
    rw [h0, hnil] at h
    cases h
  refine ⟨?_, ?_⟩
  · unfold Parse
    simp only [hne, if_false, h]
  · exact Regex.findFrom_length _ _ _ _ h

theorem parse_of_fallback (now : Time) (input : Str) (groups : List Str)
    (h0 : Regex.FindStringSubmatch commandPattern (TrimSpace input) = none)
    (h : Regex.FindStringSubmatch listenPattern (TrimSpace input) = some groups) :
    Parse now input = .ok
      { Command := CommandListen, Keywords := [],
        Sender := (specSender (TrimSpace (groups.getD 1 []))).1, DateRange := none,
        AllFromSender := (specSender (TrimSpace (groups.getD 1 []))).2 } := by
  have hne : TrimSpace input ≠ [] := by
    intro h1
    have hnil : Regex.FindStringSubmatch listenPattern [] = none := by decide
    rw [h1, hnil] at h
    cases h
  unfold Parse parseSimpleCommand
  simp only [hne, if_false, h0, h, setParsedSender_eq]
  rfl

theorem drain_fst (intent : Intent) (stream : List Message) (w : Nat) :
    (drain intent w stream).1 = ((stream.map (·.Uid)).getLast?).getD w := by
  induction stream generalizing w with
  | nil => rfl
  | cons m rest ih =>
    simp only [drain, ih, List.map_cons, List.getLast?_cons]
    cases (rest.map (·.Uid)).getLast? <;> rfl

theorem drain_snd (intent : Intent) (stream : List Message) (w : Nat) :
    (drain intent w stream).2 = stream.filter (notifies intent) := by
  induction stream generalizing w with
  | nil => rfl
  | cons m rest ih =>
    simp only [drain, ih, List.filter_cons]

theorem getLastD_mem (l : List Nat) (w : Nat) :
    (l = [] ∧ l.getLast?.getD w = w) ∨ l.getLast?.getD w ∈ l := by
  cases hl : l.getLast? with
  | none => exact Or.inl ⟨List.getLast?_eq_none_iff.mp hl, rfl⟩
  | some x => exact Or.inr (List.mem_of_getLast?_eq_some hl)

theorem pollOnce_start (intent : Intent) (w : Nat) (p : Poll) :
    (pollOnce intent w p).start = w := by
  cases p with
  | selectError e => rfl
  | selected mbox stream =>
    simp only [pollOnce]
    split_ifs <;> rfl

/-- One turn started below the largest `uint32`, with the range honoured. -/
theorem pollOnce_inRange (intent : Intent) (w : Nat) (p : Poll) (hw : w + 1 < 2 ^ 32)
    (ht : p.WellTyped) (hr : HonoursRange intent w p) :
    w ≤ (pollOnce intent w p).lastUID ∧ (pollOnce intent w p).lastUID + 1 < 2 ^ 32 ∧
    (∀ lo hi, (pollOnce intent w p).fetched = some (lo, hi) →
      lo = w + 1 ∧ lo ≤ hi ∧ hi + 1 < 2 ^ 32 ∧ (pollOnce intent w p).lastUID ≤ hi) ∧
    (∀ m ∈ (pollOnce intent w p).notified, w < m.Uid ∧ m ∈ p.stream) := by
  cases p with
  | selectError e => simp [pollOnce]; omega
  | selected mbox stream =>
    have hn : mbox.UidNext < 2 ^ 32 := ht
    unfold HonoursRange at hr
    unfold pollOnce at hr ⊢
    by_cases hg : mbox.UidNext ≤ (w + 1) % 2 ^ 32
    · simp only [hg, if_true]
      simp; omega
    · simp only [hg, if_false] at hr ⊢
      have h1 : (w + 1) % 2 ^ 32 = w + 1 := Nat.mod_eq_of_lt hw
      have h2 : (mbox.UidNext + 2 ^ 32 - 1) % 2 ^ 32 = mbox.UidNext - 1 := by omega
      rw [h1] at hg
      have hall : ∀ m ∈ stream, w + 1 ≤ m.Uid ∧ m.Uid ≤ mbox.UidNext - 1 := by
        rw [h1, h2] at hr
        exact hr
      have hu : ∀ x ∈ stream.map (·.Uid), w + 1 ≤ x ∧ x ≤ mbox.UidNext - 1 := by
        intro x hx
        obtain ⟨m, hm, rfl⟩ := List.mem_map.mp hx
        exact hall m hm
      have hb : (stream = [] ∧ (stream.map (·.Uid)).getLast?.getD w = w) ∨
          (w + 1 ≤ (stream.map (·.Uid)).getLast?.getD w ∧
            (stream.map (·.Uid)).getLast?.getD w ≤ mbox.UidNext - 1) := by
        rcases getLastD_mem (stream.map (·.Uid)) w with ⟨h, h'⟩ | h
        · exact Or.inl ⟨List.map_eq_nil_iff.mp h, h'⟩
        · exact Or.inr (hu _ h)
      rw [drain_fst, drain_snd, h1, h2]
      refine ⟨by omega, by omega, ?_, ?_⟩
      · intro lo hi h
        simp only [Option.some.injEq, Prod.mk.injEq] at h
        obtain ⟨rfl, rfl⟩ := h
        refine ⟨rfl, by omega, by omega, by omega⟩
      · intro m hm
        have hm1 := (List.mem_filter.mp hm).1
        exact ⟨by have := (hall m hm1).1; omega, hm1⟩


theorem pollLoop_length (intent : Intent) (polls : List Poll) (w : Nat) :
    (pollLoop intent w polls).length = polls.length := by
  induction polls generalizing w with
  | nil => rfl
  | cons p ps ih => simp [pollLoop, ih]

theorem pollLoop_mono (intent : Intent) (polls : List Poll) (w : Nat) (hw : w + 1 < 2 ^ 32)
    (ht : ∀ p ∈ polls, p.WellTyped) (hr : RunHonoursRange intent w polls) :
    (∀ r ∈ pollLoop intent w polls, w ≤ r.lastUID) ∧
    (pollLoop intent w polls).Pairwise (fun a b => a.lastUID ≤ b.lastUID) := by
  induction polls generalizing w with
  | nil => simp [pollLoop]
  | cons p ps ih =>
    obtain ⟨hr1, hr2⟩ := hr
    have hp := pollOnce_inRange intent w p hw (ht p (List.mem_cons_self _ _)) hr1
    have ih' := ih _ hp.2.1 (fun q hq => ht q (List.mem_cons_of_mem _ hq)) hr2
    simp only [pollLoop, List.mem_cons, List.pairwise_cons]
    refine ⟨?_, ih'.1, ih'.2⟩
    rintro r (rfl | hr)
    · exact hp.1
    · exact Nat.le_trans hp.1 (ih'.1 r hr)

theorem le_getLastD (l : List Nat) (w : Nat) (h : l.Pairwise (· ≤ ·)) :
    ∀ x ∈ l, x ≤ l.getLast?.getD w := by
  induction l generalizing w with
  | nil => simp
  | cons a l ih =>
    rw [List.pairwise_cons] at h
    intro x hx
    rw [List.getLast?_cons]
    simp only [Option.getD_some]
    rcases List.mem_cons.mp hx with rfl | hx
    · rcases getLastD_mem l x with ⟨_, h'⟩ | h'
      · rw [h']
      · exact h.1 _ h'
    · exact ih a h.2 x hx

theorem pollOnce_ascending (intent : Intent) (w : Nat) (p : Poll)
    (ha : (p.stream.map (·.Uid)).Pairwise (· < ·)) :
    (∀ m ∈ (pollOnce intent w p).notified, m.Uid ≤ (pollOnce intent w p).lastUID) ∧
    ((pollOnce intent w p).notified.map (·.Uid)).Pairwise (· < ·) := by
  cases p with
  | selectError e => simp [pollOnce]
  | selected mbox stream =>
    unfold pollOnce
    by_cases hg : mbox.UidNext ≤ (w + 1) % 2 ^ 32
    · simp only [hg, if_true]
      simp
    · simp only [hg, if_false, drain_fst, drain_snd]
      simp only [Poll.stream] at ha
      refine ⟨fun m hm => ?_, ?_⟩
      · exact le_getLastD _ w (ha.imp Nat.le_of_lt) _
          (List.mem_map_of_mem _ (List.mem_filter.mp hm).1)
      · exact ha.sublist (List.Sublist.map _ (List.filter_sublist _))

theorem pollLoop_notified (intent : Intent) (polls : List Poll) (w : Nat) (hw : w + 1 < 2 ^ 32)
    (ht : ∀ p ∈ polls, p.WellTyped) (hr : RunHonoursRange intent w polls)
    (ha : RunAscending polls) :
    (∀ r ∈ pollLoop intent w polls, ∀ m ∈ r.notified, w < m.Uid) ∧
    (((pollLoop intent w polls).flatMap (·.notified)).map (·.Uid)).Pairwise (· < ·) ∧
    (∀ r ∈ pollLoop intent w polls,
      (∀ lo hi, r.fetched = some (lo, hi) → r.start < lo ∧ lo ≤ hi) ∧
      ∀ m ∈ r.notified, r.start < m.Uid) := by
  induction polls generalizing w with
  | nil => simp [pollLoop]
  | cons p ps ih =>
    obtain ⟨hr1, hr2⟩ := hr
    have hp := pollOnce_inRange intent w p hw (ht p (List.mem_cons_self _ _)) hr1
    have hasc := pollOnce_ascending intent w p (ha p (List.mem_cons_self _ _))
    have ih' := ih _ hp.2.1 (fun q hq => ht q (List.mem_cons_of_mem _ hq)) hr2
      (fun q hq => ha q (List.mem_cons_of_mem _ hq))
    simp only [pollLoop, List.mem_cons, List.flatMap_cons, List.map_append, List.pairwise_append]
    refine ⟨?_, ⟨hasc.2, ih'.2.1, ?_⟩, ?_⟩
    · rintro r (rfl | hr) m hm
      · exact (hp.2.2.2 m hm).1
      · exact Nat.lt_of_le_of_lt hp.1 (ih'.1 r hr m hm)
    · intro a ha' b hb'
      obtain ⟨m, hm, rfl⟩ := List.mem_map.mp ha'
      obtain ⟨m', hm', rfl⟩ := List.mem_map.mp hb'
      obtain ⟨r, hr, hmr⟩ := List.mem_flatMap.mp hm'
      exact Nat.lt_of_le_of_lt (hasc.1 m hm) (ih'.1 r hr m' hmr)
    · rintro r (rfl | hr)
      · rw [pollOnce_start]
        refine ⟨fun lo hi h => ?_, fun m hm => (hp.2.2.2 m hm).1⟩
        have := hp.2.2.1 lo hi h
        omega
      · exact ih'.2.2 r hr

theorem pollLoop_streams (intent : Intent) (polls : List Poll) (w : Nat) (hw : w + 1 < 2 ^ 32)
    (ht : ∀ p ∈ polls, p.WellTyped) (hr : RunHonoursRange intent w polls) :
    ∀ pr ∈ polls.zip (pollLoop intent w polls), pr.2.fetched ≠ none →
      ∀ m ∈ pr.1.stream, pr.2.start < m.Uid := by
  induction polls generalizing w with
  | nil => simp [pollLoop]
  | cons p ps ih =>
    obtain ⟨hr1, hr2⟩ := hr
    have hp := pollOnce_inRange intent w p hw (ht p (List.mem_cons_self _ _)) hr1
    have ih' := ih _ hp.2.1 (fun q hq => ht q (List.mem_cons_of_mem _ hq)) hr2
    simp only [pollLoop, List.zip_cons_cons, List.mem_cons]
    rintro pr (rfl | hpr) hf m hm
    · simp only [pollOnce_start]
      simp only at hf hm
      unfold HonoursRange at hr1
      cases hfe : (pollOnce intent w p).fetched with
      | none => exact absurd hfe hf
      | some b =>
        obtain ⟨lo, hi⟩ := b
        rw [hfe] at hr1
        have h1 := (hr1 m hm).1
        have h2 := (hp.2.2.1 lo hi hfe).1
        omega
    · exact ih' pr hpr hf m hm

theorem trimSpace_of_all_space (s : Str) (h : s.all isSpace = true) : TrimSpace s = [] := by
  have : s.dropWhile isSpace = [] := by
    rw [List.dropWhile_eq_nil_iff]
    exact List.all_eq_true.mp h
  simp [TrimSpace, this]

theorem parse_of_neither (now : Time) (input : Str)
    (h0 : Regex.FindStringSubmatch commandPattern (TrimSpace input) = none)
    (h1 : Regex.FindStringSubmatch listenPattern (TrimSpace input) = none) :
    Parse now input =
      .error (if TrimSpace input = [] then .emptyCommand else .unableToParse) := by
  unfold Parse parseSimpleCommand
  by_cases h : TrimSpace input = []
  · simp only [h, if_true]
  · simp only [h, if_false, h0, h1]

theorem parse_ok_cases (now : Time) (input : Str) (intent : Intent)
    (h : Parse now input = .ok intent) :
    (intent.Command = CommandSearch ∧
      ∃ groups, Regex.FindStringSubmatch commandPattern (TrimSpace input) = some groups) ∨
    (intent.Command = CommandListen ∧ intent.Keywords = []) := by
  cases hm : Regex.FindStringSubmatch commandPattern (TrimSpace input) with
  | some groups =>
    obtain ⟨hp, hlen⟩ := parse_of_primary now input groups hm
    rw [hp, parseFullCommand_eq now groups hlen] at h
    split_ifs at h
    all_goals try split at h
    all_goals first
      | (cases h; exact Or.inl ⟨rfl, groups, rfl⟩)
      | (cases h; exact Or.inr ⟨rfl, rfl⟩)
      | cases h
  | none =>
    cases hl : Regex.FindStringSubmatch listenPattern (TrimSpace input) with
    | some groups =>
      rw [parse_of_fallback now input groups hm hl] at h
      cases h
      exact Or.inr ⟨rfl, rfl⟩
    | none =>
      rw [parse_of_neither now input hm hl] at h
      cases h

theorem validate_ok_cases (i : Intent) (h : Validate (some i) = .ok ()) :
    (i.Command = CommandSearch ∧ (i.Keywords ≠ [] ∨ i.Sender ≠ [])) ∨
    (i.Command = CommandListen ∧ i.Sender ≠ [] ∧ i.Keywords = []) := by
  have hcl : CommandListen ≠ CommandSearch := by decide
  unfold Validate at h
  by_cases hs : i.Command = CommandSearch
  · left
    refine ⟨hs, ?_⟩
    by_cases hk : i.Keywords = []
    · by_cases hsd : i.Sender = []
      · simp [hs, hk, hsd] at h
      · exact Or.inr hsd
    · exact Or.inl hk
  · right
    by_cases hl : i.Command = CommandListen
    · by_cases hk : i.Keywords = [] <;> by_cases hsd : i.Sender = []
      · simp [hl, hk, hsd, hcl] at h
      · exact ⟨hl, hsd, hk⟩
      · simp [hl, hk, hsd, hcl] at h
      · simp [hl, hk, hsd, hcl, List.length_pos] at h
    · simp [hs, hl] at h

theorem matchesIntent_sender_range (email : Email) (intent : Intent) (r : DateRange)
    (hs : intent.Sender ≠ []) (ha : intent.AllFromSender = false) (hk : intent.Keywords = [])
    (hr : intent.DateRange = some r) :
    matchesIntent email intent =
      (Contains (ToLower email.From) (ToLower intent.Sender) &&
        !email.Date.Before r.Start && !email.Date.After r.End) := by
  unfold matchesIntent
  rw [hr]
  cases hc : Contains (ToLower email.From) (ToLower intent.Sender) <;>
    cases hb : email.Date.Before r.Start <;> cases he : email.Date.After r.End <;>
    simp [hs, ha, hk, hc, hb, he]

theorem time_before_iff (t u : Time) : t.Before u = true ↔ Time.strictlyBefore t u := by
  simp [Time.Before, Time.strictlyBefore]

theorem time_not_before_iff (t u : Time) : t.Before u = false ↔ Time.notAfter u t := by
  simp only [Time.Before, Time.notAfter, Bool.or_eq_false_iff, Bool.and_eq_false_iff,
    decide_eq_false_iff_not, beq_eq_false_iff_ne, ne_eq]
  omega

theorem time_not_after_iff (t u : Time) : t.After u = false ↔ Time.notAfter t u := by
  simp only [Time.After, Time.notAfter, Bool.or_eq_false_iff, Bool.and_eq_false_iff,
    decide_eq_false_iff_not, beq_eq_false_iff_ne, ne_eq, gt_iff_lt]
  omega

/-! ## Lemmas on the calendar -/

namespace Time

theorem isLeap_iff (y : Int) :
    isLeap y = true ↔ (y % 4 = 0 ∧ (y % 100 ≠ 0 ∨ y % 400 = 0)) := by
  simp [isLeap]

theorem daysSinceYearOne_cycles (q n100 n4 n1 : Int) (h100 : 0 ≤ n100 ∧ n100 ≤ 3)
    (h4 : 0 ≤ n4 ∧ n4 ≤ 24) (h1 : 0 ≤ n1 ∧ n1 ≤ 3) :
    daysSinceYearOne (400 * q + 100 * n100 + 4 * n4 + n1 + 1) =
      146097 * q + 36524 * n100 + 1461 * n4 + 365 * n1 := by
  unfold daysSinceYearOne
  have e4 : (400 * q + 100 * n100 + 4 * n4 + n1 + 1 - 1) / 4 = 100 * q + 25 * n100 + n4 := by
    omega
  have e100 : (400 * q + 100 * n100 + 4 * n4 + n1 + 1 - 1) / 100 = 4 * q + n100 := by
    omega
  have e400 : (400 * q + 100 * n100 + 4 * n4 + n1 + 1 - 1) / 400 = q := by
    omega
  rw [e4, e100, e400]
  omega

theorem isLeap_cycles (q n100 n4 n1 : Int) (h100 : 0 ≤ n100 ∧ n100 ≤ 3)
    (h4 : 0 ≤ n4 ∧ n4 ≤ 24) (h1 : 0 ≤ n1 ∧ n1 ≤ 3) :
    isLeap (400 * q + 100 * n100 + 4 * n4 + n1 + 1) = true ↔
      (n1 = 3 ∧ (n4 ≠ 24 ∨ n100 = 3)) := by
  rw [isLeap_iff]
  have e4 : (400 * q + 100 * n100 + 4 * n4 + n1 + 1) % 4 = 0 ↔ n1 = 3 := by omega
  have e100 : (400 * q + 100 * n100 + 4 * n4 + n1 + 1) % 100 = 0 ↔ (n4 = 24 ∧ n1 = 3) := by
    omega
  have e400 : (400 * q + 100 * n100 + 4 * n4 + n1 + 1) % 400 = 0 ↔
      (n100 = 3 ∧ n4 = 24 ∧ n1 = 3) := by
    omega
  rw [e4, ne_eq, e100, e400]
  constructor
  · rintro ⟨h, h'⟩
    refine ⟨h, ?_⟩
    by_cases h24 : n4 = 24
    · right
      rcases h' with h' | h'
      · exact absurd ⟨h24, h⟩ h'
      · exact h'.1
    · exact Or.inl h24
  · rintro ⟨h, h'⟩
    refine ⟨h, ?_⟩
    rcases h' with h' | h'
    · exact Or.inl (fun hc => h' hc.1)
    · by_cases h24 : n4 = 24
      · exact Or.inr ⟨h', h24, h⟩
      · exact Or.inl (fun hc => h24 hc.1)

theorem yearDay_spec (D : Int) :
    daysSinceYearOne (yearDay D).1 + (yearDay D).2 = D ∧ 0 ≤ (yearDay D).2 ∧
    (yearDay D).2 < 365 + (if isLeap (yearDay D).1 = true then 1 else 0) := by
  obtain ⟨q, hq⟩ : ∃ q, q = D / 146097 := ⟨_, rfl⟩
  obtain ⟨a, ha⟩ : ∃ a, a = (D - 146097 * q) / 36524 := ⟨_, rfl⟩
  obtain ⟨n100, hn100⟩ : ∃ n, n = a - a / 4 := ⟨_, rfl⟩
  obtain ⟨n4, hn4⟩ : ∃ n, n = (D - 146097 * q - 36524 * n100) / 1461 := ⟨_, rfl⟩
  obtain ⟨b, hb⟩ : ∃ b, b = (D - 146097 * q - 36524 * n100 - 1461 * n4) / 365 := ⟨_, rfl⟩
  obtain ⟨n1, hn1⟩ : ∃ n, n = b - b / 4 := ⟨_, rfl⟩
  have hy : yearDay D = (400 * q + 100 * n100 + 4 * n4 + n1 + 1,
      D - 146097 * q - 36524 * n100 - 1461 * n4 - 365 * n1) := by
    simp only [yearDay, hq, ha, hn100, hn4, hb, hn1]
  rw [hy]
  simp only []
  have h1 : 0 ≤ D - 146097 * q ∧ D - 146097 * q < 146097 := by omega
  have h2 : 0 ≤ a ∧ a ≤ 4 := by omega
  have h3 : (a ≤ 3 ∧ n100 = a) ∨ (a = 4 ∧ n100 = 3) := by omega
  have h3' : 0 ≤ n100 ∧ n100 ≤ 3 := by omega
  have h4 : 0 ≤ D - 146097 * q - 36524 * n100 ∧ D - 146097 * q - 36524 * n100 ≤ 36524 := by
    omega
  have h4' : D - 146097 * q - 36524 * n100 = 36524 → n100 = 3 := by omega
  have h5 : 0 ≤ n4 ∧ n4 ≤ 24 := by omega
  have h6 : 0 ≤ D - 146097 * q - 36524 * n100 - 1461 * n4 ∧
      D - 146097 * q - 36524 * n100 - 1461 * n4 ≤ 1460 := by omega
  have h6' : D - 146097 * q - 36524 * n100 - 1461 * n4 = 1460 → n4 = 24 → n100 = 3 := by
    omega
  have h7 : 0 ≤ b ∧ b ≤ 4 := by omega
  have h8 : (b ≤ 3 ∧ n1 = b) ∨ (b = 4 ∧ n1 = 3) := by omega
  have h8' : 0 ≤ n1 ∧ n1 ≤ 3 := by omega
  have h9 : 0 ≤ D - 146097 * q - 36524 * n100 - 1461 * n4 - 365 * n1 ∧
      D - 146097 * q - 36524 * n100 - 1461 * n4 - 365 * n1 ≤ 365 := by omega
  have h9' : D - 146097 * q - 36524 * n100 - 1461 * n4 - 365 * n1 = 365 →
      (n1 = 3 ∧ D - 146097 * q - 36524 * n100 - 1461 * n4 = 1460) := by omega
  have hd := daysSinceYearOne_cycles q n100 n4 n1 h3' h5 h8'
  have hl := isLeap_cycles q n100 n4 n1 h3' h5 h8'
  refine ⟨by rw [hd]; omega, h9.1, ?_⟩
  split_ifs with h
  · omega
  · rw [hl] at h
    by_contra hc
    have h365 : D - 146097 * q - 36524 * n100 - 1461 * n4 - 365 * n1 = 365 := by omega
    obtain ⟨hn, hx⟩ := h9' h365
    apply h
    refine ⟨hn, ?_⟩
    by_cases h24 : n4 = 24
    · exact Or.inr (h6' hx h24)
    · exact Or.inl h24

theorem daysBefore_1 (y : Int) :
    daysBefore y 1 = 0 + (if (isLeap y && decide ((3 : Int) ≤ 1)) = true then 1 else 0) := rfl

theorem daysBefore_2 (y : Int) :
    daysBefore y 2 = 31 + (if (isLeap y && decide ((3 : Int) ≤ 2)) = true then 1 else 0) := rfl

theorem daysBefore_3 (y : Int) :
    daysBefore y 3 = 59 + (if (isLeap y && decide ((3 : Int) ≤ 3)) = true then 1 else 0) := rfl

theorem daysBefore_4 (y : Int) :
    daysBefore y 4 = 90 + (if (isLeap y && decide ((3 : Int) ≤ 4)) = true then 1 else 0) := rfl

theorem daysBefore_5 (y : Int) :
    daysBefore y 5 = 120 + (if (isLeap y && decide ((3 : Int) ≤ 5)) = true then 1 else 0) := rfl

theorem daysBefore_6 (y : Int) :
    daysBefore y 6 = 151 + (if (isLeap y && decide ((3 : Int) ≤ 6)) = true then 1 else 0) := rfl

theorem daysBefore_7 (y : Int) :
    daysBefore y 7 = 181 + (if (isLeap y && decide ((3 : Int) ≤ 7)) = true then 1 else 0) := rfl

theorem daysBefore_8 (y : Int) :
    daysBefore y 8 = 212 + (if (isLeap y && decide ((3 : Int) ≤ 8)) = true then 1 else 0) := rfl

theorem daysBefore_9 (y : Int) :
    daysBefore y 9 = 243 + (if (isLeap y && decide ((3 : Int) ≤ 9)) = true then 1 else 0) := rfl

theorem daysBefore_10 (y : Int) :
    daysBefore y 10 = 273 + (if (isLeap y && decide ((3 : Int) ≤ 10)) = true then 1 else 0) := rfl

theorem daysBefore_11 (y : Int) :
    daysBefore y 11 = 304 + (if (isLeap y && decide ((3 : Int) ≤ 11)) = true then 1 else 0) := rfl

theorem daysBefore_12 (y : Int) :
    daysBefore y 12 = 334 + (if (isLeap y && decide ((3 : Int) ≤ 12)) = true then 1 else 0) := rfl

theorem daysIn_1 (y : Int) : daysIn 1 y = 31 := rfl

theorem daysIn_2 (y : Int) : daysIn 2 y = if isLeap y = true then 29 else 28 := rfl

theorem daysIn_3 (y : Int) : daysIn 3 y = 31 := rfl

theorem daysIn_4 (y : Int) : daysIn 4 y = 30 := rfl

theorem daysIn_5 (y : Int) : daysIn 5 y = 31 := rfl

theorem daysIn_6 (y : Int) : daysIn 6 y = 30 := rfl

theorem daysIn_7 (y : Int) : daysIn 7 y = 31 := rfl

theorem daysIn_8 (y : Int) : daysIn 8 y = 31 := rfl

theorem daysIn_9 (y : Int) : daysIn 9 y = 30 := rfl

theorem daysIn_10 (y : Int) : daysIn 10 y = 31 := rfl

theorem daysIn_11 (y : Int) : daysIn 11 y = 30 := rfl

theorem daysIn_12 (y : Int) : daysIn 12 y = 31 := rfl

theorem monthDay_false (yd : Int) :
    monthDay false yd =
      if yd < 31 then (1, yd + 1)
      else if yd < 59 + 0 then (2, yd - 30)
      else if (yd - 0) < 90 then (3, (yd - 0) - 58)
      else if (yd - 0) < 120 then (4, (yd - 0) - 89)
      else if (yd - 0) < 151 then (5, (yd - 0) - 119)
      else if (yd - 0) < 181 then (6, (yd - 0) - 150)
      else if (yd - 0) < 212 then (7, (yd - 0) - 180)
      else if (yd - 0) < 243 then (8, (yd - 0) - 211)
      else if (yd - 0) < 273 then (9, (yd - 0) - 242)
      else if (yd - 0) < 304 then (10, (yd - 0) - 272)
      else if (yd - 0) < 334 then (11, (yd - 0) - 303)
      else (12, (yd - 0) - 333) := rfl

theorem monthDay_true (yd : Int) :
    monthDay true yd =
      if yd < 31 then (1, yd + 1)
      else if yd < 59 + 1 then (2, yd - 30)
      else if (yd - 1) < 90 then (3, (yd - 1) - 58)
      else if (yd - 1) < 120 then (4, (yd - 1) - 89)
      else if (yd - 1) < 151 then (5, (yd - 1) - 119)
      else if (yd - 1) < 181 then (6, (yd - 1) - 150)
      else if (yd - 1) < 212 then (7, (yd - 1) - 180)
      else if (yd - 1) < 243 then (8, (yd - 1) - 211)
      else if (yd - 1) < 273 then (9, (yd - 1) - 242)
      else if (yd - 1) < 304 then (10, (yd - 1) - 272)
      else if (yd - 1) < 334 then (11, (yd - 1) - 303)
      else (12, (yd - 1) - 333) := rfl

theorem monthDay_spec (y yd : Int) (h0 : 0 ≤ yd)
    (h1 : yd < 365 + (if isLeap y = true then 1 else 0)) :
    1 ≤ (monthDay (isLeap y) yd).1 ∧ (monthDay (isLeap y) yd).1 ≤ 12 ∧
    daysBefore y (monthDay (isLeap y) yd).1 + ((monthDay (isLeap y) yd).2 - 1) = yd ∧
    1 ≤ (monthDay (isLeap y) yd).2 ∧
    (monthDay (isLeap y) yd).2 ≤ daysIn (monthDay (isLeap y) yd).1 y := by
  cases hl : isLeap y
  · rw [monthDay_false]
    rw [hl] at h1
    by_cases c0 : yd < 31
    · rw [if_pos c0]
      dsimp only
      rw [daysBefore_1, daysIn_1]
      simp only [hl, Bool.false_and, Bool.false_eq_true, if_false] at h1 ⊢
      omega
    · rw [if_neg c0]
      by_cases c1 : yd < 59 + 0
      · rw [if_pos c1]
        dsimp only
        rw [daysBefore_2, daysIn_2]
        simp only [hl, Bool.false_and, Bool.false_eq_true, if_false] at h1 ⊢
        omega
      · rw [if_neg c1]
        by_cases c2 : (yd - 0) < 90
        · rw [if_pos c2]
          dsimp only
          rw [daysBefore_3, daysIn_3]
          simp only [hl, Bool.false_and, Bool.false_eq_true, if_false] at h1 ⊢
          omega
        · rw [if_neg c2]
          by_cases c3 : (yd - 0) < 120
          · rw [if_pos c3]
            dsimp only
            rw [daysBefore_4, daysIn_4]
            simp only [hl, Bool.false_and, Bool.false_eq_true, if_false] at h1 ⊢
            omega
          · rw [if_neg c3]
            by_cases c4 : (yd - 0) < 151
            · rw [if_pos c4]
              dsimp only
              rw [daysBefore_5, daysIn_5]
              simp only [hl, Bool.false_and, Bool.false_eq_true, if_false] at h1 ⊢
              omega
            · rw [if_neg c4]
              by_cases c5 : (yd - 0) < 181
              · rw [if_pos c5]
                dsimp only
                rw [daysBefore_6, daysIn_6]
                simp only [hl, Bool.false_and, Bool.false_eq_true, if_false] at h1 ⊢
                omega
              · rw [if_neg c5]
                by_cases c6 : (yd - 0) < 212
                · rw [if_pos c6]
                  dsimp only
                  rw [daysBefore_7, daysIn_7]
                  simp only [hl, Bool.false_and, Bool.false_eq_true, if_false] at h1 ⊢
                  omega
                · rw [if_neg c6]
                  by_cases c7 : (yd - 0) < 243
                  · rw [if_pos c7]
                    dsimp only
                    rw [daysBefore_8, daysIn_8]
                    simp only [hl, Bool.false_and, Bool.false_eq_true, if_false] at h1 ⊢
                    omega
                  · rw [if_neg c7]
                    by_cases c8 : (yd - 0) < 273
                    · rw [if_pos c8]
                      dsimp only
                      rw [daysBefore_9, daysIn_9]
                      simp only [hl, Bool.false_and, Bool.false_eq_true, if_false] at h1 ⊢
                      omega
                    · rw [if_neg c8]
                      by_cases c9 : (yd - 0) < 304
                      · rw [if_pos c9]
                        dsimp only
                        rw [daysBefore_10, daysIn_10]
                        simp only [hl, Bool.false_and, Bool.false_eq_true, if_false] at h1 ⊢
                        omega
                      · rw [if_neg c9]
                        by_cases c10 : (yd - 0) < 334
                        · rw [if_pos c10]
                          dsimp only
                          rw [daysBefore_11, daysIn_11]
                          simp only [hl, Bool.false_and, Bool.false_eq_true, if_false] at h1 ⊢
                          omega
                        · rw [if_neg c10]
                          dsimp only
                          rw [daysBefore_12, daysIn_12]
                          simp only [hl, Bool.false_and, Bool.false_eq_true, if_false] at h1 ⊢
                          omega
  · rw [monthDay_true]
    rw [hl] at h1
    by_cases c0 : yd < 31
    · rw [if_pos c0]
      dsimp only
      rw [daysBefore_1, daysIn_1]
      simp only [hl, Bool.true_and, decide_eq_true_eq, if_true] at h1 ⊢
      omega
    · rw [if_neg c0]
      by_cases c1 : yd < 59 + 1
      · rw [if_pos c1]
        dsimp only
        rw [daysBefore_2, daysIn_2]
        simp only [hl, Bool.true_and, decide_eq_true_eq, if_true] at h1 ⊢
        omega
      · rw [if_neg c1]
        by_cases c2 : (yd - 1) < 90
        · rw [if_pos c2]
          dsimp only
          rw [daysBefore_3, daysIn_3]
          simp only [hl, Bool.true_and, decide_eq_true_eq, if_true] at h1 ⊢
          omega
        · rw [if_neg c2]
          by_cases c3 : (yd - 1) < 120
          · rw [if_pos c3]
            dsimp only
            rw [daysBefore_4, daysIn_4]
            simp only [hl, Bool.true_and, decide_eq_true_eq, if_true] at h1 ⊢
            omega
          · rw [if_neg c3]
            by_cases c4 : (yd - 1) < 151
            · rw [if_pos c4]
              dsimp only
              rw [daysBefore_5, daysIn_5]
              simp only [hl, Bool.true_and, decide_eq_true_eq, if_true] at h1 ⊢
              omega
            · rw [if_neg c4]
              by_cases c5 : (yd - 1) < 181
              · rw [if_pos c5]
                dsimp only
                rw [daysBefore_6, daysIn_6]
                simp only [hl, Bool.true_and, decide_eq_true_eq, if_true] at h1 ⊢
                omega
              · rw [if_neg c5]
                by_cases c6 : (yd - 1) < 212
                · rw [if_pos c6]
                  dsimp only
                  rw [daysBefore_7, daysIn_7]
                  simp only [hl, Bool.true_and, decide_eq_true_eq, if_true] at h1 ⊢
                  omega
                · rw [if_neg c6]
                  by_cases c7 : (yd - 1) < 243
                  · rw [if_pos c7]
                    dsimp only
                    rw [daysBefore_8, daysIn_8]
                    simp only [hl, Bool.true_and, decide_eq_true_eq, if_true] at h1 ⊢
                    omega
                  · rw [if_neg c7]
                    by_cases c8 : (yd - 1) < 273
                    · rw [if_pos c8]
                      dsimp only
                      rw [daysBefore_9, daysIn_9]
                      simp only [hl, Bool.true_and, decide_eq_true_eq, if_true] at h1 ⊢
                      omega
                    · rw [if_neg c8]
                      by_cases c9 : (yd - 1) < 304
                      · rw [if_pos c9]
                        dsimp only
                        rw [daysBefore_10, daysIn_10]
                        simp only [hl, Bool.true_and, decide_eq_true_eq, if_true] at h1 ⊢
                        omega
                      · rw [if_neg c9]
                        by_cases c10 : (yd - 1) < 334
                        · rw [if_pos c10]
                          dsimp only
                          rw [daysBefore_11, daysIn_11]
                          simp only [hl, Bool.true_and, decide_eq_true_eq, if_true] at h1 ⊢
                          omega
                        · rw [if_neg c10]
                          dsimp only
                          rw [daysBefore_12, daysIn_12]
                          simp only [hl, Bool.true_and, decide_eq_true_eq, if_true] at h1 ⊢
                          omega

theorem daysFromCivil_civil (t : Time) :
    daysFromCivil t.Year t.Month t.Day = t.wall / 86400 := by
  have hy := yearDay_spec (t.wall / 86400 + 719162)
  have hm := monthDay_spec (yearDay (t.wall / 86400 + 719162)).1
    (yearDay (t.wall / 86400 + 719162)).2 hy.2.1 hy.2.2
  unfold daysFromCivil Year Month Day
  simp only []
  obtain ⟨m1, m12, hb, _, _⟩ := hm
  have e1 : ((monthDay (isLeap (yearDay (t.wall / 86400 + 719162)).1)
      (yearDay (t.wall / 86400 + 719162)).2).1 - 1) / 12 = 0 := by omega
  have e2 : ((monthDay (isLeap (yearDay (t.wall / 86400 + 719162)).1)
      (yearDay (t.wall / 86400 + 719162)).2).1 - 1) % 12 + 1 =
      (monthDay (isLeap (yearDay (t.wall / 86400 + 719162)).1)
      (yearDay (t.wall / 86400 + 719162)).2).1 := by omega
  rw [e1, e2, add_zero]
  omega

theorem month_range (t : Time) : 1 ≤ t.Month ∧ t.Month ≤ 12 := by
  have hy := yearDay_spec (t.wall / 86400 + 719162)
  have hm := monthDay_spec (yearDay (t.wall / 86400 + 719162)).1
    (yearDay (t.wall / 86400 + 719162)).2 hy.2.1 hy.2.2
  exact ⟨hm.1, hm.2.1⟩

theorem daysFromCivil_add_day (y m d k : Int) :
    daysFromCivil y m (d + k) = daysFromCivil y m d + k := by
  unfold daysFromCivil
  simp only []
  omega

end Time

/-! ## Lemmas on 64-bit seconds and zone tables -/

theorem int64_id (x : Int) (h1 : -9223372036854775808 ≤ x) (h2 : x < 9223372036854775808) :
    int64 x = x := by
  unfold int64
  omega

theorem lookupFrom_mem (z : List (Int × Int)) (o s u : Int) :
    (Location.lookupFrom o s z u).1 ∈ o :: z.map Prod.snd := by
  induction z generalizing o s with
  | nil => exact List.mem_cons_self _ _
  | cons p rest ih =>
    obtain ⟨w, o'⟩ := p
    simp only [Location.lookupFrom]
    split_ifs
    · exact List.mem_cons_self _ _
    · exact List.mem_cons_of_mem _ (ih o' w)

theorem lookup_mem (l : Location) (u : Int) : (l.lookup u).1 ∈ l.offsets :=
  lookupFrom_mem l.zone l.offset _ u

theorem lookup_bounded (l : Location) (hb : l.bounded) (u : Int) :
    -86400 ≤ (l.lookup u).1 ∧ (l.lookup u).1 ≤ 86400 :=
  hb _ (lookup_mem l u)

theorem stable_of_fixed (l : Location) (h : l.zone = []) (L : Int) : l.stable L := by
  unfold Location.stable Location.lookup
  rw [h]
  rfl

theorem daysFromCivil_epoch : Time.daysFromCivil 1970 1 1 = 0 := by decide

theorem date_eq_ofWall (y m d h mi s : Int) (ns : Nat) (loc : Location) :
    Time.Date y m d h mi s ns loc =
      Time.ofWall (Time.daysFromCivil y m d * 86400 + h * 3600 + mi * 60 + s) ns loc := by
  unfold Time.ofWall Time.Date
  rw [daysFromCivil_epoch]
  simp only [zero_mul, zero_add, mul_zero, add_zero]

/-- The instant `time.Date` returns where the zone table is stable. -/
theorem ofWall_stable (L : Int) (ns : Nat) (loc : Location)
    (h1 : -9000000000000000000 ≤ L) (h2 : L ≤ 9000000000000000000) (hb : loc.bounded)
    (hs : loc.stable L) :
    Time.ofWall L ns loc =
      { unix := L - (loc.lookup L).1, nsec := ns, offset := loc.offset, zone := loc.zone } := by
  unfold Time.ofWall Time.Date
  rw [daysFromCivil_epoch]
  simp only [zero_mul, zero_add, mul_zero, add_zero]
  rw [int64_id L (by omega) (by omega)]
  have hb1 := lookup_bounded loc hb L
  unfold Location.stable at hs
  by_cases h0 : (loc.lookup L).1 = 0
  · rw [if_neg (not_not_intro h0), h0, int64_id _ (by omega) (by omega)]
    congr 1
    omega
  · rw [if_pos h0, int64_id (L - (loc.lookup L).1) (by omega) (by omega), hs, ite_self,
      int64_id (L - _) (by omega) (by omega), int64_id _ (by omega) (by omega)]
    congr 1
    omega

/-- The wall clock of an instant, when nothing wraps. -/
theorem wall_eq (t : Time) (h1 : -9100000000000000000 ≤ t.unix)
    (h2 : t.unix ≤ 9100000000000000000) (hb : t.Location.bounded) :
    t.wall = t.unix + (t.Location.lookup t.unix).1 := by
  have hb1 := lookup_bounded t.Location hb t.unix
  unfold Time.wall Time.unixToAbsolute
  simp only []
  rw [int64_id t.unix (by omega) (by omega)]
  show (t.unix + (t.Location.lookup t.unix).1 + 9223372028715321600) % 18446744073709551616 -
    9223372028715321600 = _
  omega

/-- Where the zone table is stable and nothing wraps, the wall clock of the
instant `time.Date` returns for a wall-clock second reads that second. -/
theorem wall_ofWall (L : Int) (ns : Nat) (loc : Location)
    (h1 : -9000000000000000000 ≤ L) (h2 : L ≤ 9000000000000000000) (hb : loc.bounded)
    (hs : loc.stable L) : (Time.ofWall L ns loc).wall = L := by
  rw [ofWall_stable L ns loc h1 h2 hb hs]
  have hb1 := lookup_bounded loc hb L
  rw [wall_eq { unix := L - (loc.lookup L).1, nsec := ns, offset := loc.offset, zone := loc.zone }
    (by show -9100000000000000000 ≤ L - _; omega)
    (by show L - _ ≤ 9100000000000000000; omega) hb]
  show L - (loc.lookup L).1 + (loc.lookup (L - (loc.lookup L).1)).1 = L
  rw [hs]
  omega

theorem settled_of_stable (L : Int) (loc : Location)
    (h1 : -9000000000000000000 ≤ L) (h2 : L ≤ 9000000000000000000) (hb : loc.bounded)
    (hs : loc.stable L) : loc.settled L :=
  wall_ofWall L 0 loc h1 h2 hb hs

theorem wall_ofWall_nsec (L : Int) (ns : Nat) (loc : Location) :
    (Time.ofWall L ns loc).wall = (Time.ofWall L 0 loc).wall := rfl

theorem wall_bounds (t : Time) :
    -9223372028715321600 ≤ t.wall ∧ t.wall < 9223372044994230016 := by
  unfold Time.wall Time.unixToAbsolute
  simp only []
  omega

theorem clock_eq (t : Time) : t.Hour * 3600 + t.Minute * 60 + t.Second = t.wall % 86400 := by
  unfold Time.Hour Time.Minute Time.Second
  omega

theorem date_of_day (t : Time) (h mi s : Int) (ns : Nat) :
    Time.Date t.Year t.Month t.Day h mi s ns t.Location =
      Time.ofWall (t.wall / 86400 * 86400 + h * 3600 + mi * 60 + s) ns t.Location := by
  rw [date_eq_ofWall, Time.daysFromCivil_civil]

theorem addDate_eq (t : Time) (k : Int) :
    t.AddDate 0 0 k =
      Time.ofWall ((t.wall / 86400 + k) * 86400 + t.wall % 86400) t.nsec t.Location := by
  unfold Time.AddDate
  rw [date_eq_ofWall, add_zero, add_zero, Time.daysFromCivil_add_day, Time.daysFromCivil_civil]
  congr 1
  have := clock_eq t
  omega

theorem dayStart_eq (t : Time) :
    dayStart t = Time.ofWall (t.wall / 86400 * 86400) 0 t.Location := by
  unfold dayStart
  rw [date_of_day]
  congr 1
  omega

theorem dayEnd_eq (t : Time) :
    dayEnd t = Time.ofWall (t.wall / 86400 * 86400 + 86399) 0 t.Location := by
  unfold dayEnd
  rw [date_of_day]
  congr 1
  omega

/-- The wall clock of a reading between the years 1 and 9999. -/
theorem wall_range (t : Time) (hr : t.inRange) (hb : t.Location.bounded) :
    -62135683200 ≤ t.wall ∧ t.wall ≤ 253402387199 := by
  have hb1 := lookup_bounded t.Location hb t.unix
  unfold Time.inRange at hr
  rw [wall_eq t (by omega) (by omega) hb]
  omega

theorem dayStart_now (now : Time) : dayStart now = startOfDay now 0 := by
  rw [dayStart_eq]
  unfold startOfDay
  rw [add_zero]

theorem dayEnd_now (now : Time) : dayEnd now = endOfDay now 0 := by
  rw [dayEnd_eq]
  unfold endOfDay
  rw [add_zero]

/-- The day `k` days after the day of a reading, through `AddDate`. -/
theorem addDate_wall (now : Time) (k : Int) (h : now.settledAt k (now.wall % 86400)) :
    (now.AddDate 0 0 k).wall = (now.wall / 86400 + k) * 86400 + now.wall % 86400 := by
  rw [addDate_eq, wall_ofWall_nsec]
  exact h

theorem lands_of_settled (now : Time) (k : Int) (h : now.settledAt k (now.wall % 86400)) :
    now.lands k := by
  unfold Time.lands
  rw [addDate_wall now k h]
  omega

theorem dayStart_addDate (now : Time) (k : Int) (h : now.lands k) :
    dayStart (now.AddDate 0 0 k) = startOfDay now k := by
  unfold Time.lands at h
  rw [dayStart_eq, h]
  rfl

theorem dayEnd_addDate (now : Time) (k : Int) (h : now.lands k) :
    dayEnd (now.AddDate 0 0 k) = endOfDay now k := by
  unfold Time.lands at h
  rw [dayEnd_eq, h]
  rfl

/-- The wall clock at the start and at the end of a day reads 00:00:00 and
23:59:59 of that day, the times being settled. -/
theorem startOfDay_wall (now : Time) (k : Int) (h0 : now.settledAt k 0) :
    (startOfDay now k).wall = (now.wall / 86400 + k) * 86400 := by
  unfold Time.settledAt Location.settled at h0
  rw [add_zero] at h0
  exact h0

theorem endOfDay_wall (now : Time) (k : Int) (h0 : now.settledAt k 86399) :
    (endOfDay now k).wall = (now.wall / 86400 + k) * 86400 + 86399 := h0

/-- A time of day is settled for a reading between the years 1 and 9999, at most
`10^14` days away, where the zone table is stable. -/
theorem settledAt_of_stable (now : Time) (k c : Int) (hr : now.inRange)
    (hb : now.Location.bounded) (hk1 : -100000000000000 ≤ k) (hk2 : k ≤ 100000000000000)
    (hc0 : 0 ≤ c) (hc1 : c ≤ 86399)
    (hs : now.Location.stable ((now.wall / 86400 + k) * 86400 + c)) : now.settledAt k c := by
  have hw := wall_range now hr hb
  exact settled_of_stable _ _ (by omega) (by omega) hb hs

/-- The start and the end of a day by the zone table, where it is stable. -/
theorem day_bounds_stable (now : Time) (k c : Int) (hr : now.inRange)
    (hb : now.Location.bounded) (hk1 : -100000000000000 ≤ k) (hk2 : k ≤ 100000000000000)
    (hc0 : 0 ≤ c) (hc1 : c ≤ 86399)
    (hs : now.Location.stable ((now.wall / 86400 + k) * 86400 + c)) :
    Time.ofWall ((now.wall / 86400 + k) * 86400 + c) 0 now.Location =
      { unix := (now.wall / 86400 + k) * 86400 + c -
          (now.Location.lookup ((now.wall / 86400 + k) * 86400 + c)).1
        nsec := 0
        offset := now.offset
        zone := now.zone } := by
  have hw := wall_range now hr hb
  rw [ofWall_stable _ 0 now.Location (by omega) (by omega) hb hs]
  rfl

/-! ## Lemmas on days in UTC -/

theorem parseDateRange_days (now : Time) (intent : Intent) (dateStr : Str) :
    parseDateRange now intent dateStr =
      if ToLower (TrimSpace dateStr) = "recent".toList then
        .ok (intent.SetDateRange (dayStart (now.AddDate 0 0 (-1))) (dayEnd now))
      else if ToLower (TrimSpace dateStr) = "today".toList then
        .ok (intent.SetDateRange (dayStart now) (dayEnd now))
      else if ToLower (TrimSpace dateStr) = "yesterday".toList then
        .ok (intent.SetDateRange (dayStart (now.AddDate 0 0 (-1)))
          (dayEnd (now.AddDate 0 0 (-1))))
      else
        match Regex.FindStringSubmatch lastDaysPattern (ToLower (TrimSpace dateStr)) with
        | some groups =>
          .ok (intent.SetDateRange (dayStart (now.AddDate 0 0 (-scanDays (groups.getD 1 []))))
            (dayEnd now))
        | none =>
          match Regex.FindStringSubmatch rangePattern (ToLower (TrimSpace dateStr)) with
          | some groups =>
            match Time.Parse (groups.getD 1 []) with
            | none => .error .invalidStart
            | some start =>
              match Time.Parse (groups.getD 2 []) with
              | none => .error .invalidEnd
              | some endT => .ok (intent.SetDateRange start (dayEnd endT))
          | none =>
            match Time.Parse (ToLower (TrimSpace dateStr)) with
            | some singleDate =>
              .ok (intent.SetDateRange (dayStart singleDate) (dayEnd singleDate))
            | none => .error (.unrecognized (ToLower (TrimSpace dateStr))) := by
  unfold parseDateRange Intent.SetRecentRange dayStart dayEnd
  rfl

theorem trimSpace_idem (s : Str) : TrimSpace (TrimSpace s) = TrimSpace s := by
  unfold TrimSpace
  change List.rdropWhile isSpace (List.dropWhile isSpace
    (List.rdropWhile isSpace (List.dropWhile isSpace s))) =
    List.rdropWhile isSpace (List.dropWhile isSpace s)
  have h : List.dropWhile isSpace (List.rdropWhile isSpace (List.dropWhile isSpace s)) =
      List.rdropWhile isSpace (List.dropWhile isSpace s) := by
    generalize hx : List.dropWhile isSpace s = x
    have hd : List.dropWhile isSpace x = x := by rw [← hx, List.dropWhile_idempotent]
    obtain ⟨t, ht⟩ := List.rdropWhile_prefix isSpace x
    cases hr : List.rdropWhile isSpace x with
    | nil => rfl
    | cons c cs =>
      rw [hr] at ht
      rw [← ht] at hd
      simp only [List.cons_append] at hd
      by_cases hc : isSpace c = true
      · exfalso
        have := congrArg List.length hd
        rw [List.dropWhile_cons_of_pos hc] at this
        have h2 := (List.dropWhile_suffix isSpace (l := cs ++ t)).length_le
        simp only [List.length_cons, List.length_append] at this h2
        omega
      · rw [List.dropWhile_cons_of_neg hc]
  rw [h, List.rdropWhile_idempotent]

theorem parse_congr_clock (now1 now2 : Time) (input : Str)
    (h : ∀ groups, Regex.FindStringSubmatch commandPattern (TrimSpace input) = some groups →
      groups.getD 4 [] ≠ [] →
      parseDateRange now1 (NewIntent CommandSearch) (TrimSpace (groups.getD 4 [])) =
        parseDateRange now2 (NewIntent CommandSearch) (TrimSpace (groups.getD 4 []))) :
    Parse now1 input = Parse now2 input := by
  cases hm : Regex.FindStringSubmatch commandPattern (TrimSpace input) with
  | some groups =>
    obtain ⟨hp1, hlen⟩ := parse_of_primary now1 input groups hm
    obtain ⟨hp2, _⟩ := parse_of_primary now2 input groups hm
    rw [hp1, hp2, parseFullCommand_eq now1 groups hlen, parseFullCommand_eq now2 groups hlen]
    by_cases h4 : groups.getD 4 [] = []
    · simp only [if_neg (not_not_intro h4)]
    · rw [h groups hm h4]
  | none =>
    unfold Parse
    simp only [hm]

/-! ## Lemmas on the matcher -/

theorem digit_mem (c : Char) (h : Regex.digit c = true) : c ∈ "0123456789".toList := by
  simp only [Regex.digit, Bool.and_eq_true, decide_eq_true_eq] at h
  obtain ⟨h1, h2⟩ := h
  rw [Char.le_def] at h1 h2
  have h1' : 48 ≤ c.val.toNat := h1
  have h2' : c.val.toNat ≤ 57 := h2
  have hc : c = Char.ofNat c.val.toNat := (Char.ofNat_toNat c).symm
  rw [hc]
  generalize c.val.toNat = v at *
  interval_cases v <;> decide

namespace Regex

theorem matchK_seq_cons {α : Type} (n : Nat) (r : Regex) (rs : List Regex) (s : Str)
    (g : Nat → Str) (k : Str → (Nat → Str) → Option α) :
    matchK n (seq (r :: rs)) s g k =
      matchK n r s g (fun s1 g1 => matchK n (seq rs) s1 g1 k) := by
  cases rs with
  | nil => rfl
  | cons r' rs' => rfl

theorem starK_nil {α : Type} (p : Char → Bool) (k : Str → Option α) : starK p k [] = k [] := rfl

theorem starK_stop {α : Type} (p : Char → Bool) (k : Str → Option α) (c : Char) (cs : Str)
    (h : p c = false) : starK p k (c :: cs) = k (c :: cs) := by
  simp [starK, h]

theorem starK_all {α : Type} (p : Char → Bool) (k : Str → Option α) (xs rest : Str) (r : α)
    (hall : ∀ c ∈ xs, p c = true) (hk : starK p k rest = some r) :
    starK p k (xs ++ rest) = some r := by
  induction xs with
  | nil => exact hk
  | cons x xs ih =>
    have hx := hall x (List.mem_cons_self _ _)
    have ih' := ih (fun c hc => hall c (List.mem_cons_of_mem _ hc))
    simp [starK, hx, ih']

theorem matchK_chars {α : Type} (n : Nat) (ps : List (Char → Bool)) (w rest : Str)
    (g : Nat → Str) (k : Str → (Nat → Str) → Option α)
    (h : List.Forall₂ (fun p x => p x = true) ps w) :
    matchK n (seq (ps.map char)) (w ++ rest) g k = k rest g := by
  induction h with
  | nil => rfl
  | cons hp _ ih =>
    rw [List.map_cons, matchK_seq_cons]
    simp only [List.cons_append, matchK, hp, if_true]
    exact ih

theorem matchK_chars_none {α : Type} (n : Nat) (p : Char → Bool) (ps : List (Char → Bool))
    (s : Str) (g : Nat → Str) (k : Str → (Nat → Str) → Option α)
    (h : ∀ c ∈ s.head?, p c = false) :
    matchK n (seq ((p :: ps).map char)) s g k = none := by
  rw [List.map_cons, matchK_seq_cons]
  cases s with
  | nil => rfl
  | cons c cs =>
    have hc := h c (by simp)
    simp [matchK, hc]

theorem matchK_lit {α : Type} (n : Nat) (l : String) (rest : Str)
    (g : Nat → Str) (k : Str → (Nat → Str) → Option α) :
    matchK n (lit l) (l.toList ++ rest) g k = k rest g := by
  unfold lit
  generalize l.toList = w
  induction w with
  | nil => rfl
  | cons c w ih =>
    rw [List.map_cons, matchK_seq_cons]
    simp only [List.cons_append, matchK, beq_self_eq_true, if_true]
    exact ih

theorem matchK_capture {α : Type} (n i : Nat) (r : Regex) (s : Str)
    (g : Nat → Str) (k : Str → (Nat → Str) → Option α) :
    matchK n (capture i r) s g k =
      matchK n r s g (fun s1 g1 =>
        k s1 (fun j => if j = i then s.take (s.length - s1.length) else g1 j)) := rfl

theorem matchK_plus {α : Type} (n : Nat) (p : Char → Bool) (xs rest : Str)
    (g : Nat → Str) (k : Str → (Nat → Str) → Option α) (r : α)
    (hne : xs ≠ []) (hall : ∀ c ∈ xs, p c = true) (hstop : ∀ c ∈ rest.head?, p c = false)
    (hk : k rest g = some r) :
    matchK n (plus p) (xs ++ rest) g k = some r := by
  cases xs with
  | nil => exact absurd rfl hne
  | cons x xs =>
    have hx := hall x (List.mem_cons_self _ _)
    simp only [plus, matchK, List.cons_append, hx, if_true]
    apply starK_all p _ xs rest r (fun c hc => hall c (List.mem_cons_of_mem _ hc))
    cases rest with
    | nil => exact hk
    | cons c cs =>
      rw [starK_stop p _ c cs (hstop c (by simp))]
      exact hk

end Regex

theorem digit_facts (c : Char) (h : Regex.digit c = true) :
    Regex.space c = false ∧ isSpace c = false ∧ toLowerRune c = c ∧
    (c == 'l') = false ∧ (c == '-') = false := by
  have hm := digit_mem c h
  have hall : ∀ x ∈ "0123456789".toList,
      Regex.space x = false ∧ isSpace x = false ∧ toLowerRune x = x ∧
      (x == 'l') = false ∧ (x == '-') = false := by decide
  exact hall c hm

open Regex in
theorem lastDays_match (n : Nat) (ds : Str) (g : Nat → Str) (hne : ds ≠ [])
    (hd : ∀ c ∈ ds, digit c = true) :
    ∃ g1 : Nat → Str, g1 1 = ds ∧
      matchK n lastDaysPattern ("last ".toList ++ ds ++ " days".toList) g
        (fun s1 g1 => some (s1, g1)) = some ([], g1) := by
  refine ⟨fun j => if j = 1 then
    (ds ++ " days".toList).take ((ds ++ " days".toList).length - " days".toList.length) else g j,
    ?_, ?_⟩
  · have hl : (ds ++ " days".toList).length - " days".toList.length = ds.length := by simp
    show (if 1 = 1 then _ else _) = ds
    rw [if_pos rfl, hl, List.take_left]
  have e : "last ".toList ++ ds ++ " days".toList =
      "last".toList ++ ([' '] ++ (ds ++ " days".toList)) := by simp
  rw [e]
  unfold lastDaysPattern
  rw [matchK_seq_cons, matchK_lit, matchK_seq_cons]
  apply matchK_plus
  · simp
  · decide
  · intro c hc
    cases ds with
    | nil => exact absurd rfl hne
    | cons d ds =>
      simp only [List.cons_append, List.head?_cons, Option.mem_def, Option.some.injEq] at hc
      subst hc
      exact (digit_facts _ (hd _ (List.mem_cons_self _ _))).1
  · rw [matchK_seq_cons, matchK_capture]
    apply matchK_plus _ _ _ _ _ _ _ hne hd
    · decide
    · rfl

open Regex in
theorem lastDays_find (ds : Str) (hne : ds ≠ []) (hd : ∀ c ∈ ds, digit c = true) :
    FindStringSubmatch lastDaysPattern ("last ".toList ++ ds ++ " days".toList) =
      some ["last ".toList ++ ds ++ " days".toList, ds] := by
  obtain ⟨g1, hg, hm⟩ := lastDays_match ("last ".toList ++ ds ++ " days".toList).length ds
    (fun _ => []) hne hd
  have e : "last ".toList ++ ds ++ " days".toList =
      'l' :: ("ast ".toList ++ ds ++ " days".toList) := by simp
  have hn : lastDaysPattern.numSubexp = 1 := by decide
  unfold FindStringSubmatch
  rw [e, findFrom, ← e, hm]
  have hr : List.range 1 = [0] := rfl
  simp only [hn, List.length_nil, Nat.sub_zero, List.take_length, hr, List.map_cons,
    List.map_nil, Nat.zero_add, hg]

theorem lastDays_text (ds : Str) (hd : ∀ c ∈ ds, Regex.digit c = true) :
    ToLower (TrimSpace ("last ".toList ++ ds ++ " days".toList)) =
      "last ".toList ++ ds ++ " days".toList := by
  have e1 : TrimSpace ("last ".toList ++ ds ++ " days".toList) =
      "last ".toList ++ ds ++ " days".toList := by
    have a : "last ".toList ++ ds ++ " days".toList =
        'l' :: ("ast ".toList ++ ds ++ " days".toList) := by simp
    have b : ("last ".toList ++ ds ++ " days".toList).reverse =
        's' :: ("last ".toList ++ ds ++ " day".toList).reverse := by simp
    have hl : isSpace 'l' = false := by decide
    have hs : isSpace 's' = false := by decide
    unfold TrimSpace
    rw [a, List.dropWhile_cons_of_neg (by simp [hl]), ← a, b,
      List.dropWhile_cons_of_neg (by simp [hs]), ← b, List.reverse_reverse]
  have e2 : ToLower ds = ds := by
    unfold ToLower
    conv_rhs => rw [← List.map_id ds]
    exact List.map_congr_left fun c hc => (digit_facts c (hd c hc)).2.2.1
  rw [e1]
  have e3 : ToLower ("last ".toList ++ ds ++ " days".toList) =
      ToLower "last ".toList ++ ToLower ds ++ ToLower " days".toList := by
    simp [ToLower]
  rw [e3, e2]
  have e4 : ToLower "last ".toList = "last ".toList := by decide
  have e5 : ToLower " days".toList = " days".toList := by decide
  rw [e4, e5]

theorem digitChar_facts (k : Nat) (h : k < 10) :
    Regex.digit (Nat.digitChar k) = true ∧ ((Nat.digitChar k).toNat : Int) - 48 = k := by
  interval_cases k <;> decide

theorem toDigitsCore_digits (fuel n : Nat) (acc : List Char)
    (hacc : ∀ c ∈ acc, Regex.digit c = true) :
    ∀ c ∈ Nat.toDigitsCore 10 fuel n acc, Regex.digit c = true := by
  induction fuel generalizing n acc with
  | zero => exact hacc
  | succ fuel ih =>
    have hd := (digitChar_facts (n % 10) (Nat.mod_lt _ (by decide))).1
    have hcons : ∀ c ∈ Nat.digitChar (n % 10) :: acc, Regex.digit c = true := by
      intro c hc
      rcases List.mem_cons.1 hc with h | h
      · rw [h]; exact hd
      · exact hacc c h
    unfold Nat.toDigitsCore
    by_cases h0 : n / 10 = 0
    · simp only [h0, if_true]; exact hcons
    · simp only [h0, if_false]; exact ih _ _ hcons

theorem toDigitsCore_ne_nil (fuel n : Nat) (acc : List Char) :
    Nat.toDigitsCore 10 (fuel + 1) n acc ≠ [] := by
  induction fuel generalizing n acc with
  | zero =>
    unfold Nat.toDigitsCore
    by_cases h0 : n / 10 = 0
    · simp [h0]
    · simp [h0, Nat.toDigitsCore]
  | succ fuel ih =>
    unfold Nat.toDigitsCore
    by_cases h0 : n / 10 = 0
    · simp [h0]
    · simp only [h0, if_false]; exact ih _ _

theorem toDigitsCore_value (fuel n : Nat) (acc : List Char) (h : n < fuel) :
    List.foldl (fun (m : Int) c => 10 * m + ((c.toNat : Int) - 48)) 0
        (Nat.toDigitsCore 10 fuel n acc) =
      List.foldl (fun (m : Int) c => 10 * m + ((c.toNat : Int) - 48)) (n : Int) acc := by
  induction fuel generalizing n acc with
  | zero => omega
  | succ fuel ih =>
    have hv := (digitChar_facts (n % 10) (Nat.mod_lt _ (by decide))).2
    unfold Nat.toDigitsCore
    by_cases h0 : n / 10 = 0
    · simp only [h0, if_true, List.foldl_cons, hv]
      congr 1
      omega
    · simp only [h0, if_false]
      rw [ih _ _ (by omega), List.foldl_cons, hv]
      congr 1
      omega

/-- The decimal text of a natural number: its digits, not empty, with the number
as value. -/
theorem repr_decimal (N : Nat) :
    (Nat.repr N).toList ≠ [] ∧ (∀ c ∈ (Nat.repr N).toList, Regex.digit c = true) ∧
    Time.atoi (Nat.repr N).toList = N := by
  have e : (Nat.repr N).toList = Nat.toDigitsCore 10 (N + 1) N [] := rfl
  rw [e]
  refine ⟨toDigitsCore_ne_nil _ _ _, toDigitsCore_digits _ _ _ (by simp), ?_⟩
  unfold Time.atoi
  rw [toDigitsCore_value _ _ _ (by omega)]
  rfl

namespace Regex

theorem matchK_plus_one {α : Type} (n : Nat) (p : Char → Bool) (x : Char) (rest : Str)
    (g : Nat → Str) (k : Str → (Nat → Str) → Option α)
    (hx : p x = true) (hstop : ∀ c ∈ rest.head?, p c = false) :
    matchK n (plus p) (x :: rest) g k = k rest g := by
  simp only [plus, matchK, hx, if_true]
  cases rest with
  | nil => rfl
  | cons c cs => rw [starK_stop p _ c cs (hstop c (by simp))]

theorem matchK_plus_none {α : Type} (n : Nat) (p : Char → Bool) (s : Str)
    (g : Nat → Str) (k : Str → (Nat → Str) → Option α)
    (h : ∀ c ∈ s.head?, p c = false) :
    matchK n (plus p) s g k = none := by
  cases s with
  | nil => rfl
  | cons x xs =>
    have hx := h x (by simp)
    simp [plus, matchK, hx]

theorem findFrom_none (re : Regex) (n : Nat) (s : Str)
    (h : ∀ t, t <:+ s → matchK n re t (fun _ => []) (fun s1 g1 => some (s1, g1)) = none) :
    findFrom re n s = none := by
  induction s with
  | nil =>
    unfold findFrom
    rw [h [] (List.suffix_refl _)]
  | cons c cs ih =>
    unfold findFrom
    rw [h (c :: cs) (List.suffix_refl _)]
    exact ih fun t ht => h t (ht.trans (List.suffix_cons _ _))

end Regex

theorem head_mem_of_suffix (t s : Str) (hts : t <:+ s) : ∀ x ∈ t.head?, x ∈ s := by
  intro x hx
  cases t with
  | nil => simp at hx
  | cons a t =>
    simp only [List.head?_cons, Option.mem_def, Option.some.injEq] at hx
    subst hx
    exact hts.subset (List.mem_cons_self _ _)

/-- The classes of `\d{4}-\d{2}-\d{2}`, one for each code point. -/
theorem datePattern_eq :
    datePattern = Regex.seq ([Regex.digit, Regex.digit, Regex.digit, Regex.digit, (· == '-'),
      Regex.digit, Regex.digit, (· == '-'), Regex.digit, Regex.digit].map Regex.char) := rfl

theorem digitChar_mod (k : Nat) : Regex.digit (Nat.digitChar (k % 10)) = true :=
  (digitChar_facts (k % 10) (Nat.mod_lt _ (by decide))).1

theorem isoDate_shape (y m d : Nat) :
    List.Forall₂ (fun (p : Char → Bool) x => p x = true)
      [Regex.digit, Regex.digit, Regex.digit, Regex.digit, (· == '-'),
        Regex.digit, Regex.digit, (· == '-'), Regex.digit, Regex.digit] (isoDate y m d) := by
  unfold isoDate
  repeat first
    | exact List.Forall₂.nil
    | refine List.Forall₂.cons (digitChar_mod _) ?_
    | refine List.Forall₂.cons (by decide) ?_

theorem take_len_sub (a r : Str) : (a ++ r).take ((a ++ r).length - r.length) = a := by
  have h : (a ++ r).length - r.length = a.length := by simp
  rw [h, List.take_left]

namespace Regex

theorem starK_none {α : Type} (p : Char → Bool) (k : Str → Option α) (s : Str)
    (h : ∀ rest, rest <:+ s → k rest = none) : starK p k s = none := by
  induction s with
  | nil => exact h [] (List.suffix_refl _)
  | cons c cs ih =>
    have h1 := ih fun rest hr => h rest (hr.trans (List.suffix_cons _ _))
    have h2 := h (c :: cs) (List.suffix_refl _)
    unfold starK
    by_cases hc : p c = true
    · rw [if_pos hc, h1]; exact h2
    · rw [if_neg hc]; exact h2

/-- A match fails when what follows it fails at every suffix. -/
theorem matchK_none {α : Type} (n : Nat) (r : Regex) (s : Str) (g : Nat → Str)
    (k : Str → (Nat → Str) → Option α)
    (h : ∀ rest g1, rest <:+ s → k rest g1 = none) : matchK n r s g k = none := by
  induction r generalizing s g k with
  | empty => exact h s g (List.suffix_refl _)
  | char p =>
    cases s with
    | nil => rfl
    | cons c cs =>
      unfold matchK
      by_cases hc : p c = true
      · simp only [hc, if_true]; exact h cs g (List.suffix_cons _ _)
      · simp only [hc, if_false, Bool.false_eq_true]
  | cat a b iha ihb =>
    unfold matchK
    exact iha s g _ fun rest g1 hr => ihb rest g1 k fun rest2 g2 hr2 => h rest2 g2 (hr2.trans hr)
  | alt a b iha ihb =>
    unfold matchK
    rw [iha s g k h]
    exact ihb s g k h
  | star p =>
    unfold matchK
    exact starK_none p _ s fun rest hr => h rest g hr
  | capture i r ih =>
    unfold matchK
    exact ih s g _ fun rest g1 hr => h rest _ hr
  | beginText =>
    unfold matchK
    by_cases hc : s.length = n
    · rw [if_pos hc]; exact h s g (List.suffix_refl _)
    · rw [if_neg hc]
  | endText =>
    unfold matchK
    by_cases hc : s.isEmpty = true
    · rw [if_pos hc]; exact h s g (List.suffix_refl _)
    · rw [if_neg hc]

theorem matchK_seq_nil {α : Type} (n : Nat) (s : Str) (g : Nat → Str)
    (k : Str → (Nat → Str) → Option α) : matchK n (seq []) s g k = k s g := rfl

theorem findFrom_some (re : Regex) (n : Nat) (s t : Str) (r : Str × (Nat → Str))
    (hts : t <:+ s)
    (h : matchK n re t (fun _ => []) (fun s1 g1 => some (s1, g1)) = some r) :
    ∃ groups, findFrom re n s = some groups := by
  induction s with
  | nil =>
    have ht : t = [] := List.suffix_nil.1 hts
    subst ht
    unfold findFrom
    rw [h]
    exact ⟨_, rfl⟩
  | cons c cs ih =>
    unfold findFrom
    cases hm : matchK n re (c :: cs) (fun _ => []) (fun s1 g1 => some (s1, g1)) with
    | some r1 => exact ⟨_, rfl⟩
    | none =>
      rcases List.suffix_cons_iff.1 hts with h1 | h1
      · rw [h1, hm] at h
        cases h
      · exact ih h1

end Regex

open Regex in
theorem lastDays_none_of_no_digit (s : Str) (h : ∀ c ∈ s, digit c = false) :
    FindStringSubmatch lastDaysPattern s = none := by
  apply findFrom_none
  intro t hts
  unfold lastDaysPattern
  rw [matchK_seq_cons]
  apply matchK_none
  intro r1 g1 hr1
  rw [matchK_seq_cons]
  apply matchK_none
  intro r2 g2 hr2
  rw [matchK_seq_cons, matchK_capture]
  exact matchK_plus_none _ _ _ _ _
    fun x hx => h x (head_mem_of_suffix r2 s ((hr2.trans hr1).trans hts) x hx)

open Regex in
theorem range_none_of_no_digit (s : Str) (h : ∀ c ∈ s, digit c = false) :
    FindStringSubmatch rangePattern s = none := by
  apply findFrom_none
  intro t hts
  unfold rangePattern
  rw [matchK_seq_cons, matchK_capture, datePattern_eq]
  exact matchK_chars_none _ _ _ _ _ _
    fun x hx => h x (head_mem_of_suffix t s hts x hx)

theorem timeParse_none_of_no_digit (s : Str) (h : ∀ c ∈ s, Regex.digit c = false) :
    Time.Parse s = none := by
  unfold Time.Parse
  split
  · rename_i y1 y2 y3 y4 m1 m2 d1 d2
    have hy := h y1 (List.mem_cons_self _ _)
    simp [hy]
  · rfl

open Regex in
theorem lastDays_match_within (n : Nat) (ds post : Str) (g : Nat → Str) (hne : ds ≠ [])
    (hd : ∀ c ∈ ds, digit c = true) :
    ∃ r, matchK n lastDaysPattern
        ("last".toList ++ (' ' :: (ds ++ (' ' :: ("day".toList ++ ("s".toList ++ post)))))) g
        (fun s1 g1 => some (s1, g1)) = some r := by
  have hsd : ∀ c ∈ (ds ++ (' ' :: ("day".toList ++ ("s".toList ++ post)))).head?,
      space c = false := by
    intro c hc
    cases ds with
    | nil => exact absurd rfl hne
    | cons d ds =>
      simp only [List.cons_append, List.head?_cons, Option.mem_def, Option.some.injEq] at hc
      subst hc
      exact (digit_facts _ (hd _ (List.mem_cons_self _ _))).1
  have hday : ∀ c ∈ ("day".toList ++ ("s".toList ++ post)).head?, space c = false := by
    intro c hc
    simp only [String.toList, List.cons_append, List.head?_cons, Option.mem_def,
      Option.some.injEq] at hc
    subst hc
    decide
  apply Exists.intro
  unfold lastDaysPattern
  rw [matchK_seq_cons, matchK_lit, matchK_seq_cons,
    matchK_plus_one _ _ _ _ _ _ (by decide) hsd, matchK_seq_cons, matchK_capture]
  apply matchK_plus _ _ _ _ _ _ _ hne hd
  · intro c hc
    simp only [List.head?_cons, Option.mem_def, Option.some.injEq] at hc
    subst hc
    decide
  · rw [matchK_seq_cons, matchK_plus_one _ _ _ _ _ _ (by decide) hday, matchK_seq_cons,
      matchK_lit, matchK_seq_cons]
    unfold opt
    unfold matchK
    rw [matchK_lit, matchK_seq_nil]

open Regex in
theorem range_match_within (n : Nat) (y1 m1 d1 y2 m2 d2 : Nat) (post : Str) (g : Nat → Str) :
    ∃ r, matchK n rangePattern
        (isoDate y1 m1 d1 ++ (' ' :: ("to".toList ++ (' ' :: (isoDate y2 m2 d2 ++ post))))) g
        (fun s1 g1 => some (s1, g1)) = some r := by
  have ht : ∀ rest : Str, ∀ c ∈ ("to".toList ++ rest).head?, space c = false := by
    intro rest c hc
    simp only [String.toList, List.cons_append, List.head?_cons, Option.mem_def,
      Option.some.injEq] at hc
    subst hc
    decide
  have hsp : ∀ c ∈ (isoDate y2 m2 d2 ++ post).head?, space c = false := by
    intro c hc
    simp only [isoDate, List.cons_append, List.head?_cons, Option.mem_def,
      Option.some.injEq] at hc
    subst hc
    exact (digit_facts _ (digitChar_mod _)).1
  unfold rangePattern
  rw [matchK_seq_cons, matchK_capture, datePattern_eq,
    matchK_chars _ _ _ _ _ _ (isoDate_shape y1 m1 d1), matchK_seq_cons,
    matchK_plus_one _ _ _ _ _ _ (by decide) (ht _), matchK_seq_cons, matchK_lit,
    matchK_seq_cons, matchK_plus_one _ _ _ _ _ _ (by decide) hsp, matchK_seq_cons,
    matchK_capture, matchK_chars _ _ _ _ _ _ (isoDate_shape y2 m2 d2)]
  exact ⟨_, rfl⟩

theorem parseDateRange_unrecognized_iff (now : Time) (intent : Intent) (expr : Str) :
    parseDateRange now intent expr = .error (.unrecognized (ToLower (TrimSpace expr))) ↔
      (ToLower (TrimSpace expr) ≠ "recent".toList ∧
        ToLower (TrimSpace expr) ≠ "today".toList ∧
        ToLower (TrimSpace expr) ≠ "yesterday".toList ∧
        Regex.FindStringSubmatch lastDaysPattern (ToLower (TrimSpace expr)) = none ∧
        Regex.FindStringSubmatch rangePattern (ToLower (TrimSpace expr)) = none ∧
        Time.Parse (ToLower (TrimSpace expr)) = none) := by
  rw [parseDateRange_days]
  generalize ToLower (TrimSpace expr) = e
  by_cases h1 : e = "recent".toList
  · rw [if_pos h1]
    exact ⟨fun h => (by cases h), fun h => absurd h1 h.1⟩
  rw [if_neg h1]
  by_cases h2 : e = "today".toList
  · rw [if_pos h2]
    exact ⟨fun h => (by cases h), fun h => absurd h2 h.2.1⟩
  rw [if_neg h2]
  by_cases h3 : e = "yesterday".toList
  · rw [if_pos h3]
    exact ⟨fun h => (by cases h), fun h => absurd h3 h.2.2.1⟩
  rw [if_neg h3]
  cases hl : Regex.FindStringSubmatch lastDaysPattern e with
  | some groups =>
    exact ⟨fun h => (by cases h), fun h => by cases h.2.2.2.1⟩
  | none =>
    cases hr : Regex.FindStringSubmatch rangePattern e with
    | some groups =>
      refine ⟨fun h => ?_, fun h => by cases h.2.2.2.2.1⟩
      exfalso
      revert h
      show (match Time.Parse (groups.getD 1 []) with
        | none => Except.error DateError.invalidStart
        | some start =>
          match Time.Parse (groups.getD 2 []) with
          | none => Except.error DateError.invalidEnd
          | some endT => Except.ok (intent.SetDateRange start (dayEnd endT))) =
        Except.error (DateError.unrecognized e) → False
      cases Time.Parse (groups.getD 1 []) with
      | none => intro h; cases h
      | some start =>
        cases Time.Parse (groups.getD 2 []) with
        | none => intro h; cases h
        | some endT => intro h; cases h
    | none =>
      cases hp : Time.Parse e with
      | some d => exact ⟨fun h => (by cases h), fun h => by cases h.2.2.2.2.2⟩
      | none => exact ⟨fun _ => ⟨h1, h2, h3, rfl, rfl, rfl⟩, fun _ => rfl⟩

theorem parse_of_bad_bracket (now : Time) (input : Str) (groups : List Str) (err : DateError)
    (hm : Regex.FindStringSubmatch commandPattern (TrimSpace input) = some groups)
    (h4 : groups.getD 4 [] ≠ [])
    (hd : parseDateRange now (NewIntent CommandSearch) (TrimSpace (groups.getD 4 [])) =
      .error err) :
    Parse now input = .error (.invalidDateRange err) ∨
      Parse now input = .error (.unknownCommand (ToLower (groups.getD 1 []))) := by
  obtain ⟨hp, hlen⟩ := parse_of_primary now input groups hm
  rw [hp, parseFullCommand_eq now groups hlen, hd]
  simp only [if_pos h4]
  split_ifs
  · exact Or.inl rfl
  · exact Or.inl rfl
  · exact Or.inr rfl

namespace Regex

theorem starK_map {α β : Type} (f : α → β) (p : Char → Bool) (k : Str → Option α) (s : Str) :
    starK p (fun s1 => (k s1).map f) s = (starK p k s).map f := by
  induction s with
  | nil => rfl
  | cons c cs ih =>
    unfold starK
    by_cases hc : p c = true
    · rw [if_pos hc, if_pos hc, ih]
      cases starK p k cs <;> rfl
    · rw [if_neg hc, if_neg hc]

/-- Matching commutes with a map of the result of what follows. -/
theorem matchK_map {α β : Type} (f : α → β) (n : Nat) (r : Regex) (s : Str) (g : Nat → Str)
    (k : Str → (Nat → Str) → Option α) :
    matchK n r s g (fun s1 g1 => (k s1 g1).map f) = (matchK n r s g k).map f := by
  induction r generalizing s g k with
  | empty => rfl
  | char p =>
    cases s with
    | nil => rfl
    | cons c cs =>
      unfold matchK
      by_cases hc : p c = true
      · simp only [hc, if_true]
      · simp only [hc, if_false, Bool.false_eq_true, Option.map_none']
  | cat a b iha ihb =>
    unfold matchK
    rw [← iha]
    congr 1
    funext s1 g1
    exact ihb s1 g1 k
  | alt a b iha ihb =>
    unfold matchK
    rw [iha, ihb]
    cases matchK n a s g k <;> rfl
  | star p =>
    unfold matchK
    exact starK_map f p _ s
  | capture i r ih =>
    unfold matchK
    exact ih s g _
  | beginText =>
    unfold matchK
    by_cases hc : s.length = n
    · rw [if_pos hc, if_pos hc]
    · rw [if_neg hc, if_neg hc]; rfl
  | endText =>
    unfold matchK
    by_cases hc : s.isEmpty = true
    · rw [if_pos hc, if_pos hc]
    · rw [if_neg hc, if_neg hc]; rfl

/-- In an expression without group `i`, setting group `i` after the match is
setting it before. -/
theorem matchK_overwrite {α : Type} (n i : Nat) (x : Str) (r : Regex)
    (hr : r.groupFree i = true) (s : Str) (g : Nat → Str)
    (k : Str → (Nat → Str) → Option α) :
    matchK n r s g (fun s1 g1 => k s1 (fun j => if j = i then x else g1 j)) =
      matchK n r s (fun j => if j = i then x else g j) k := by
  induction r generalizing s g k with
  | empty => rfl
  | char p =>
    cases s with
    | nil => rfl
    | cons c cs => rfl
  | cat a b iha ihb =>
    simp only [groupFree, Bool.and_eq_true] at hr
    unfold matchK
    rw [← iha hr.1]
    congr 1
    funext s1 g1
    exact ihb hr.2 s1 g1 k
  | alt a b iha ihb =>
    simp only [groupFree, Bool.and_eq_true] at hr
    unfold matchK
    rw [iha hr.1, ihb hr.2]
  | star p => rfl
  | capture c r ih =>
    simp only [groupFree, Bool.and_eq_true, bne_iff_ne, ne_eq] at hr
    unfold matchK
    rw [← ih hr.2]
    congr 1
    funext s1 g1
    have e : (fun j => if j = i then x else
          (if j = c then List.take (List.length s - List.length s1) s else g1 j)) =
        (fun j => if j = c then List.take (List.length s - List.length s1) s else
          (if j = i then x else g1 j)) := by
      funext j
      by_cases h1 : j = i
      · have h2 : ¬ j = c := fun h => hr.1 (h.symm.trans h1)
        rw [if_pos h1, if_neg h2, if_pos h1]
      · rw [if_neg h1, if_neg h1]
    show k s1 _ = k s1 _
    rw [e]
  | beginText => rfl
  | endText => rfl

end Regex

namespace Regex

theorem matchK_alt {α : Type} (n : Nat) (a b : Regex) (s : Str) (g : Nat → Str)
    (k : Str → (Nat → Str) → Option α) :
    matchK n (alt a b) s g k =
      match matchK n a s g k with
      | some r => some r
      | none => matchK n b s g k := rfl

theorem matchK_litFold {α : Type} (n : Nat) (l : String) (w rest : Str)
    (g : Nat → Str) (k : Str → (Nat → Str) → Option α)
    (h : List.Forall₂ (fun c x => foldClass c x = true) l.toList w) :
    matchK n (litFold l) (w ++ rest) g k = k rest g := by
  unfold litFold
  generalize l.toList = u at h
  induction h with
  | nil => rfl
  | cons hp _ ih =>
    rw [List.map_cons, matchK_seq_cons]
    simp only [List.cons_append, matchK, hp, if_true]
    exact ih

theorem matchK_litFold_none {α : Type} (n : Nat) (l : String) (c : Char) (u s : Str)
    (g : Nat → Str) (k : Str → (Nat → Str) → Option α)
    (hl : l.toList = c :: u) (h : ∀ x ∈ s.head?, foldClass c x = false) :
    matchK n (litFold l) s g k = none := by
  unfold litFold
  rw [hl, List.map_cons, matchK_seq_cons]
  cases s with
  | nil => rfl
  | cons x xs =>
    have hx := h x (by simp)
    simp [matchK, hx]

theorem findFrom_begin_none (rs : List Regex) (n : Nat) (s : Str) (h : s.length < n) :
    findFrom (seq (beginText :: rs)) n s = none := by
  apply findFrom_none
  intro t hts
  rw [matchK_seq_cons]
  have hlen : t.length ≠ n := by
    have := hts.length_le
    omega
  show (if t.length = n then _ else none) = none
  rw [if_neg hlen]

end Regex

theorem option_match_id {α : Type} (x : Option α) :
    (match x with
      | some r => some r
      | none => none) = x := by
  cases x <;> rfl

theorem caseVariant_facts (word w : Str) (hL : ∀ c ∈ word, c ∈ "searchlisten".toList)
    (h : caseVariant word w = true) :
    List.Forall₂ (fun c x => Regex.foldClass c x = true) word w ∧ ToLower w = word ∧
      (∀ x ∈ w, isSpace x = false) ∧ w.length = word.length := by
  have A : ∀ c ∈ "searchlisten".toList,
      Regex.foldClass c c = true ∧ toLowerRune c = c ∧ isSpace c = false := by decide
  have B : ∀ c ∈ "searchlisten".toList,
      Regex.foldClass c c.toUpper = true ∧ toLowerRune c.toUpper = c ∧
        isSpace c.toUpper = false := by decide
  induction word generalizing w with
  | nil =>
    cases w with
    | nil => exact ⟨List.Forall₂.nil, rfl, fun x hx => absurd hx (List.not_mem_nil x), rfl⟩
    | cons x xs => simp [caseVariant] at h
  | cons c cs ih =>
    cases w with
    | nil => simp [caseVariant] at h
    | cons x xs =>
      simp only [caseVariant, Bool.and_eq_true, Bool.or_eq_true, beq_iff_eq] at h
      obtain ⟨hx, hxs⟩ := h
      obtain ⟨f1, f2, f3, f4⟩ := ih xs (fun c hc => hL c (List.mem_cons_of_mem _ hc)) hxs
      have hc := hL c (List.mem_cons_self _ _)
      have hfacts : Regex.foldClass c x = true ∧ toLowerRune x = c ∧ isSpace x = false := by
        rcases hx with h | h
        · rw [h]; exact A c hc
        · rw [h]; exact B c hc
      refine ⟨List.Forall₂.cons hfacts.1 f1, ?_, ?_, ?_⟩
      · show toLowerRune x :: ToLower xs = c :: cs
        rw [hfacts.2.1, f2]
      · intro y hy
        rcases List.mem_cons.1 hy with h | h
        · rw [h]; exact hfacts.2.2
        · exact f3 y h
      · simp [f4]

theorem commandPattern_eq :
    commandPattern = Regex.seq (Regex.beginText :: Regex.star Regex.space ::
      Regex.capture 1 (Regex.alt (Regex.litFold "search") (Regex.litFold "listen")) ::
      commandTail) := rfl

theorem listenPattern_eq :
    listenPattern = Regex.seq (Regex.beginText :: Regex.star Regex.space ::
      Regex.litFold "listen" :: listenTail) := rfl

theorem space_of_isSpace (x : Char) (h : isSpace x = false) : Regex.space x = false := by
  unfold isSpace at h
  unfold Regex.space
  simp only [Bool.or_eq_false_iff] at h ⊢
  tauto

open Regex in
theorem command_match (n : Nat) (word w R : Str)
    (hword : word = "search".toList ∨ word = "listen".toList)
    (hv : caseVariant word w = true) (hn : (w ++ R).length = n) :
    matchK n commandPattern (w ++ R) (fun _ => []) (fun s1 g1 => some (s1, g1)) =
      (matchK n (seq commandTail) R (fun _ => []) (fun s1 g1 => some (s1, g1))).map
        (fun p => (p.1, fun j => if j = 1 then w else p.2 j)) := by
  have hL : ∀ c ∈ word, c ∈ "searchlisten".toList := by
    rcases hword with h | h <;> subst h <;> decide
  obtain ⟨hF, _, hsp, _⟩ := caseVariant_facts word w hL hv
  have hfree : (seq commandTail).groupFree 1 = true := by decide
  have htail : matchK n (seq commandTail) R
      (fun j => if j = 1 then (w ++ R).take ((w ++ R).length - R.length) else [])
      (fun s1 g1 => some (s1, g1)) =
      (matchK n (seq commandTail) R (fun _ => []) (fun s1 g1 => some (s1, g1))).map
        (fun p => (p.1, fun j => if j = 1 then w else p.2 j)) := by
    rw [take_len_sub, ← matchK_overwrite n 1 w _ hfree, ← matchK_map]
    rfl
  cases w with
  | nil => rcases hword with h | h <;> subst h <;> simp [caseVariant] at hv
  | cons x w' =>
    have hx : space x = false := space_of_isSpace x (hsp x (List.mem_cons_self _ _))
    rw [commandPattern_eq, matchK_seq_cons]
    show (if (x :: w' ++ R).length = n then _ else none) = _
    rw [if_pos hn]
    beta_reduce
    rw [matchK_seq_cons]
    show starK space _ (x :: (w' ++ R)) = _
    rw [starK_stop _ _ _ _ hx]
    beta_reduce
    rw [matchK_seq_cons, matchK_capture, matchK_alt]
    rcases hword with h | h
    · subst h
      have hl : ∀ y ∈ (x :: w' ++ R).head?, foldClass 'l' y = false := by
        intro y hy
        simp only [List.cons_append, List.head?_cons, Option.mem_def, Option.some.injEq] at hy
        subst hy
        simp only [caseVariant, String.toList, Bool.and_eq_true, Bool.or_eq_true,
          beq_iff_eq] at hv
        rcases hv.1 with h | h <;> rw [h] <;> decide
      rw [← List.cons_append, matchK_litFold n "search" (x :: w') R _ _ hF,
        matchK_litFold_none n "listen" 'l' "isten".toList _ _ _ rfl hl, option_match_id]
      exact htail
    · subst h
      have hs : ∀ y ∈ (x :: w' ++ R).head?, foldClass 's' y = false := by
        intro y hy
        simp only [List.cons_append, List.head?_cons, Option.mem_def, Option.some.injEq] at hy
        subst hy
        simp only [caseVariant, String.toList, Bool.and_eq_true, Bool.or_eq_true,
          beq_iff_eq] at hv
        rcases hv.1 with h | h <;> rw [h] <;> decide
      rw [← List.cons_append, matchK_litFold_none n "search" 's' "earch".toList _ _ _ rfl hs,
        matchK_litFold n "listen" (x :: w') R _ _ hF]
      exact htail

open Regex in
theorem listen_match (n : Nat) (word w R : Str)
    (hword : word = "search".toList ∨ word = "listen".toList)
    (hv : caseVariant word w = true) (hn : (w ++ R).length = n) :
    matchK n listenPattern (w ++ R) (fun _ => []) (fun s1 g1 => some (s1, g1)) =
      if word = "listen".toList then
        matchK n (seq listenTail) R (fun _ => []) (fun s1 g1 => some (s1, g1))
      else none := by
  have hL : ∀ c ∈ word, c ∈ "searchlisten".toList := by
    rcases hword with h | h <;> subst h <;> decide
  obtain ⟨hF, _, hsp, _⟩ := caseVariant_facts word w hL hv
  cases w with
  | nil => rcases hword with h | h <;> subst h <;> simp [caseVariant] at hv
  | cons x w' =>
    have hx : space x = false := space_of_isSpace x (hsp x (List.mem_cons_self _ _))
    rw [listenPattern_eq, matchK_seq_cons]
    show (if (x :: w' ++ R).length = n then _ else none) = _
    rw [if_pos hn]
    beta_reduce
    rw [matchK_seq_cons]
    show starK space _ (x :: (w' ++ R)) = _
    rw [starK_stop _ _ _ _ hx]
    beta_reduce
    rw [matchK_seq_cons]
    rcases hword with h | h
    · subst h
      have hl : ∀ y ∈ (x :: (w' ++ R)).head?, foldClass 'l' y = false := by
        intro y hy
        simp only [List.head?_cons, Option.mem_def, Option.some.injEq] at hy
        subst hy
        simp only [caseVariant, String.toList, Bool.and_eq_true, Bool.or_eq_true,
          beq_iff_eq] at hv
        rcases hv.1 with h | h <;> rw [h] <;> decide
      rw [matchK_litFold_none n "listen" 'l' "isten".toList _ _ _ rfl hl,
        if_neg (by decide)]
    · subst h
      rw [← List.cons_append, matchK_litFold n "listen" (x :: w') R _ _ hF, if_pos rfl]

open Regex in
theorem command_find (word w R : Str)
    (hword : word = "search".toList ∨ word = "listen".toList)
    (hv : caseVariant word w = true) :
    FindStringSubmatch commandPattern (w ++ R) =
      (matchK (word.length + R.length) (seq commandTail) R (fun _ => [])
        (fun s1 g1 => some (s1, g1))).map
        (fun p => [(w ++ R).take ((w ++ R).length - p.1.length), w, p.2 2, p.2 3, p.2 4]) := by
  have hL : ∀ c ∈ word, c ∈ "searchlisten".toList := by
    rcases hword with h | h <;> subst h <;> decide
  obtain ⟨_, _, _, hlen⟩ := caseVariant_facts word w hL hv
  have hn : (w ++ R).length = word.length + R.length := by
    rw [List.length_append, hlen]
  have hm := command_match _ word w R hword hv hn
  have hsub : commandPattern.numSubexp = 4 := by decide
  have hr : List.range 4 = [0, 1, 2, 3] := rfl
  unfold FindStringSubmatch
  rw [hn]
  cases w with
  | nil => rcases hword with h | h <;> subst h <;> simp [caseVariant] at hv
  | cons x w' =>
    rw [List.cons_append, findFrom, ← List.cons_append, hm]
    cases matchK (word.length + R.length) (seq commandTail) R (fun _ => [])
        (fun s1 g1 => some (s1, g1)) with
    | none =>
      show findFrom commandPattern _ (w' ++ R) = none
      rw [commandPattern_eq]
      apply findFrom_begin_none
      rw [← hn]
      simp
    | some p =>
      show some _ = some _
      rw [hsub, hr, hn]
      rfl

open Regex in
theorem listen_find (word w R : Str)
    (hword : word = "search".toList ∨ word = "listen".toList)
    (hv : caseVariant word w = true) :
    FindStringSubmatch listenPattern (w ++ R) =
      (if word = "listen".toList then
        matchK (word.length + R.length) (seq listenTail) R (fun _ => [])
          (fun s1 g1 => some (s1, g1))
      else none).map
        (fun p => [(w ++ R).take ((w ++ R).length - p.1.length), p.2 1]) := by
  have hL : ∀ c ∈ word, c ∈ "searchlisten".toList := by
    rcases hword with h | h <;> subst h <;> decide
  obtain ⟨_, _, _, hlen⟩ := caseVariant_facts word w hL hv
  have hn : (w ++ R).length = word.length + R.length := by
    rw [List.length_append, hlen]
  have hm := listen_match _ word w R hword hv hn
  have hsub : listenPattern.numSubexp = 1 := by decide
  have hr : List.range 1 = [0] := rfl
  unfold FindStringSubmatch
  rw [hn]
  cases w with
  | nil => rcases hword with h | h <;> subst h <;> simp [caseVariant] at hv
  | cons x w' =>
    rw [List.cons_append, findFrom, ← List.cons_append, hm]
    cases (if word = "listen".toList then
        matchK (word.length + R.length) (seq listenTail) R (fun _ => [])
          (fun s1 g1 => some (s1, g1))
      else none) with
    | none =>
      show findFrom listenPattern _ (w' ++ R) = none
      rw [listenPattern_eq]
      apply findFrom_begin_none
      rw [← hn]
      simp
    | some p =>
      show some _ = some _
      rw [hsub, hr, hn]
      rfl

theorem dropWhile_append_stop (p : Char → Bool) (a b : Str) (hb : ∀ x ∈ b, p x = false) :
    List.dropWhile p (a ++ b) = List.dropWhile p a ++ b := by
  induction a with
  | nil =>
    cases b with
    | nil => rfl
    | cons x xs =>
      have hx := hb x (List.mem_cons_self _ _)
      simp [List.dropWhile, hx]
  | cons y ys ih =>
    by_cases hy : p y = true
    · simp only [List.cons_append, List.dropWhile_cons_of_pos hy, ih]
    · simp only [List.cons_append, List.dropWhile_cons_of_neg hy]

theorem dropWhile_all (p : Char → Bool) (a b : Str) (ha : a.all p = true) :
    List.dropWhile p (a ++ b) = List.dropWhile p b := by
  induction a with
  | nil => rfl
  | cons y ys ih =>
    simp only [List.all_cons, Bool.and_eq_true] at ha
    simp only [List.cons_append, List.dropWhile_cons_of_pos ha.1, ih ha.2]

/-- White space before a word is cut off, and so is white space that ends the
text after it. -/
theorem trimSpace_word (pre w rest : Str) (hpre : pre.all isSpace = true) (hne : w ≠ [])
    (hw : ∀ x ∈ w, isSpace x = false) :
    TrimSpace (pre ++ w ++ rest) = w ++ (List.dropWhile isSpace rest.reverse).reverse := by
  unfold TrimSpace
  cases w with
  | nil => exact absurd rfl hne
  | cons x w' =>
    have hx : isSpace x = false := hw x (List.mem_cons_self _ _)
    rw [List.append_assoc, dropWhile_all _ _ _ hpre, List.cons_append,
      List.dropWhile_cons_of_neg (by simp [hx]), ← List.cons_append, List.reverse_append,
      dropWhile_append_stop _ _ _ (fun y hy => hw y (List.mem_reverse.1 hy)),
      List.reverse_append, List.reverse_reverse]

theorem parseFullCommand_congr (now : Time) (x y w v a b c : Str)
    (h : ToLower w = ToLower v) :
    parseFullCommand now [x, w, a, b, c] = parseFullCommand now [y, v, a, b, c] := by
  have e1 : ∀ x w : Str, ([x, w, a, b, c] : List Str).getD 1 [] = w := fun _ _ => rfl
  have e2 : ∀ x w : Str, ([x, w, a, b, c] : List Str).getD 2 [] = a := fun _ _ => rfl
  have e3 : ∀ x w : Str, ([x, w, a, b, c] : List Str).getD 3 [] = b := fun _ _ => rfl
  have e4 : ∀ x w : Str, ([x, w, a, b, c] : List Str).getD 4 [] = c := fun _ _ => rfl
  rw [parseFullCommand_eq now [x, w, a, b, c] rfl, parseFullCommand_eq now [y, v, a, b, c] rfl]
  simp only [e1, e2, e3, e4, h]

/-- The result of `Parse` on a text that begins, after white space, with a
command word in any letter case: it depends on the word in lower case and on
the text after the word. -/
theorem parse_word (now : Time) (word pre w rest : Str)
    (hword : word = "search".toList ∨ word = "listen".toList)
    (hpre : pre.all isSpace = true) (hv : caseVariant word w = true) :
    Parse now (pre ++ w ++ rest) =
      match Regex.matchK (word.length + (List.dropWhile isSpace rest.reverse).reverse.length)
        (Regex.seq commandTail) (List.dropWhile isSpace rest.reverse).reverse (fun _ => [])
        (fun s1 g1 => some (s1, g1)) with
      | some p => parseFullCommand now [[], word, p.2 2, p.2 3, p.2 4]
      | none =>
        match (if word = "listen".toList then
            Regex.matchK (word.length + (List.dropWhile isSpace rest.reverse).reverse.length)
              (Regex.seq listenTail) (List.dropWhile isSpace rest.reverse).reverse (fun _ => [])
              (fun s1 g1 => some (s1, g1))
          else none) with
        | some p => .ok (setParsedSender (NewIntent CommandListen) (TrimSpace (p.2 1)))
        | none => .error .unableToParse := by
  have hL : ∀ c ∈ word, c ∈ "searchlisten".toList := by
    rcases hword with h | h <;> subst h <;> decide
  obtain ⟨_, hlow, hsp, hlen⟩ := caseVariant_facts word w hL hv
  have hwne : w ≠ [] := by
    intro h0
    rw [h0] at hlen
    rcases hword with h | h <;> subst h <;> cases hlen
  have hlw : ToLower word = word := by
    rcases hword with h | h <;> subst h <;> decide
  have hne : w ++ (List.dropWhile isSpace rest.reverse).reverse ≠ [] := by
    intro h0
    exact hwne (List.append_eq_nil.1 h0).1
  unfold Parse
  simp only [trimSpace_word pre w rest hpre hwne hsp, if_neg hne,
    command_find word w _ hword hv]
  cases Regex.matchK (word.length + (List.dropWhile isSpace rest.reverse).reverse.length)
      (Regex.seq commandTail) (List.dropWhile isSpace rest.reverse).reverse (fun _ => [])
      (fun s1 g1 => some (s1, g1)) with
  | some p =>
    show parseFullCommand now [_, w, p.2 2, p.2 3, p.2 4] = _
    exact parseFullCommand_congr now _ _ _ _ _ _ _ (by rw [hlow, hlw])
  | none =>
    show parseSimpleCommand (w ++ (List.dropWhile isSpace rest.reverse).reverse) = _
    unfold parseSimpleCommand
    rw [listen_find word w _ hword hv]
    cases (if word = "listen".toList then
        Regex.matchK (word.length + (List.dropWhile isSpace rest.reverse).reverse.length)
          (Regex.seq listenTail) (List.dropWhile isSpace rest.reverse).reverse (fun _ => [])
          (fun s1 g1 => some (s1, g1))
      else none) with
    | some p => rfl
    | none => rfl

theorem parseFullCommand_command (now : Time) (word a b c : Str) (intent : Intent)
    (hword : word = "search".toList ∨ word = "listen".toList)
    (h : parseFullCommand now [[], word, a, b, c] = .ok intent) : intent.Command = word := by
  have e1 : ([[], word, a, b, c] : List Str).getD 1 [] = word := rfl
  have hcl : ¬ ("listen".toList = "search".toList) := by decide
  rw [parseFullCommand_eq now [[], word, a, b, c] rfl, e1] at h
  rcases hword with hw | hw
  · subst hw
    rw [if_pos (by decide)] at h
    split_ifs at h
    all_goals try split at h
    all_goals first
      | (cases h; rfl)
      | cases h
  · subst hw
    rw [if_neg (by decide), if_pos (by decide)] at h
    split_ifs at h
    all_goals try split at h
    all_goals first
      | (cases h; rfl)
      | cases h

/-! ## Lemmas on the order of a date range -/

namespace Regex

end Regex

theorem foldl_filter_append (p : Email → Bool) (emails acc : List Email) :
    emails.foldl (fun filtered email => if p email then filtered ++ [email] else filtered) acc =
      acc ++ emails.filter p := by
  induction emails generalizing acc with
  | nil => simp
  | cons e es ih =>
    rw [List.foldl_cons, ih]
    by_cases h : p e = true
    · simp [h]
    · simp [h]

theorem filterEmails_eq (emails : List Email) (intent : Intent) :
    FilterEmails emails intent = emails.filter (fun e => matchesIntent e intent) := by
  unfold FilterEmails
  rw [foldl_filter_append (fun e => matchesIntent e intent)]
  rfl

theorem contains_of_hasSuffix (a s : Str) (h : HasSuffix a ("@".toList ++ s) = true) :
    Contains a s = true := by
  rw [hasSuffix_iff_suffix] at h
  rw [ contains_iff_infix]
  exact (List.suffix_append _ _).isInfix.trans h.isInfix

theorem specNotifies_eq (intent : Intent) (msg : Message) :
    notifies intent msg = specNotifies intent.Sender msg := by
  unfold notifies specNotifies
  cases msg.Envelope with
  | none => rfl
  | some env =>
    dsimp only
    cases env.From with
    | nil => rfl
    | cons addr rest =>
      dsimp only [List.head?_cons]
      unfold addrSpec
      cases hc : Contains (ToLower (addr.MailboxName ++ "@".toList ++ addr.HostName))
          (ToLower intent.Sender) with
      | true =>
        rw [ contains_iff_infix] at hc
        exact (decide_eq_true hc).symm
      | false =>
        have hn : ¬ ToLower intent.Sender <:+:
            ToLower (addr.MailboxName ++ "@".toList ++ addr.HostName) := by
          intro h
          rw [← contains_iff_infix, hc] at h
          cases h
        exact (decide_eq_false hn).symm

theorem pollOnce_fetching (intent : Intent) (w : Nat) (mbox : MailboxStatus)
    (stream : List Message) (h : ¬ mbox.UidNext ≤ (w + 1) % 2 ^ 32) :
    pollOnce intent w (.selected mbox stream) =
      { start := w
        lastUID := ((stream.map (·.Uid)).getLast?).getD w
        fetched := some ((w + 1) % 2 ^ 32, (mbox.UidNext + 2 ^ 32 - 1) % 2 ^ 32)
        notified := stream.filter (notifies intent) } := by
  simp only [pollOnce]
  rw [if_neg h, drain_fst, drain_snd]

theorem pollOnce_idle (intent : Intent) (w : Nat) (mbox : MailboxStatus)
    (stream : List Message) (h : mbox.UidNext ≤ (w + 1) % 2 ^ 32) :
    pollOnce intent w (.selected mbox stream) =
      { start := w, lastUID := w, fetched := none, notified := [] } := by
  simp only [pollOnce]
  rw [if_pos h]

/-! ## Lemmas on trimmed fragments -/

theorem dropWhile_split (p : Char → Bool) (s : Str) :
    ∃ pre, s = pre ++ s.dropWhile p ∧ (∀ c ∈ pre, p c = true) ∧
      (∀ c ∈ (s.dropWhile p).head?, p c = false) := by
  induction s with
  | nil => exact ⟨[], rfl, fun _ h => absurd h (List.not_mem_nil _), fun _ h => (by simp at h)⟩
  | cons x xs ih =>
    by_cases hx : p x = true
    · obtain ⟨pre, h1, h2, h3⟩ := ih
      rw [List.dropWhile_cons_of_pos hx]
      refine ⟨x :: pre, by rw [List.cons_append, ← h1], ?_, h3⟩
      intro c hc
      rcases List.mem_cons.1 hc with h | h
      · rw [h]; exact hx
      · exact h2 c h
    · rw [List.dropWhile_cons_of_neg hx]
      refine ⟨[], rfl, fun _ h => absurd h (List.not_mem_nil _), ?_⟩
      intro c hc
      simp only [List.head?_cons, Option.mem_def, Option.some.injEq] at hc
      rw [← hc]
      simpa using hx

/-- The function `TrimSpace` cuts off the leading and trailing white space. -/
theorem trimSpace_trims (s : Str) : Trims (TrimSpace s) s := by
  obtain ⟨pre, h1, h2, h3⟩ := dropWhile_split isSpace s
  obtain ⟨q, k1, k2, k3⟩ := dropWhile_split isSpace (s.dropWhile isSpace).reverse
  have hx : s.dropWhile isSpace = TrimSpace s ++ q.reverse := by
    have := congrArg List.reverse k1
    rw [List.reverse_reverse, List.reverse_append] at this
    exact this
  refine ⟨pre, q.reverse, ?_, h2, ?_, ?_, ?_⟩
  · rw [List.append_assoc, ← hx]
    exact h1
  · intro c hc
    exact k2 c (List.mem_reverse.1 hc)
  · intro c hc
    cases ht : TrimSpace s with
    | nil => rw [ht] at hc; simp at hc
    | cons a as =>
      rw [ht] at hc hx
      apply h3 c
      rw [hx]
      exact hc
  · intro c hc
    apply k3 c
    have : (TrimSpace s).getLast? = ((s.dropWhile isSpace).reverse.dropWhile isSpace).head? := by
      unfold TrimSpace
      rw [List.getLast?_reverse]
    rw [← this]
    exact hc

theorem trimSpace_ne_nil_iff (s : Str) : TrimSpace s ≠ [] ↔ s.all isSpace = false := by
  constructor
  · intro h
    by_contra hc
    rw [Bool.not_eq_false] at hc
    exact h (trimSpace_of_all_space s hc)
  · intro h ht
    obtain ⟨pre, post, e, hp, hq, _, _⟩ := trimSpace_trims s
    rw [ht, List.append_nil] at e
    have : s.all isSpace = true := by
      rw [e, List.all_append, Bool.and_eq_true]
      exact ⟨List.all_eq_true.2 hp, List.all_eq_true.2 hq⟩
    rw [this] at h
    cases h

/-- The trimmed non-empty fragments are, in order, the fragments that are not
all white space, each without its leading and trailing white space. -/
theorem specKeywords_trims (span : Str) :
    List.Forall₂ Trims (specKeywords span)
      ((fragments span).filter fun f => !f.all isSpace) := by
  unfold specKeywords fragments
  generalize (List.splitOnP (fun c => c == ',' || c == '|' || c == '&') span) = l
  induction l with
  | nil => exact List.Forall₂.nil
  | cons f fs ih =>
    rw [List.map_cons]
    by_cases hf : f.all isSpace = true
    · have ht : TrimSpace f = [] := trimSpace_of_all_space f hf
      rw [List.filter_cons_of_neg (by simp [ht]), List.filter_cons_of_neg (by simp [hf])]
      exact ih
    · have hf' : f.all isSpace = false := by simpa using hf
      have ht : TrimSpace f ≠ [] := (trimSpace_ne_nil_iff f).2 hf'
      rw [List.filter_cons_of_pos (by simpa using ht),
        List.filter_cons_of_pos (by simp [hf'])]
      exact List.Forall₂.cons (trimSpace_trims f) ih

theorem day_bounds_congr (t u : Time) (hl : t.Location = u.Location)
    (hd : t.wall / 86400 = u.wall / 86400) :
    dayStart t = dayStart u ∧ dayEnd t = dayEnd u := by
  rw [dayStart_eq, dayStart_eq, dayEnd_eq, dayEnd_eq, hl, hd]
  exact ⟨rfl, rfl⟩

/-- C1. When the primary pattern matches the trimmed input, the command word
is `search` in lower case, and the date bracket is absent or resolves, `Parse`
returns a search intent whose keywords are, in order, the fragments of the
quoted keyword span, split at every `,`, `|` and `&`, that are not all white
space, each without its leading and trailing white space: the trimmed
non-empty fragments. The command `search for "a,b" from "x"` parses to the
keywords `a` and `b`, the sender `x`, no wildcard and no date range, and the
keyword span ` a , b|c & d `, with blanks, gives the keywords `a`, `b`, `c` and
`d`. -/
theorem parse_search_keywords :
    (∀ (now : Time) (input : Str) (groups : List Str),
      Regex.FindStringSubmatch commandPattern (TrimSpace input) = some groups →
      ToLower (groups.getD 1 []) = "search".toList →
      (groups.getD 4 [] = [] ∨
        ∃ j, parseDateRange now (NewIntent CommandSearch) (TrimSpace (groups.getD 4 [])) = .ok j) →
      ∃ intent, Parse now input = .ok intent ∧ intent.Command = CommandSearch ∧
        List.Forall₂ Trims intent.Keywords
          ((fragments (groups.getD 2 [])).filter fun f => !f.all isSpace) ∧
        intent.Keywords = specKeywords (groups.getD 2 [])) ∧
    (∀ now : Time, Parse now "search for \"a,b\" from \"x\"".toList =
      .ok { Command := CommandSearch, Keywords := ["a".toList, "b".toList],
            Sender := "x".toList, DateRange := none, AllFromSender := false }) ∧
    (∀ now : Time, Parse now "search for \" a , b|c & d \" from \"x\"".toList =
      .ok { Command := CommandSearch,
            Keywords := ["a".toList, "b".toList, "c".toList, "d".toList],
            Sender := "x".toList, DateRange := none, AllFromSender := false }) ∧
    (∀ now : Time, Parse now "search for \"\ta b ,\n,c\" from \"x\"".toList =
      .ok { Command := CommandSearch, Keywords := ["a b".toList, "c".toList],
            Sender := "x".toList, DateRange := none, AllFromSender := false }) := by
  refine ⟨?_, fun now => rfl, fun now => rfl, fun now => rfl⟩
  intro now input groups hm hcmd hdate
  obtain ⟨hp, hlen⟩ := parse_of_primary now input groups hm
  rw [hp, parseFullCommand_eq now groups hlen, if_pos hcmd]
  by_cases h4 : groups.getD 4 [] = []
  · rw [if_neg (not_not_intro h4)]
    exact ⟨_, rfl, rfl, specKeywords_trims _, rfl⟩
  · rw [if_pos h4]
    rcases hdate with h | ⟨j, hj⟩
    · exact absurd h h4
    · rw [hj]
      exact ⟨_, rfl, rfl, specKeywords_trims _, rfl⟩

/-- The first part of C1 at a command with a date bracket, read at
2023-11-14T23:13:20+01:00: the keyword span ` x | y,,z ` gives the keywords
`x`, `y` and `z`. -/
theorem parse_search_keywords_witness :
    ∃ intent,
      Parse { unix := 1700000000, nsec := 0, offset := 3600 }
        "  Search on \" x | y,,z \" from \"*@corp.org\" [2024-01-01 to 2024-01-31]".toList =
        .ok intent ∧
      intent.Command = CommandSearch ∧
      List.Forall₂ Trims intent.Keywords [" x ".toList, " y".toList, "z ".toList] ∧
      intent.Keywords = ["x".toList, "y".toList, "z".toList] :=
  parse_search_keywords.1 { unix := 1700000000, nsec := 0, offset := 3600 }
    "  Search on \" x | y,,z \" from \"*@corp.org\" [2024-01-01 to 2024-01-31]".toList
    ["Search on \" x | y,,z \" from \"*@corp.org\" [2024-01-01 to 2024-01-31]".toList,
      "Search".toList, " x | y,,z ".toList, "*@corp.org".toList,
      "2024-01-01 to 2024-01-31".toList]
    (by decide) (by decide) (Or.inr ⟨_, rfl⟩)

/-- C2. For an input `Parse` accepts through the primary pattern, and for every
input that only the fallback pattern matches (which `Parse` accepts as a
`listen` intent without keywords), the sender and the wildcard flag of the
intent are those the specification gives for the trimmed quoted sender value:
a leading `*@`, or a leading `*` that no `@` follows, is removed and sets the
flag; any other value is kept and leaves the flag unset. The command
`listen from "*@example.com"` parses to the command `listen`, the sender
`example.com`, the wildcard flag and no keywords. -/
theorem parse_sender_wildcard :
    (∀ (now : Time) (input : Str) (groups : List Str) (intent : Intent),
      Regex.FindStringSubmatch commandPattern (TrimSpace input) = some groups →
      Parse now input = .ok intent →
      (intent.Sender, intent.AllFromSender) = specSender (TrimSpace (groups.getD 3 []))) ∧
    (∀ (now : Time) (input : Str) (groups : List Str),
      Regex.FindStringSubmatch commandPattern (TrimSpace input) = none →
      Regex.FindStringSubmatch listenPattern (TrimSpace input) = some groups →
      ∃ intent, Parse now input = .ok intent ∧ intent.Command = CommandListen ∧
        intent.Keywords = [] ∧
        (intent.Sender, intent.AllFromSender) = specSender (TrimSpace (groups.getD 1 []))) ∧
    (∀ now : Time, Parse now "listen from \"*@example.com\"".toList =
      .ok { Command := CommandListen, Keywords := [], Sender := "example.com".toList,
            DateRange := none, AllFromSender := true }) := by
  refine ⟨?_, ?_, fun now => rfl⟩
  · intro now input groups intent hm hok
    obtain ⟨hp, hlen⟩ := parse_of_primary now input groups hm
    rw [hp, parseFullCommand_eq now groups hlen] at hok
    split_ifs at hok
    all_goals try split at hok
    all_goals first
      | (cases hok; rfl)
      | cases hok
  · intro now input groups h0 h
    exact ⟨_, parse_of_fallback now input groups h0 h, rfl, rfl, rfl⟩

/-- The fallback part of C2 at a command with a wildcard sender. -/
theorem parse_sender_wildcard_witness :
    ∃ intent,
      Parse { unix := 1700000000, nsec := 0, offset := 3600 }
        "LISTEN  from \" *bob@corp.org\"".toList = .ok intent ∧
      intent.Command = CommandListen ∧ intent.Keywords = [] ∧
      (intent.Sender, intent.AllFromSender) = specSender "*bob@corp.org".toList :=
  parse_sender_wildcard.2.1 { unix := 1700000000, nsec := 0, offset := 3600 }
    "LISTEN  from \" *bob@corp.org\"".toList
    ["LISTEN  from \" *bob@corp.org\"".toList, " *bob@corp.org".toList]
    (by decide) (by decide)

/-- C3. `Validate` accepts an intent exactly when it is a search with a keyword
or a sender, or a listen with a sender and no keyword. The nil intent is
rejected, and so is every other intent: a search with neither keyword nor
sender, a listen with a keyword, a listen without sender, and an intent whose
command is neither. -/
theorem validate_ok_iff :
    (∀ i : Intent, Validate (some i) = .ok () ↔
      (i.Command = CommandSearch ∧ (i.Keywords ≠ [] ∨ i.Sender ≠ [])) ∨
      (i.Command = CommandListen ∧ i.Sender ≠ [] ∧ i.Keywords = [])) ∧
    Validate none = .error .nilIntent ∧
    (∀ i : Intent, i.Command = CommandSearch → i.Keywords = [] → i.Sender = [] →
      Validate (some i) = .error .searchRequires) ∧
    (∀ i : Intent, i.Command = CommandListen → i.Sender = [] →
      Validate (some i) = .error .listenRequiresSender) ∧
    (∀ i : Intent, i.Command = CommandListen → i.Sender ≠ [] → i.Keywords ≠ [] →
      Validate (some i) = .error .listenKeywords) ∧
    (∀ i : Intent, i.Command ≠ CommandSearch → i.Command ≠ CommandListen →
      Validate (some i) = .error (.unknownCommand i.Command)) := by
  have hcl : CommandListen ≠ CommandSearch := by decide
  refine ⟨fun i => ?_, rfl, ?_, ?_, ?_, ?_⟩
  · unfold Validate
    by_cases hs : i.Command = CommandSearch
    · have hl : i.Command ≠ CommandListen := fun h => hcl (h.symm.trans hs)
      by_cases hk : i.Keywords = [] <;> by_cases hsd : i.Sender = [] <;>
        simp [hs, hl, hk, hsd, hcl.symm]
    · by_cases hl : i.Command = CommandListen
      · by_cases hk : i.Keywords = [] <;> by_cases hsd : i.Sender = [] <;>
          simp [hl, hk, hsd, hcl, List.length_pos]
      · simp [hs, hl]
  · intro i hs hk hsd
    simp [Validate, hs, hk, hsd]
  · intro i hl hsd
    simp [Validate, hl, hsd, hcl]
  · intro i hl hsd hk
    simp [Validate, hl, hsd, hcl, List.length_pos, hk]
  · intro i hs hl
    simp [Validate, hs, hl]

/-- The rejections of C3 at a listen intent that carries a keyword. -/
theorem validate_ok_iff_witness :
    Validate (some { Command := CommandListen, Keywords := ["offer".toList],
                     Sender := "hr@corp.org".toList, DateRange := none,
                     AllFromSender := false }) = .error .listenKeywords :=
  validate_ok_iff.2.2.2.2.1 _ rfl (by decide) (by decide)

/-- C4. `matchesIntent` holds exactly when the three checks hold. Sender: the
sender of the intent is empty, or its lower case occurs in the lower case of
the from-address, or the wildcard flag is set and the lower case of the
from-address ends with `@` and the lower case of the sender. Keywords: there
are none, or the lower case of one of them occurs in the lower case of the
subject, a blank and the body. Date: there is no range, or the date of the
message is neither before the start nor after the end of the range. -/
theorem matchesIntent_iff (email : Email) (intent : Intent) :
    matchesIntent email intent = true ↔
      (intent.Sender = [] ∨ ToLower intent.Sender <:+: ToLower email.From ∨
        (intent.AllFromSender = true ∧
          "@".toList ++ ToLower intent.Sender <:+ ToLower email.From)) ∧
      (intent.Keywords = [] ∨
        ∃ k ∈ intent.Keywords,
          ToLower k <:+: ToLower (email.Subject ++ " ".toList ++ email.Body)) ∧
      (∀ r, intent.DateRange = some r →
        Time.notAfter r.Start email.Date ∧ Time.notAfter email.Date r.End) := by
  have hB : ∀ t u : Time, t.Before u = false ↔ Time.notAfter u t := by
    intro t u
    simp only [Time.Before, Time.notAfter, Bool.or_eq_false_iff, Bool.and_eq_false_iff,
      decide_eq_false_iff_not, beq_eq_false_iff_ne, ne_eq]
    omega
  have hA : ∀ t u : Time, t.After u = false ↔ Time.notAfter t u := by
    intro t u
    simp only [Time.After, Time.notAfter, Bool.or_eq_false_iff, Bool.and_eq_false_iff,
      decide_eq_false_iff_not, beq_eq_false_iff_ne, ne_eq, gt_iff_lt]
    omega
  have hany : (intent.Keywords.any fun keyword =>
        Contains (ToLower (email.Subject ++ " ".toList ++ email.Body)) (ToLower keyword)) = true ↔
      ∃ k ∈ intent.Keywords,
        ToLower k <:+: ToLower (email.Subject ++ " ".toList ++ email.Body) := by
    simp only [List.any_eq_true, contains_iff_infix]
  have hdate : (match intent.DateRange with
      | some r => if email.Date.Before r.Start || email.Date.After r.End then false else true
      | none => true) = true ↔
      (∀ r, intent.DateRange = some r →
        Time.notAfter r.Start email.Date ∧ Time.notAfter email.Date r.End) := by
    cases hr : intent.DateRange with
    | none => simp
    | some r =>
      simp only [Option.some.injEq, forall_eq', ← hB email.Date r.Start, ← hA email.Date r.End]
      cases email.Date.Before r.Start <;> cases email.Date.After r.End <;> simp
  unfold matchesIntent
  rw [← hany, ← hdate, ← contains_iff_infix, ← hasSuffix_iff_suffix]
  generalize Contains (ToLower email.From) (ToLower intent.Sender) = c
  generalize HasSuffix (ToLower email.From) ("@".toList ++ ToLower intent.Sender) = x
  generalize (intent.Keywords.any fun keyword =>
        Contains (ToLower (email.Subject ++ " ".toList ++ email.Body)) (ToLower keyword)) = a
  generalize (match intent.DateRange with
      | some r => if email.Date.Before r.Start || email.Date.After r.End then false else true
      | none => true) = d
  by_cases hs : intent.Sender = [] <;> by_cases hk : intent.Keywords = [] <;>
    cases intent.AllFromSender <;> cases c <;> cases x <;> cases a <;> cases d <;>
    simp [hs, hk, List.length_pos]

/-- C4 at a message from `Bob@Example.org` with the subject `ΑΘΗΝΑ news` and an
intent with the sender `bOB` and the keyword `αθηνα`: sender and keyword are
found whatever the case of the letters, Latin or Greek. -/
theorem matchesIntent_iff_witness :
    matchesIntent
      { ID := "1".toList, From := "Bob@Example.org".toList, Subject := "ΑΘΗΝΑ news".toList,
        Date := { unix := 1700000000, nsec := 0, offset := 0 }, Body := [] }
      { Command := CommandSearch, Keywords := ["αθηνα".toList], Sender := "bOB".toList,
        DateRange := none, AllFromSender := false } = true :=
  (matchesIntent_iff _ _).mpr
    ⟨Or.inr (Or.inl (by decide)), Or.inr ⟨_, List.mem_singleton.2 rfl, by decide⟩,
      fun r h => by cases h⟩

/-- C5, the code at a failing input. The command
`search for "hello" from "*@corp.com"` parses to an intent that `Validate`
accepts; the store finds one message, from `bob@example.org`; `executeSearch`
returns it as a result, although `matchesIntent` rejects it. -/
theorem executeSearch_skips_filter :
    (∀ now : Time, Parse now "search for \"hello\" from \"*@corp.com\"".toList = .ok searchCorp) ∧
    Validate (some searchCorp) = .ok () ∧
    executeSearch sampleStore searchCorp =
      .ok { command := "search".toList, count := 1,
            results := [{ sender := "bob@example.org".toList, subject := "hello".toList,
                          date := "2023-11-14 22:13:20".toList }] } ∧
    (fetchMessages sampleStore [1]).map (fun e => matchesIntent e searchCorp) = [false] :=
  ⟨fun _ => rfl, by decide, by decide, by decide⟩

/-- C6 as stated fails. A store that streams an old message: after the turn
that streams identifier 12 the watermark is 12, after the next one, which
streams identifier 1, it is 1. A watch started at next identifier 0: the
watermark is 4294967295 after a turn whose selection fails and 3 after the
next one, whose stream lies within the range requested. -/
theorem watermark_rolls_back :
    (executeListen listenBob (.ok (sampleStatus 11))
      [.selected (sampleStatus 13) [sampleMessage 12 "bob"],
       .selected (sampleStatus 14) [sampleMessage 1 "bob"]]).map
        (fun r => r.2.map (·.lastUID)) = .ok [12, 1] ∧
    (executeListen listenBob (.ok (sampleStatus 0))
      [.selectError [], .selected (sampleStatus 10) [sampleMessage 3 "bob"]]).map
        (fun r => (r.2.map (·.lastUID), r.2.map (·.fetched))) =
      .ok ([4294967295, 3], [none, some (0, 9)]) := by
  decide

/-- C6, amended. A watch started at a next identifier of at least 1, over turns
that report 32-bit next identifiers and whose streams lie within the range
requested: the run returns the watermark after every turn, none is below the
watermark the watch started with, and the watermark after turn `i` is at most
the watermark after turn `j` for all `i < j`. -/
theorem watermark_monotone (intent : Intent) (mbox : MailboxStatus) (polls : List Poll)
    (h0 : 1 ≤ mbox.UidNext) (h1 : mbox.UidNext < 2 ^ 32)
    (ht : ∀ p ∈ polls, p.WellTyped)
    (hr : RunHonoursRange intent (mbox.UidNext - 1) polls) :
    ∃ trace, executeListen intent (.ok mbox) polls = .ok (mbox.UidNext - 1, trace) ∧
      trace.length = polls.length ∧
      (∀ r ∈ trace, mbox.UidNext - 1 ≤ r.lastUID) ∧
      ∀ i j : Fin trace.length, i < j → (trace.get i).lastUID ≤ (trace.get j).lastUID := by
  have hw : (mbox.UidNext + 2 ^ 32 - 1) % 2 ^ 32 = mbox.UidNext - 1 := by omega
  have hm := pollLoop_mono intent polls (mbox.UidNext - 1) (by omega) ht hr
  refine ⟨pollLoop intent (mbox.UidNext - 1) polls, ?_, pollLoop_length _ _ _, hm.1, ?_⟩
  · simp only [executeListen, hw]
  · intro i j hij
    exact List.pairwise_iff_get.mp hm.2 i j hij

/-- C6, amended, at a watch started at next identifier 3, over a turn that
streams identifiers 5 and 3, a turn whose selection fails, and a turn that
streams identifiers 4 and 7. -/
theorem watermark_monotone_witness :
    ∃ trace, executeListen listenBob (.ok (sampleStatus 3))
        [.selected (sampleStatus 6) [sampleMessage 5 "bob", sampleMessage 3 "al"],
         .selectError [],
         .selected (sampleStatus 8) [sampleMessage 4 "al", sampleMessage 7 "bob"]] =
          .ok ((sampleStatus 3).UidNext - 1, trace) ∧
      trace.length = 3 ∧
      (∀ r ∈ trace, (sampleStatus 3).UidNext - 1 ≤ r.lastUID) ∧
      ∀ i j : Fin trace.length, i < j → (trace.get i).lastUID ≤ (trace.get j).lastUID :=
  watermark_monotone listenBob (sampleStatus 3) _ (by decide) (by decide) (by decide) (by decide)

/-- C7, the code at a failing input. The watch starts at next identifier 0, so
the watermark is 4294967295; the turn reports next identifier 10; the fetch is
issued with the bounds 0 and 9, all at or below the watermark. -/
theorem fetch_range_wraps :
    executeListen listenBob (.ok (sampleStatus 0)) [.selected (sampleStatus 10) []] =
      .ok (4294967295,
        [{ start := 4294967295, lastUID := 4294967295, fetched := some (0, 9),
           notified := [] }]) := by
  decide

/-- C8 as stated fails. The first turn requests identifiers 3 to 5 and the
store streams 5, then 3; the second requests 4 to 5 and the store streams 4,
then 5. Every stream lies within the range requested and holds no identifier
twice, and identifier 5 is notified in both turns. -/
theorem notified_twice :
    (executeListen listenBob (.ok (sampleStatus 3))
      [.selected (sampleStatus 6) [sampleMessage 5 "bob", sampleMessage 3 "bob"],
       .selected (sampleStatus 6) [sampleMessage 4 "bob", sampleMessage 5 "bob"]]).map
        (fun r => r.2.map fun t => (t.fetched, t.notified.map (·.Uid))) =
      .ok [(some (3, 5), [5, 3]), (some (4, 5), [4, 5])] := by
  decide

/-- C8, amended. A watch started at a next identifier of at least 1, over turns
that report 32-bit next identifiers and whose streams lie within the range
requested, in strictly ascending order of identifier: no identifier is
notified twice over the whole run; in every turn the range requested starts
above the watermark the turn started with, and so does every message streamed
in a turn that fetches and every message notified. -/
theorem no_duplicate_notification (intent : Intent) (mbox : MailboxStatus) (polls : List Poll)
    (h0 : 1 ≤ mbox.UidNext) (h1 : mbox.UidNext < 2 ^ 32)
    (ht : ∀ p ∈ polls, p.WellTyped)
    (hr : RunHonoursRange intent (mbox.UidNext - 1) polls)
    (ha : RunAscending polls) :
    ∃ trace, executeListen intent (.ok mbox) polls = .ok (mbox.UidNext - 1, trace) ∧
      ((trace.flatMap (·.notified)).map (·.Uid)).Nodup ∧
      (∀ r ∈ trace,
        (∀ lo hi, r.fetched = some (lo, hi) → r.start < lo ∧ lo ≤ hi) ∧
        ∀ m ∈ r.notified, r.start < m.Uid) ∧
      ∀ pr ∈ polls.zip trace, pr.2.fetched ≠ none → ∀ m ∈ pr.1.stream, pr.2.start < m.Uid := by
  have hw : (mbox.UidNext + 2 ^ 32 - 1) % 2 ^ 32 = mbox.UidNext - 1 := by omega
  have hn := pollLoop_notified intent polls (mbox.UidNext - 1) (by omega) ht hr ha
  have hs := pollLoop_streams intent polls (mbox.UidNext - 1) (by omega) ht hr
  refine ⟨pollLoop intent (mbox.UidNext - 1) polls, ?_, ?_, hn.2.2, hs⟩
  · simp only [executeListen, hw]
  · exact hn.2.1.imp (fun h => Nat.ne_of_lt h)

/-- C8, amended, at a watch started at next identifier 3, over a turn that
streams identifiers 3 and 5, a turn that reports nothing new, and a turn that
streams identifiers 6 and 7. -/
theorem no_duplicate_notification_witness :
    ∃ trace, executeListen listenBob (.ok (sampleStatus 3))
        [.selected (sampleStatus 6) [sampleMessage 3 "bob", sampleMessage 5 "bob"],
         .selected (sampleStatus 6) [],
         .selected (sampleStatus 8) [sampleMessage 6 "al", sampleMessage 7 "bob"]] =
          .ok ((sampleStatus 3).UidNext - 1, trace) ∧
      ((trace.flatMap (·.notified)).map (·.Uid)).Nodup :=
  have h := no_duplicate_notification listenBob (sampleStatus 3)
    [.selected (sampleStatus 6) [sampleMessage 3 "bob", sampleMessage 5 "bob"],
     .selected (sampleStatus 6) [],
     .selected (sampleStatus 8) [sampleMessage 6 "al", sampleMessage 7 "bob"]]
    (by decide) (by decide) (by decide) (by decide) (by decide)
  h.imp fun _ ht => ⟨ht.1, ht.2.1⟩

/-- C9 as stated fails. The store streams identifier 5, then 3: the watermark
after the turn is 3, and the highest identifier observed is 5. -/
theorem watermark_not_highest :
    (pollOnce listenBob 2
      (.selected (sampleStatus 6) [sampleMessage 5 "bob", sampleMessage 3 "bob"])).lastUID = 3 ∧
    ([sampleMessage 5 "bob", sampleMessage 3 "bob"].map (·.Uid)).foldl max 0 = 5 := by
  decide

/-- C9, amended. After a turn that fetches a stream that is not empty, the
watermark is the identifier of the message streamed last; it is the highest
identifier of the stream when the store streams in ascending order. -/
theorem watermark_is_last_streamed (intent : Intent) (w : Nat) (mbox : MailboxStatus)
    (stream : List Message) (hf : ¬ mbox.UidNext ≤ (w + 1) % 2 ^ 32) (hne : stream ≠ []) :
    (pollOnce intent w (.selected mbox stream)).fetched ≠ none ∧
    (pollOnce intent w (.selected mbox stream)).lastUID = (stream.getLast hne).Uid ∧
    ((stream.map (·.Uid)).Pairwise (· ≤ ·) →
      ∀ m ∈ stream, m.Uid ≤ (pollOnce intent w (.selected mbox stream)).lastUID) := by
  have hl : (stream.map (·.Uid)).getLast? = some (stream.getLast hne).Uid := by
    rw [List.getLast?_map, List.getLast?_eq_getLast _ hne]
    rfl
  have hu : (pollOnce intent w (.selected mbox stream)).lastUID =
      ((stream.map (·.Uid)).getLast?).getD w := by
    simp only [pollOnce, hf, if_false, drain_fst]
  refine ⟨?_, ?_, fun hp m hm => ?_⟩
  · simp only [pollOnce, hf, if_false]
    exact Option.some_ne_none _
  · rw [hu, hl]
    rfl
  · rw [hu]
    exact le_getLastD _ w hp _ (List.mem_map_of_mem _ hm)

/-- C9, amended, at a turn started at watermark 2 that streams identifiers 3
and 5. -/
theorem watermark_is_last_streamed_witness :
    (pollOnce listenBob 2
      (.selected (sampleStatus 6) [sampleMessage 3 "al", sampleMessage 5 "bob"])).lastUID = 5 :=
  (watermark_is_last_streamed listenBob 2 (sampleStatus 6)
    [sampleMessage 3 "al", sampleMessage 5 "bob"] (by decide) (by decide)).2.1

/-- C10. The criteria `buildSearchCriteria` returns: the header criteria are
the single criterion `From` with the sender when the sender is not empty and
the wildcard flag is unset, and none otherwise; the texts are the first
keyword alone when there is a keyword, and none otherwise; since and before
are the start and the end of the date range when there is one, and unset (the
zero time) otherwise. -/
theorem buildSearchCriteria_spec (intent : Intent) :
    (buildSearchCriteria intent).Header =
      (if intent.Sender ≠ [] ∧ intent.AllFromSender = false
        then [("From".toList, [intent.Sender])] else []) ∧
    HeaderGet (buildSearchCriteria intent).Header "From".toList =
      (if intent.Sender ≠ [] ∧ intent.AllFromSender = false
        then some [intent.Sender] else none) ∧
    (buildSearchCriteria intent).Text = intent.Keywords.take 1 ∧
    (∀ r, intent.DateRange = some r →
      (buildSearchCriteria intent).Since = r.Start ∧
      (buildSearchCriteria intent).Before = r.End) ∧
    (intent.DateRange = none →
      (buildSearchCriteria intent).Since = Time.zero ∧
      (buildSearchCriteria intent).Before = Time.zero) := by
  unfold buildSearchCriteria
  by_cases hs : intent.Sender = [] <;> cases ha : intent.AllFromSender <;>
    cases hd : intent.DateRange <;> cases hk : intent.Keywords <;>
    simp [hs, NewSearchCriteria, HeaderSet, HeaderGet]

/-- C10 at the intent of `search for "hello" from "*@corp.com"`: the text
`hello`, no bounds on the date. -/
theorem buildSearchCriteria_spec_witness :
    (buildSearchCriteria searchCorp).Text = ["hello".toList] ∧
    (buildSearchCriteria searchCorp).Since = Time.zero ∧
    (buildSearchCriteria searchCorp).Before = Time.zero :=
  ⟨(buildSearchCriteria_spec searchCorp).2.2.1, (buildSearchCriteria_spec searchCorp).2.2.2.2 rfl⟩

/-- C11 as stated fails. The intent has the sender `bob` and the range of the
first day of 2024; the message is from `bob@example.org` and dated at the end
of the range, 23:59:59. It satisfies both constraints and the Local Filter
accepts it, and the store criteria, whose `before` is exclusive, reject it. -/
theorem end_of_range_rejected :
    "bob".toList <:+: (emailFromBob { unix := 1704153599, nsec := 0, offset := 0 }).From ∧
    Time.notAfter { unix := 1704067200, nsec := 0, offset := 0 }
      (emailFromBob { unix := 1704153599, nsec := 0, offset := 0 }).Date ∧
    Time.notAfter (emailFromBob { unix := 1704153599, nsec := 0, offset := 0 }).Date
      { unix := 1704153599, nsec := 0, offset := 0 } ∧
    matchesIntent (emailFromBob { unix := 1704153599, nsec := 0, offset := 0 })
      searchBobNewYear = true ∧
    storeAccepts (buildSearchCriteria searchBobNewYear)
      (emailFromBob { unix := 1704153599, nsec := 0, offset := 0 }) = false := by
  refine ⟨by decide, ?_, ?_, by decide, by decide⟩
  · exact Or.inl (by decide)
  · exact Or.inr ⟨rfl, Nat.le_refl _⟩

/-- C11, amended. For an intent with a sender that is not empty and no wildcard,
a date range and no keywords, a message is accepted by the translated store
criteria and by the Local Filter exactly when its from-address contains the
sender, its date is not before the start of the range, and its date is
strictly before the end of the range. -/
theorem store_and_filter_accept_iff (email : Email) (intent : Intent) (r : DateRange)
    (hs : intent.Sender ≠ []) (ha : intent.AllFromSender = false) (hk : intent.Keywords = [])
    (hr : intent.DateRange = some r) :
    (storeAccepts (buildSearchCriteria intent) email = true ∧
      matchesIntent email intent = true) ↔
    (intent.Sender <:+: email.From ∧ Time.notAfter r.Start email.Date ∧
      Time.strictlyBefore email.Date r.End) := by
  have hb : buildSearchCriteria intent =
      { Header := [("From".toList, [intent.Sender])], Since := r.Start, Before := r.End,
        Text := [] } := by
    simp [buildSearchCriteria, hs, ha, hk, hr, NewSearchCriteria, HeaderSet]
  have hst : storeAccepts (buildSearchCriteria intent) email =
      (Contains email.From intent.Sender && !email.Date.Before r.Start &&
        email.Date.Before r.End) := by
    rw [hb]
    simp [storeAccepts, HeaderGet]
  rw [hst, matchesIntent_sender_range email intent r hs ha hk hr]
  simp only [Bool.and_eq_true, Bool.not_eq_true', contains_iff_infix, time_before_iff,
    time_not_before_iff, time_not_after_iff]
  constructor
  · rintro ⟨⟨⟨h1, h2⟩, h3⟩, _⟩
    exact ⟨h1, h2, h3⟩
  · rintro ⟨h1, h2, h3⟩
    refine ⟨⟨⟨h1, h2⟩, h3⟩, ⟨List.IsInfix.map _ h1, h2⟩, ?_⟩
    unfold Time.strictlyBefore at h3
    unfold Time.notAfter
    omega

/-- C11, amended, at a message from `bob@example.org` dated one second before
the end of the range. -/
theorem store_and_filter_accept_iff_witness :
    storeAccepts (buildSearchCriteria searchBobNewYear)
        (emailFromBob { unix := 1704153598, nsec := 0, offset := 0 }) = true ∧
      matchesIntent (emailFromBob { unix := 1704153598, nsec := 0, offset := 0 })
        searchBobNewYear = true :=
  (store_and_filter_accept_iff (emailFromBob { unix := 1704153598, nsec := 0, offset := 0 })
    searchBobNewYear _ (by decide) rfl rfl rfl).mpr
    ⟨by decide, Or.inl (by decide), Or.inl (by decide)⟩

/-- C12. `Parse` returns an error, and so no intent, for an input that is empty
or holds white space only, for an input that neither the primary nor the
fallback pattern matches, and for an input that the primary pattern matches
with a date bracket that `parseDateRange` does not resolve. -/
theorem parse_errors :
    (∀ (now : Time) (input : Str), input.all isSpace = true →
      Parse now input = .error .emptyCommand) ∧
    (∀ (now : Time) (input : Str),
      Regex.FindStringSubmatch commandPattern (TrimSpace input) = none →
      Regex.FindStringSubmatch listenPattern (TrimSpace input) = none →
      Parse now input =
        .error (if TrimSpace input = [] then .emptyCommand else .unableToParse)) ∧
    (∀ (now : Time) (input : Str) (groups : List Str) (err : DateError),
      Regex.FindStringSubmatch commandPattern (TrimSpace input) = some groups →
      groups.getD 4 [] ≠ [] →
      parseDateRange now (NewIntent CommandSearch) (TrimSpace (groups.getD 4 [])) = .error err →
      Parse now input = .error (.invalidDateRange err) ∨
      Parse now input = .error (.unknownCommand (ToLower (groups.getD 1 [])))) := by
  refine ⟨?_, parse_of_neither, ?_⟩
  · intro now input h
    unfold Parse
    simp only [trimSpace_of_all_space input h, if_true]
  · intro now input groups err hm h4 hd
    obtain ⟨hp, hlen⟩ := parse_of_primary now input groups hm
    rw [hp, parseFullCommand_eq now groups hlen, hd]
    simp only [if_pos h4]
    split_ifs
    · exact Or.inl rfl
    · exact Or.inl rfl
    · exact Or.inr rfl

/-- C12 at a command whose date bracket holds `someday`. -/
theorem parse_errors_witness :
    Parse { unix := 1700000000, nsec := 0, offset := 3600 }
        "search for \"a\" from \"x\" [someday]".toList =
        .error (.invalidDateRange (.unrecognized "someday".toList)) ∨
      Parse { unix := 1700000000, nsec := 0, offset := 3600 }
        "search for \"a\" from \"x\" [someday]".toList =
        .error (.unknownCommand (ToLower "search".toList)) :=
  parse_errors.2.2 { unix := 1700000000, nsec := 0, offset := 3600 }
    "search for \"a\" from \"x\" [someday]".toList
    ["search for \"a\" from \"x\" [someday]".toList, "search".toList, "a".toList,
      "x".toList, "someday".toList]
    (.unrecognized "someday".toList) (by decide) (by decide) (by decide)

/-- C13 as stated fails. The primary pattern matches `listen " " from "x"` with
the command word `listen` and the keyword field of one blank, and `Parse`
returns a listen intent. -/
theorem listen_through_primary :
    (∀ now : Time, Parse now "listen \" \" from \"x\"".toList =
      .ok { Command := CommandListen, Keywords := [], Sender := "x".toList,
            DateRange := none, AllFromSender := false }) ∧
    Regex.FindStringSubmatch commandPattern "listen \" \" from \"x\"".toList =
      some ["listen \" \" from \"x\"".toList, "listen".toList, " ".toList, "x".toList, []] :=
  ⟨fun _ => rfl, by decide⟩

/-- C13, amended. When the primary pattern matches the trimmed input and the
command word is `listen` in lower case: if the quoted keyword field yields a
keyword, `Parse` returns an error; if it yields none (it holds blanks and
delimiters only) and the date bracket is absent or resolves, `Parse` returns a
listen intent without keywords. -/
theorem parse_listen_primary (now : Time) (input : Str) (groups : List Str)
    (hm : Regex.FindStringSubmatch commandPattern (TrimSpace input) = some groups)
    (hcmd : ToLower (groups.getD 1 []) = "listen".toList) :
    (specKeywords (groups.getD 2 []) ≠ [] → ∃ err, Parse now input = .error err) ∧
    (specKeywords (groups.getD 2 []) = [] →
      (groups.getD 4 [] = [] ∨
        ∃ j, parseDateRange now (NewIntent CommandSearch) (TrimSpace (groups.getD 4 [])) = .ok j) →
      ∃ intent, Parse now input = .ok intent ∧ intent.Command = CommandListen ∧
        intent.Keywords = []) := by
  obtain ⟨hp, hlen⟩ := parse_of_primary now input groups hm
  have hns : ToLower (groups.getD 1 []) ≠ "search".toList := by
    rw [hcmd]; decide
  rw [hp, parseFullCommand_eq now groups hlen, if_neg hns, if_pos hcmd]
  refine ⟨fun hk => ?_, fun hk hd => ?_⟩
  · by_cases h4 : groups.getD 4 [] = []
    · rw [if_neg (not_not_intro h4), if_pos hk]
      exact ⟨_, rfl⟩
    · rw [if_pos h4]
      cases parseDateRange now (NewIntent CommandSearch) (TrimSpace (groups.getD 4 [])) with
      | error e => exact ⟨_, rfl⟩
      | ok j =>
        simp only [if_pos hk]
        exact ⟨_, rfl⟩
  · by_cases h4 : groups.getD 4 [] = []
    · rw [if_neg (not_not_intro h4), if_neg (not_not_intro hk)]
      exact ⟨_, rfl, rfl, rfl⟩
    · rw [if_pos h4]
      rcases hd with h | ⟨j, hj⟩
      · exact absurd h h4
      · rw [hj]
        simp only [if_neg (not_not_intro hk)]
        exact ⟨_, rfl, rfl, rfl⟩

/-- C13, amended, at `LISTEN for "offers" from "hr"`. -/
theorem parse_listen_primary_witness :
    ∃ err, Parse { unix := 1700000000, nsec := 0, offset := 3600 }
      "LISTEN for \"offers\" from \"hr\"".toList = .error err :=
  (parse_listen_primary { unix := 1700000000, nsec := 0, offset := 3600 }
    "LISTEN for \"offers\" from \"hr\"".toList
    ["LISTEN for \"offers\" from \"hr\"".toList, "LISTEN".toList, "offers".toList,
      "hr".toList, []]
    (by decide) (by decide)).1 (by decide)

/-- C14. An intent `Parse` returns with the command `listen` has no keywords. An
intent `Parse` returns and `Validate` accepts has, when its command is
`listen`, no keywords and a sender that is not empty, and, when its command is
`search`, a keyword or a sender that is not empty. -/
theorem parsed_intent_invariants (now : Time) (input : Str) (intent : Intent)
    (hp : Parse now input = .ok intent) :
    (intent.Command = CommandListen → intent.Keywords = []) ∧
    (Validate (some intent) = .ok () →
      (intent.Command = CommandListen → intent.Keywords = [] ∧ intent.Sender ≠ []) ∧
      (intent.Command = CommandSearch → intent.Keywords ≠ [] ∨ intent.Sender ≠ [])) := by
  have hcl : CommandSearch ≠ CommandListen := by decide
  refine ⟨fun hl => ?_, fun hv => ⟨fun hl => ?_, fun hs => ?_⟩⟩
  · rcases parse_ok_cases now input intent hp with ⟨hs, _⟩ | ⟨_, hk⟩
    · exact absurd (hs.symm.trans hl) hcl
    · exact hk
  · rcases validate_ok_cases intent hv with ⟨hs, _⟩ | ⟨_, hsd, hk⟩
    · exact absurd (hs.symm.trans hl) hcl
    · exact ⟨hk, hsd⟩
  · rcases validate_ok_cases intent hv with ⟨_, h⟩ | ⟨hl, _, _⟩
    · exact h
    · exact absurd (hs.symm.trans hl) hcl

/-- C14 at `listen from "*@example.com"`. -/
theorem parsed_intent_invariants_witness :
    ({ Command := CommandListen, Keywords := [], Sender := "example.com".toList,
       DateRange := none, AllFromSender := true } : Intent).Keywords = [] :=
  (parsed_intent_invariants { unix := 1700000000, nsec := 0, offset := 3600 }
    "listen from \"*@example.com\"".toList _ rfl).1 rfl

/-- C15 as stated fails. The command `search for "a" from "x" [today]`, read at
2023-11-14T23:13:20+01:00 and one day later, parses to two different intents. -/
theorem parse_reads_clock :
    Parse { unix := 1700000000, nsec := 0, offset := 3600 }
        "search for \"a\" from \"x\" [today]".toList ≠
      Parse { unix := 1700086400, nsec := 0, offset := 3600 }
        "search for \"a\" from \"x\" [today]".toList := by
  decide

/-- C15, amended. `Parse` depends on the clock through the date bracket only.
Two readings whatsoever give the same result when the primary pattern does not
match, when it matches without date bracket, and when the lower-cased, trimmed
expression of the bracket is none of `recent`, `today` and `yesterday` and
holds no match of `last\s+(\d+)\s+days?`. Two readings in the same location on
the same local day give the same result for every input for which each call of
`AddDate` that the resolution makes, by one day back for `recent` and
`yesterday` and by `N` days back for `last N days`, lands on its day of the
calendar; for the expression `today` there is no such call. `AddDate` lands on
its day when the time of day of the reading is settled on that day. -/
theorem parse_clock_dependence (now1 now2 : Time) (input : Str) :
    (Regex.FindStringSubmatch commandPattern (TrimSpace input) = none →
      Parse now1 input = Parse now2 input) ∧
    (∀ groups, Regex.FindStringSubmatch commandPattern (TrimSpace input) = some groups →
      (groups.getD 4 [] = [] ∨
        (ToLower (TrimSpace (groups.getD 4 [])) ≠ "recent".toList ∧
          ToLower (TrimSpace (groups.getD 4 [])) ≠ "today".toList ∧
          ToLower (TrimSpace (groups.getD 4 [])) ≠ "yesterday".toList ∧
          Regex.FindStringSubmatch lastDaysPattern
            (ToLower (TrimSpace (groups.getD 4 []))) = none)) →
      Parse now1 input = Parse now2 input) ∧
    (∀ groups, Regex.FindStringSubmatch commandPattern (TrimSpace input) = some groups →
      now1.Location = now2.Location → now1.wall / 86400 = now2.wall / 86400 →
      (∀ k : Int,
        (k = -1 ∧ (ToLower (TrimSpace (groups.getD 4 [])) = "recent".toList ∨
            ToLower (TrimSpace (groups.getD 4 [])) = "yesterday".toList)) ∨
          (∃ g, Regex.FindStringSubmatch lastDaysPattern
              (ToLower (TrimSpace (groups.getD 4 []))) = some g ∧
            k = -scanDays (g.getD 1 [])) →
        now1.lands k ∧ now2.lands k) →
      Parse now1 input = Parse now2 input) ∧
    (∀ k : Int, now1.settledAt k (now1.wall % 86400) → now1.lands k) := by
  refine ⟨fun hm => ?_, fun groups hm hc => ?_, fun groups hm hloc hday hk => ?_,
    fun k hpl => ?_⟩
  · apply parse_congr_clock
    intro groups hg
    rw [hm] at hg
    cases hg
  · apply parse_congr_clock
    intro groups' hg h4
    rw [hm] at hg
    cases hg
    rcases hc with h | ⟨h1, h2, h3, h5⟩
    · exact absurd h h4
    · rw [parseDateRange_days now1, parseDateRange_days now2, trimSpace_idem,
        if_neg h1, if_neg h2, if_neg h3, if_neg h1, if_neg h2, if_neg h3, h5]
  · apply parse_congr_clock
    intro groups' hg h4
    rw [hm] at hg
    cases hg
    have h0 := day_bounds_congr now1 now2 hloc hday
    have hs : ∀ k : Int, now1.lands k ∧ now2.lands k →
        dayStart (now1.AddDate 0 0 k) = dayStart (now2.AddDate 0 0 k) ∧
        dayEnd (now1.AddDate 0 0 k) = dayEnd (now2.AddDate 0 0 k) := by
      intro k ⟨l1, l2⟩
      apply day_bounds_congr
      · exact hloc
      · unfold Time.lands at l1 l2
        rw [l1, l2, hday]
    rw [parseDateRange_days now1, parseDateRange_days now2, trimSpace_idem]
    generalize ToLower (TrimSpace (groups.getD 4 [])) = e at hk ⊢
    by_cases h1 : e = "recent".toList
    · rw [if_pos h1, if_pos h1, (hs (-1) (hk (-1) (Or.inl ⟨rfl, Or.inl h1⟩))).1, h0.2]
    rw [if_neg h1, if_neg h1]
    by_cases h2 : e = "today".toList
    · rw [if_pos h2, if_pos h2, h0.1, h0.2]
    rw [if_neg h2, if_neg h2]
    by_cases h3 : e = "yesterday".toList
    · rw [if_pos h3, if_pos h3, (hs (-1) (hk (-1) (Or.inl ⟨rfl, Or.inr h3⟩))).1,
        (hs (-1) (hk (-1) (Or.inl ⟨rfl, Or.inr h3⟩))).2]
    rw [if_neg h3, if_neg h3]
    cases hl : Regex.FindStringSubmatch lastDaysPattern e with
    | some g =>
      simp only []
      rw [(hs _ (hk _ (Or.inr ⟨g, hl, rfl⟩))).1, h0.2]
    | none => rfl
  · exact lands_of_settled now1 k hpl

/-- C15, amended, at `search for "a" from "x" [today]` read at
2023-11-14T23:13:20+01:00 and one hour earlier. -/
theorem parse_clock_dependence_witness :
    Parse { unix := 1700000000, nsec := 0, offset := 3600 }
        "search for \"a\" from \"x\" [today]".toList =
      Parse { unix := 1699996400, nsec := 0, offset := 3600 }
        "search for \"a\" from \"x\" [today]".toList :=
  (parse_clock_dependence { unix := 1700000000, nsec := 0, offset := 3600 }
    { unix := 1699996400, nsec := 0, offset := 3600 }
    "search for \"a\" from \"x\" [today]".toList).2.2.1
    ["search for \"a\" from \"x\" [today]".toList, "search".toList, "a".toList, "x".toList,
      "today".toList]
    (by decide) rfl (by decide)
    (fun k hk => absurd hk (by
      have hl : Regex.FindStringSubmatch lastDaysPattern
          (ToLower (TrimSpace (["search for \"a\" from \"x\" [today]".toList, "search".toList,
            "a".toList, "x".toList, "today".toList].getD 4 []))) = none := by decide
      rintro (⟨_, h | h⟩ | ⟨g, hg, _⟩)
      · exact absurd h (by decide)
      · exact absurd h (by decide)
      · rw [hl] at hg
        cases hg))

/-- C16. The command word is read without regard to letter case: two inputs
that begin, after white space, with two letter-case variants of `search`, or of
`listen`, and go on with the same text give the same result of `Parse`, and an
intent that is returned has that word, in lower case, as its command. -/
theorem parse_command_case (now : Time) (word pre w1 w2 rest : Str)
    (hword : word = "search".toList ∨ word = "listen".toList)
    (hpre : pre.all isSpace = true)
    (h1 : caseVariant word w1 = true) (h2 : caseVariant word w2 = true) :
    Parse now (pre ++ w1 ++ rest) = Parse now (pre ++ w2 ++ rest) ∧
    ∀ intent, Parse now (pre ++ w1 ++ rest) = .ok intent → intent.Command = word := by
  refine ⟨?_, fun intent h => ?_⟩
  · rw [parse_word now word pre w1 rest hword hpre h1,
      parse_word now word pre w2 rest hword hpre h2]
  · rw [parse_word now word pre w1 rest hword hpre h1] at h
    split at h
    · exact parseFullCommand_command now word _ _ _ intent hword h
    · split at h
      · rename_i p hp
        cases h
        split_ifs at hp with hw
        exact hw.symm
      · cases h

/-- C16 at `  SeArCh for "a, b" from "*@corp.com" [2024-01-01]` and the same
command written with `search`. -/
theorem parse_command_case_witness :
    Parse { unix := 1700000000, nsec := 0, offset := 3600 }
        "  SeArCh for \"a, b\" from \"*@corp.com\" [2024-01-01]".toList =
      Parse { unix := 1700000000, nsec := 0, offset := 3600 }
        "  search for \"a, b\" from \"*@corp.com\" [2024-01-01]".toList :=
  (parse_command_case { unix := 1700000000, nsec := 0, offset := 3600 } "search".toList
    "  ".toList "SeArCh".toList "search".toList
    " for \"a, b\" from \"*@corp.com\" [2024-01-01]".toList
    (Or.inl rfl) (by decide) (by decide) (by decide)).1

/-- C17 as stated fails. In a location where the clocks go forward at midnight
(offset -05:00, and -04:00 from 2023-03-12T05:00:00Z on, as in Havana) the
expression `today`, read at 2023-03-12T12:00:00-04:00, resolves to a range that
starts at 2023-03-12T04:00:00Z: the wall clock of the location reads 23:00:00
of 2023-03-11 then, not 00:00:00 of the day of the reading. -/
theorem today_starts_the_day_before :
    parseDateRange
        { unix := 1678636800, nsec := 0, offset := -18000, zone := [(1678597200, -14400)] }
        listenBob "today".toList =
      .ok (listenBob.SetDateRange
        { unix := 1678593600, nsec := 0, offset := -18000, zone := [(1678597200, -14400)] }
        { unix := 1678679999, nsec := 0, offset := -18000, zone := [(1678597200, -14400)] }) ∧
    Time.Day { unix := 1678636800, nsec := 0, offset := -18000,
               zone := [(1678597200, -14400)] } = 12 ∧
    Time.Day { unix := 1678593600, nsec := 0, offset := -18000,
               zone := [(1678597200, -14400)] } = 11 ∧
    Time.Hour { unix := 1678593600, nsec := 0, offset := -18000,
                zone := [(1678597200, -14400)] } = 23 := by
  decide

/-- C17, amended. When the lower-cased, trimmed expression is `recent`, `today`
or `yesterday`, `parseDateRange` sets the range from the start of the day
before the day of `now` to the end of the day of `now`, from the start to the
end of the day of `now`, and from the start to the end of the day before;
for `recent` and `yesterday` provided `AddDate` by one day back lands on the
day before, as it does when the time of day of `now` is settled on that day.
The start and the end of a day are the instants `time.Date` returns for
00:00:00 and 23:59:59 of that day in the location of `now`; they are instants
of that day at which the wall clock of the location reads 00:00:00 and
23:59:59 whenever these times of day are settled on that day. A time of day is
settled, and the instant is the time less the offset of the zone table, for a
reading between the years 1 and 9999 in a location with offsets within a day of
UTC, at most `10^14` days away, where the zone table is stable; it is stable
everywhere in a location of fixed offset. -/
theorem resolve_named_days (now : Time) (intent : Intent) (expr : Str) :
    (ToLower (TrimSpace expr) = "recent".toList → now.lands (-1) →
      parseDateRange now intent expr =
        .ok (intent.SetDateRange (startOfDay now (-1)) (endOfDay now 0))) ∧
    (ToLower (TrimSpace expr) = "today".toList →
      parseDateRange now intent expr =
        .ok (intent.SetDateRange (startOfDay now 0) (endOfDay now 0))) ∧
    (ToLower (TrimSpace expr) = "yesterday".toList → now.lands (-1) →
      parseDateRange now intent expr =
        .ok (intent.SetDateRange (startOfDay now (-1)) (endOfDay now (-1)))) ∧
    (now.settledAt (-1) (now.wall % 86400) → now.lands (-1)) ∧
    (∀ k : Int, now.settledAt k 0 →
      (startOfDay now k).wall / 86400 = now.wall / 86400 + k ∧
      (startOfDay now k).Hour = 0 ∧ (startOfDay now k).Minute = 0 ∧
      (startOfDay now k).Second = 0) ∧
    (∀ k : Int, now.settledAt k 86399 →
      (endOfDay now k).wall / 86400 = now.wall / 86400 + k ∧
      (endOfDay now k).Hour = 23 ∧ (endOfDay now k).Minute = 59 ∧
      (endOfDay now k).Second = 59) ∧
    (∀ k c : Int, now.inRange → now.Location.bounded →
      -100000000000000 ≤ k → k ≤ 100000000000000 → 0 ≤ c → c ≤ 86399 →
      now.Location.stable ((now.wall / 86400 + k) * 86400 + c) →
      now.settledAt k c ∧
      Time.ofWall ((now.wall / 86400 + k) * 86400 + c) 0 now.Location =
        { unix := (now.wall / 86400 + k) * 86400 + c -
            (now.Location.lookup ((now.wall / 86400 + k) * 86400 + c)).1
          nsec := 0
          offset := now.offset
          zone := now.zone }) ∧
    (now.zone = [] → ∀ L : Int, now.Location.stable L) := by
  refine ⟨fun h hl => ?_, fun h => ?_, fun h hl => ?_, lands_of_settled now (-1),
    fun k hs => ?_, fun k hs => ?_, fun k c hin hb hk1 hk2 hc0 hc1 hs => ?_,
    fun hz L => stable_of_fixed now.Location hz L⟩
  · rw [parseDateRange_days, if_pos h, dayStart_addDate now (-1) hl, dayEnd_now]
  · have h1 : ToLower (TrimSpace expr) ≠ "recent".toList := by rw [h]; decide
    rw [parseDateRange_days, if_neg h1, if_pos h, dayStart_now, dayEnd_now]
  · have h1 : ToLower (TrimSpace expr) ≠ "recent".toList := by rw [h]; decide
    have h2 : ToLower (TrimSpace expr) ≠ "today".toList := by rw [h]; decide
    rw [parseDateRange_days, if_neg h1, if_neg h2, if_pos h, dayStart_addDate now (-1) hl,
      dayEnd_addDate now (-1) hl]
  · have hw := startOfDay_wall now k hs
    unfold Time.Hour Time.Minute Time.Second
    rw [hw]
    omega
  · have hw := endOfDay_wall now k hs
    unfold Time.Hour Time.Minute Time.Second
    rw [hw]
    omega
  · exact ⟨settledAt_of_stable now k c hin hb hk1 hk2 hc0 hc1 hs,
      day_bounds_stable now k c hin hb hk1 hk2 hc0 hc1 hs⟩

/-- C17, amended, at the expression ` YesterDay`, followed by a tab, read at
2023-11-05T12:00:00-05:00 in a location where the clocks went back that day
(offset -04:00, and -05:00 from 2023-11-05T06:00:00Z on, as in New York): the
range is from 2023-11-04T00:00:00-04:00 to 2023-11-04T23:59:59-04:00. -/
theorem resolve_named_days_witness :
    parseDateRange
        { unix := 1699203600, nsec := 0, offset := -14400, zone := [(1699164000, -18000)] }
        listenBob " YesterDay\t".toList =
      .ok (listenBob.SetDateRange
        { unix := 1699070400, nsec := 0, offset := -14400, zone := [(1699164000, -18000)] }
        { unix := 1699156799, nsec := 0, offset := -14400, zone := [(1699164000, -18000)] }) :=
  (resolve_named_days
    { unix := 1699203600, nsec := 0, offset := -14400, zone := [(1699164000, -18000)] }
    listenBob " YesterDay\t".toList).2.2.1 (by decide) (by decide)

set_option maxRecDepth 10000 in
/-- C18 as stated fails. The seconds of an instant are kept in 64 bits: at
`N = 10^15` the day `N` days back is out of their range, and
`last 1000000000000000 days`, read at 2023-11-14T23:13:20+01:00, resolves to a
range whose start, 5833720370247721200 seconds after 1970, is after its end,
not `N` days before it. And where the clocks go forward at midnight (offset
-05:00, and -04:00 from 2023-03-12T05:00:00Z on, as in Havana), `last 1 days`,
read at 2023-03-13T12:00:00-04:00, resolves to a range that starts at
2023-03-12T04:00:00Z, when the wall clock of the location reads 23:00:00 of
2023-03-11. -/
theorem last_days_overflow :
    parseDateRange { unix := 1700000000, nsec := 0, offset := 3600 } listenBob
        "last 1000000000000000 days".toList =
      .ok (listenBob.SetDateRange { unix := 5833720370247721200, nsec := 0, offset := 3600 }
        { unix := 1700002799, nsec := 0, offset := 3600 }) ∧
    Time.After { unix := 5833720370247721200, nsec := 0, offset := 3600 }
      { unix := 1700002799, nsec := 0, offset := 3600 } = true ∧
    parseDateRange
        { unix := 1678723200, nsec := 0, offset := -18000, zone := [(1678597200, -14400)] }
        listenBob "last 1 days".toList =
      .ok (listenBob.SetDateRange
        { unix := 1678593600, nsec := 0, offset := -18000, zone := [(1678597200, -14400)] }
        { unix := 1678766399, nsec := 0, offset := -18000, zone := [(1678597200, -14400)] }) ∧
    Time.Day { unix := 1678723200, nsec := 0, offset := -18000,
               zone := [(1678597200, -14400)] } = 13 ∧
    Time.Day { unix := 1678593600, nsec := 0, offset := -18000,
               zone := [(1678597200, -14400)] } = 11 ∧
    Time.Hour { unix := 1678593600, nsec := 0, offset := -18000,
                zone := [(1678597200, -14400)] } = 23 := by
  decide

/-- C18, amended. For every natural number `N`, written in decimal, and every
reading `now` of the clock for which `AddDate` by `N` days back lands on the
day `N` days before the day of `now`, as it does when the time of day of `now`
is settled on that day, `parseDateRange` maps `last N days` to the range from
the start of the day `N` days before the day of `now` to the end of the day of
`now`: the instants `time.Date` returns for 00:00:00 and 23:59:59 of those days
in the location of `now`, which are instants of those days at which the wall
clock of the location reads 00:00:00 and 23:59:59 when these times of day are
settled on those days. All of this holds for `N` up to `10^14` and a reading
between the years 1 and 9999 in a location of fixed offset within a day of
UTC. -/
theorem resolve_last_days (now : Time) (intent : Intent) (N : Nat) :
    (now.lands (-(N : Int)) →
      parseDateRange now intent ("last ".toList ++ (Nat.repr N).toList ++ " days".toList) =
        .ok (intent.SetDateRange (startOfDay now (-(N : Int))) (endOfDay now 0))) ∧
    (now.settledAt (-(N : Int)) (now.wall % 86400) → now.lands (-(N : Int))) ∧
    (now.settledAt (-(N : Int)) 0 →
      (startOfDay now (-(N : Int))).wall / 86400 = now.wall / 86400 - N ∧
      (startOfDay now (-(N : Int))).Hour = 0 ∧ (startOfDay now (-(N : Int))).Minute = 0 ∧
      (startOfDay now (-(N : Int))).Second = 0) ∧
    (now.settledAt 0 86399 →
      (endOfDay now 0).wall / 86400 = now.wall / 86400 ∧
      (endOfDay now 0).Hour = 23 ∧ (endOfDay now 0).Minute = 59 ∧
      (endOfDay now 0).Second = 59) ∧
    (now.zone = [] → now.inRange → now.Location.bounded → N ≤ 100000000000000 →
      now.settledAt (-(N : Int)) (now.wall % 86400) ∧ now.settledAt (-(N : Int)) 0 ∧
      now.settledAt 0 86399) := by
  obtain ⟨hne, hd, hv⟩ := repr_decimal N
  refine ⟨fun hl => ?_, lands_of_settled now _, fun hs => ?_, fun hs => ?_,
    fun hz hin hb hN => ?_⟩
  · have h1 : "last ".toList ++ (Nat.repr N).toList ++ " days".toList ≠ "recent".toList := by
      simp
    have h2 : "last ".toList ++ (Nat.repr N).toList ++ " days".toList ≠ "today".toList := by
      simp
    have h3 : "last ".toList ++ (Nat.repr N).toList ++ " days".toList ≠ "yesterday".toList := by
      simp
    have hN : (N : Int) < 2 ^ 63 := by
      have hw1 := wall_bounds (now.AddDate 0 0 (-(N : Int)))
      have hw2 := wall_bounds now
      unfold Time.lands at hl
      omega
    have hsc : scanDays (Nat.repr N).toList = N := by
      unfold scanDays
      rw [hv, if_pos hN]
    rw [parseDateRange_days, lastDays_text _ hd, if_neg h1, if_neg h2, if_neg h3,
      lastDays_find _ hne hd]
    show Except.ok (intent.SetDateRange
      (dayStart (now.AddDate 0 0 (-scanDays (Nat.repr N).toList))) (dayEnd now)) = _
    rw [hsc, dayStart_addDate now _ hl, dayEnd_now]
  · have hw := startOfDay_wall now _ hs
    unfold Time.Hour Time.Minute Time.Second
    rw [hw]
    omega
  · have hw := endOfDay_wall now 0 hs
    unfold Time.Hour Time.Minute Time.Second
    rw [hw]
    omega
  · have hw := wall_range now hin hb
    have hst := stable_of_fixed now.Location hz
    exact ⟨settledAt_of_stable now _ _ hin hb (by omega) (by omega) (by omega) (by omega)
        (hst _),
      settledAt_of_stable now _ 0 hin hb (by omega) (by omega) (by omega) (by omega) (hst _),
      settledAt_of_stable now 0 86399 hin hb (by omega) (by omega) (by omega) (by omega)
        (hst _)⟩

/-- C18, amended, at `last 3 days` read at 2023-11-14T23:13:20+01:00: the range
is from 2023-11-11T00:00:00+01:00 to 2023-11-14T23:59:59+01:00. -/
theorem resolve_last_days_witness :
    parseDateRange { unix := 1700000000, nsec := 0, offset := 3600 } listenBob
        "last 3 days".toList =
      .ok (listenBob.SetDateRange { unix := 1699657200, nsec := 0, offset := 3600 }
        { unix := 1700002799, nsec := 0, offset := 3600 }) :=
  (resolve_last_days { unix := 1700000000, nsec := 0, offset := 3600 } listenBob 3).1
    (by decide)

set_option maxRecDepth 10000 in
/-- C20 as stated fails. The expression `xx last 2 days yy` holds the form
`last 2 days` surrounded by other text; read at 2023-11-14T23:13:20+01:00 it is
resolved to the range from 2023-11-12T00:00:00+01:00 to
2023-11-14T23:59:59+01:00, and a command carrying it in its date bracket is
parsed to an intent with that range. -/
theorem embedded_form_resolved :
    parseDateRange { unix := 1700000000, nsec := 0, offset := 3600 } listenBob
        "xx last 2 days yy".toList =
      .ok (listenBob.SetDateRange { unix := 1699743600, nsec := 0, offset := 3600 }
        { unix := 1700002799, nsec := 0, offset := 3600 }) ∧
    Parse { unix := 1700000000, nsec := 0, offset := 3600 }
        "search for \"a\" from \"x\" [xx last 2 days yy]".toList =
      .ok { Command := CommandSearch, Keywords := ["a".toList], Sender := "x".toList,
            DateRange := some { Start := { unix := 1699743600, nsec := 0, offset := 3600 },
                                End := { unix := 1700002799, nsec := 0, offset := 3600 } },
            AllFromSender := false } := by
  decide

/-- C20, amended. `parseDateRange` fails with the error of an unrecognized date
format exactly when the lower-cased, trimmed expression is none of `recent`,
`today` and `yesterday`, holds no match of `last\s+(\d+)\s+days?` and none of
`\d{4}-\d{2}-\d{2}\s+to\s+\d{4}-\d{2}-\d{2}`, and is no day of the calendar
written as `YYYY-MM-DD`; every expression without a decimal digit other than
the three words is of this kind. No range is set then, and `Parse` of a command
whose date bracket carries the expression returns an error. An expression that
holds `last N days` within other text is resolved, and one that holds `A to B`
within other text does not fail with this error. -/
theorem unrecognized_dates (now : Time) (intent : Intent) (expr : Str) :
    (parseDateRange now intent expr = .error (.unrecognized (ToLower (TrimSpace expr))) ↔
      (ToLower (TrimSpace expr) ≠ "recent".toList ∧
        ToLower (TrimSpace expr) ≠ "today".toList ∧
        ToLower (TrimSpace expr) ≠ "yesterday".toList ∧
        Regex.FindStringSubmatch lastDaysPattern (ToLower (TrimSpace expr)) = none ∧
        Regex.FindStringSubmatch rangePattern (ToLower (TrimSpace expr)) = none ∧
        Time.Parse (ToLower (TrimSpace expr)) = none)) ∧
    ((∀ c ∈ ToLower (TrimSpace expr), Regex.digit c = false) →
      ToLower (TrimSpace expr) ≠ "recent".toList →
      ToLower (TrimSpace expr) ≠ "today".toList →
      ToLower (TrimSpace expr) ≠ "yesterday".toList →
      parseDateRange now intent expr = .error (.unrecognized (ToLower (TrimSpace expr)))) ∧
    (∀ (input : Str) (groups : List Str),
      Regex.FindStringSubmatch commandPattern (TrimSpace input) = some groups →
      groups.getD 4 [] = expr → expr ≠ [] →
      parseDateRange now intent expr = .error (.unrecognized (ToLower (TrimSpace expr))) →
      Parse now input =
          .error (.invalidDateRange (.unrecognized (ToLower (TrimSpace expr)))) ∨
        Parse now input = .error (.unknownCommand (ToLower (groups.getD 1 [])))) ∧
    (∀ (pre post ds : Str), ds ≠ [] → (∀ c ∈ ds, Regex.digit c = true) →
      ToLower (TrimSpace expr) = pre ++ "last ".toList ++ ds ++ " days".toList ++ post →
      ∃ j, parseDateRange now intent expr = .ok j) ∧
    (∀ (pre post : Str) (y1 m1 d1 y2 m2 d2 : Nat),
      ToLower (TrimSpace expr) =
        pre ++ isoDate y1 m1 d1 ++ " to ".toList ++ isoDate y2 m2 d2 ++ post →
      parseDateRange now intent expr ≠
        .error (.unrecognized (ToLower (TrimSpace expr)))) := by
  refine ⟨parseDateRange_unrecognized_iff now intent expr, fun hd h1 h2 h3 => ?_,
    fun input groups hm hg hne he => ?_, fun pre post ds hne hd he => ?_,
    fun pre post y1 m1 d1 y2 m2 d2 he hu => ?_⟩
  · exact (parseDateRange_unrecognized_iff now intent expr).2
      ⟨h1, h2, h3, lastDays_none_of_no_digit _ hd, range_none_of_no_digit _ hd,
        timeParse_none_of_no_digit _ hd⟩
  · have hc := (parseDateRange_unrecognized_iff now intent expr).1 he
    have hd : parseDateRange now (NewIntent CommandSearch) (TrimSpace expr) =
        .error (.unrecognized (ToLower (TrimSpace expr))) := by
      have h := parseDateRange_unrecognized_iff now (NewIntent CommandSearch) (TrimSpace expr)
      rw [trimSpace_idem] at h
      exact h.2 hc
    subst hg
    exact parse_of_bad_bracket now input groups _ hm hne hd
  · have hs : pre ++ "last ".toList ++ ds ++ " days".toList ++ post =
        pre ++ ("last".toList ++
          (' ' :: (ds ++ (' ' :: ("day".toList ++ ("s".toList ++ post)))))) := by
      simp
    obtain ⟨r, hr⟩ := lastDays_match_within (ToLower (TrimSpace expr)).length ds post
      (fun _ => []) hne hd
    obtain ⟨groups, hf⟩ := Regex.findFrom_some lastDaysPattern (ToLower (TrimSpace expr)).length
      (ToLower (TrimSpace expr)) _ r (by rw [he, hs]; exact List.suffix_append _ _) hr
    have hf' : Regex.FindStringSubmatch lastDaysPattern (ToLower (TrimSpace expr)) =
        some groups := hf
    rw [parseDateRange_days, hf']
    split_ifs
    · exact ⟨_, rfl⟩
    · exact ⟨_, rfl⟩
    · exact ⟨_, rfl⟩
    · exact ⟨_, rfl⟩
  · have hs : pre ++ isoDate y1 m1 d1 ++ " to ".toList ++ isoDate y2 m2 d2 ++ post =
        pre ++ (isoDate y1 m1 d1 ++
          (' ' :: ("to".toList ++ (' ' :: (isoDate y2 m2 d2 ++ post))))) := by
      simp
    obtain ⟨r, hr⟩ := range_match_within (ToLower (TrimSpace expr)).length y1 m1 d1 y2 m2 d2
      post (fun _ => [])
    obtain ⟨groups, hf⟩ := Regex.findFrom_some rangePattern (ToLower (TrimSpace expr)).length
      (ToLower (TrimSpace expr)) _ r (by rw [he, hs]; exact List.suffix_append _ _) hr
    have hf' : Regex.FindStringSubmatch rangePattern (ToLower (TrimSpace expr)) =
        some groups := hf
    have hc := ((parseDateRange_unrecognized_iff now intent expr).1 hu).2.2.2.2.1
    rw [hf'] at hc
    cases hc

/-- C20, amended, at the expression `Next Week`. -/
theorem unrecognized_dates_witness :
    parseDateRange { unix := 1700000000, nsec := 0, offset := 3600 } listenBob
        " Next Week".toList = .error (.unrecognized "next week".toList) :=
  (unrecognized_dates { unix := 1700000000, nsec := 0, offset := 3600 } listenBob
    " Next Week".toList).2.1 (by decide) (by decide) (by decide) (by decide)

/-- C22. A turn of the watch at which the store reports a next identifier above
the watermark plus one and streams the messages with the identifiers from the
watermark plus one to the next identifier minus one, in ascending order: the
fetch asks for that range, and after the turn the watermark is the next
identifier minus one, for every intent and whatever the envelopes of the
messages are. -/
theorem poll_complete (intent : Intent) (w : Nat) (mbox : MailboxStatus)
    (stream : List Message) (hn : mbox.UidNext < 2 ^ 32) (hnew : w + 1 < mbox.UidNext)
    (hs : stream.map (·.Uid) = List.range' (w + 1) (mbox.UidNext - 1 - w)) :
    (pollOnce intent w (.selected mbox stream)).lastUID = mbox.UidNext - 1 ∧
    (pollOnce intent w (.selected mbox stream)).fetched = some (w + 1, mbox.UidNext - 1) ∧
    stream.length = mbox.UidNext - 1 - w ∧
    (∀ other : Intent,
      (pollOnce other w (.selected mbox stream)).lastUID = mbox.UidNext - 1) := by
  have h1 : (w + 1) % 2 ^ 32 = w + 1 := Nat.mod_eq_of_lt (by omega)
  have h2 : (mbox.UidNext + 2 ^ 32 - 1) % 2 ^ 32 = mbox.UidNext - 1 := by omega
  have hg : ¬ mbox.UidNext ≤ (w + 1) % 2 ^ 32 := by rw [h1]; omega
  have hl : ((stream.map (·.Uid)).getLast?).getD w = mbox.UidNext - 1 := by
    rw [hs, List.getLast?_range', if_neg (by omega)]
    show w + 1 + (mbox.UidNext - 1 - w) - 1 = mbox.UidNext - 1
    omega
  have hlen : stream.length = mbox.UidNext - 1 - w := by
    have := congrArg List.length hs
    rw [List.length_map, List.length_range'] at this
    exact this
  refine ⟨?_, ?_, hlen, fun other => ?_⟩
  · rw [pollOnce_fetching intent w mbox stream hg]
    exact hl
  · rw [pollOnce_fetching intent w mbox stream hg, h1, h2]
  · rw [pollOnce_fetching other w mbox stream hg]
    exact hl

/-- C22 at the watermark 2 and the next identifier 6: the messages 3, 4 and 5
are streamed, of which one is from `bob`, one is not and one has no envelope,
and the watermark is 5 after the turn. -/
theorem poll_complete_witness :
    (pollOnce listenBob 2 (.selected (sampleStatus 6)
      [sampleMessage 3 "bob", sampleMessage 4 "alice", bareMessage 5])).lastUID = 5 :=
  (poll_complete listenBob 2 (sampleStatus 6)
    [sampleMessage 3 "bob", sampleMessage 4 "alice", bareMessage 5]
    (by decide) (by decide) (by decide)).1

/-- C23, the code at a failing input, and the watermarks at which the claim
holds. The watch starts at the next identifier 0, so the watermark is
4294967295, the largest `uint32`, and the turn reports the next identifier 10,
which is below the watermark plus one: the guard adds one to the watermark in
`uint32` arithmetic and gets 0, the fetch is issued with the bounds 0 and 9,
the message streamed is notified, and the watermark falls to 4. A turn whose
selection fails changes nothing at any watermark; so does a turn that reports a
next identifier of at most the watermark plus one at every watermark below
4294967295. -/
theorem poll_without_fetch :
    executeListen listenBob (.ok (sampleStatus 0))
        [.selected (sampleStatus 10) [sampleMessage 4 "bob"]] =
      .ok (4294967295,
        [{ start := 4294967295, lastUID := 4, fetched := some (0, 9),
           notified := [sampleMessage 4 "bob"] }]) ∧
    (∀ (intent : Intent) (w : Nat) (err : Str),
      pollOnce intent w (.selectError err) =
        { start := w, lastUID := w, fetched := none, notified := [] }) ∧
    (∀ (intent : Intent) (w : Nat) (mbox : MailboxStatus) (stream : List Message),
      w + 1 < 2 ^ 32 → mbox.UidNext ≤ w + 1 →
      pollOnce intent w (.selected mbox stream) =
        { start := w, lastUID := w, fetched := none, notified := [] }) := by
  refine ⟨by decide, fun _ _ _ => rfl, fun intent w mbox stream hw hle => ?_⟩
  apply pollOnce_idle
  rw [Nat.mod_eq_of_lt hw]
  exact hle

/-- C24. In a turn of the watch that fetches, the messages notified are the
streamed messages that have an envelope with a from-address and whose first
from-address, written `mailbox@host` in lower case, holds the sender of the
intent in lower case, in the order of the stream; a turn that does not fetch
notifies nothing. Two intents with the same sender notify the same messages,
whatever their keywords, date range and flag. The case of the letters does not
count: the sender `BOB@Example` is found in the address `bOb@example.org`, the
sender `ÉCOLE` in `école@example.org`, and the sender `bab` is not found in
`bob@example.org`. -/
theorem notifications_spec (intent : Intent) (w : Nat) (p : Poll) :
    (pollOnce intent w p).notified =
      (if (pollOnce intent w p).fetched.isSome then
        p.stream.filter (specNotifies intent.Sender) else []) ∧
    (∀ msg, specNotifies intent.Sender msg = true ↔
      ∃ env addr rest, msg.Envelope = some env ∧ env.From = addr :: rest ∧
        ToLower intent.Sender <:+:
          ToLower (addr.MailboxName ++ "@".toList ++ addr.HostName)) ∧
    (∀ other : Intent, other.Sender = intent.Sender →
      (pollOnce other w p).notified = (pollOnce intent w p).notified) ∧
    (pollOnce { intent with Sender := "BOB@Example".toList } 2 (.selected (sampleStatus 4)
      [sampleMessage 3 "bOb"])).notified = [sampleMessage 3 "bOb"] ∧
    (pollOnce { intent with Sender := "ÉCOLE".toList } 2 (.selected (sampleStatus 4)
      [sampleMessage 3 "école"])).notified = [sampleMessage 3 "école"] ∧
    (pollOnce { intent with Sender := "bab".toList } 2 (.selected (sampleStatus 4)
      [sampleMessage 3 "bob"])).notified = [] := by
  have hn : ∀ i : Intent, notifies i = specNotifies i.Sender :=
    fun i => funext (specNotifies_eq i)
  have hp : ∀ i : Intent, (pollOnce i w p).notified =
      (if (pollOnce i w p).fetched.isSome then
        p.stream.filter (specNotifies i.Sender) else []) := by
    intro i
    cases p with
    | selectError e => rfl
    | selected mbox stream =>
      by_cases h : mbox.UidNext ≤ (w + 1) % 2 ^ 32
      · rw [pollOnce_idle i w mbox stream h]
        rfl
      · rw [pollOnce_fetching i w mbox stream h, hn]
        rfl
  refine ⟨hp intent, fun msg => ?_, fun other ho => ?_, ?_, ?_, ?_⟩
  · cases he : msg.Envelope with
    | none => simp [specNotifies, he]
    | some env =>
      cases hf : env.From with
      | nil => simp [specNotifies, he, hf]
      | cons addr rest => simp [specNotifies, he, hf]
  · rw [hp other, hp intent, ho]
    have hf : (pollOnce other w p).fetched = (pollOnce intent w p).fetched := by
      cases p with
      | selectError e => rfl
      | selected mbox stream =>
        by_cases h : mbox.UidNext ≤ (w + 1) % 2 ^ 32
        · rw [pollOnce_idle other w mbox stream h, pollOnce_idle intent w mbox stream h]
        · rw [pollOnce_fetching other w mbox stream h, pollOnce_fetching intent w mbox stream h]
    rw [hf]
  · rfl
  · rfl
  · rfl

/-- C24 at a turn that streams a message from `BoB@example.org`, one from
`alice@example.org` and one without envelope, for the sender `bob`: the first
is notified. -/
theorem notifications_spec_witness :
    (pollOnce listenBob 2 (.selected (sampleStatus 6)
      [sampleMessage 3 "BoB", sampleMessage 4 "alice", bareMessage 5])).notified =
      [sampleMessage 3 "BoB"] :=
  (notifications_spec listenBob 2 (.selected (sampleStatus 6)
    [sampleMessage 3 "BoB", sampleMessage 4 "alice", bareMessage 5])).1.trans (by decide)

/-- C25. The flag `AllFromSender` does not change the verdict of
`matchesIntent`: with the other fields as they are, the flag set and the flag
unset give the same result for every message; for a from-address that ends
with `@` and the sender holds the sender as a substring. -/
theorem matchesIntent_flag (email : Email) (intent : Intent) :
    matchesIntent email { intent with AllFromSender := true } =
      matchesIntent email { intent with AllFromSender := false } ∧
    (∀ a s : Str, HasSuffix a ("@".toList ++ s) = true → Contains a s = true) := by
  refine ⟨?_, contains_of_hasSuffix⟩
  have hk : (!HasSuffix (ToLower email.From) ("@".toList ++ ToLower intent.Sender) &&
      !Contains (ToLower email.From) (ToLower intent.Sender)) =
      !Contains (ToLower email.From) (ToLower intent.Sender) := by
    cases hc : Contains (ToLower email.From) (ToLower intent.Sender) with
    | true => simp
    | false =>
      cases hs : HasSuffix (ToLower email.From) ("@".toList ++ ToLower intent.Sender) with
      | true =>
        rw [contains_of_hasSuffix _ _ hs] at hc
        cases hc
      | false => rfl
  unfold matchesIntent
  simp only [if_true, hk, Bool.false_eq_true, if_false]

/-- C25 at the intent of `search for "hello" from "*@corp.com"` and a message
from `bob@example.org`. -/
theorem matchesIntent_flag_witness :
    matchesIntent (emailFromBob { unix := 1704153598, nsec := 0, offset := 0 })
        { searchCorp with AllFromSender := true } =
      matchesIntent (emailFromBob { unix := 1704153598, nsec := 0, offset := 0 })
        { searchCorp with AllFromSender := false } :=
  (matchesIntent_flag (emailFromBob { unix := 1704153598, nsec := 0, offset := 0 })
    searchCorp).1

/-- C26. `FilterEmails` returns the emails of its input that satisfy
`matchesIntent`, in the order of the input: the result is the input filtered, a
sublist of the input that holds an email exactly when the input holds it and
`matchesIntent` accepts it; and filtering the result again changes nothing. -/
theorem filterEmails_spec (emails : List Email) (intent : Intent) :
    FilterEmails emails intent = emails.filter (fun e => matchesIntent e intent) ∧
    List.Sublist (FilterEmails emails intent) emails ∧
    (∀ e, e ∈ FilterEmails emails intent ↔ e ∈ emails ∧ matchesIntent e intent = true) ∧
    FilterEmails (FilterEmails emails intent) intent = FilterEmails emails intent := by
  refine ⟨filterEmails_eq emails intent, ?_, fun e => ?_, ?_⟩
  · rw [filterEmails_eq]
    exact List.filter_sublist _
  · rw [filterEmails_eq, List.mem_filter]
  · rw [filterEmails_eq, filterEmails_eq, List.filter_filter]
    simp only [Bool.and_self]

/-- C26 at two messages from `bob@example.org`, of which the second is dated
within the range of the intent. -/
theorem filterEmails_spec_witness :
    FilterEmails
        [emailFromBob { unix := 1700000000, nsec := 0, offset := 0 },
          emailFromBob { unix := 1704153598, nsec := 0, offset := 0 }] searchBobNewYear =
      [emailFromBob { unix := 1704153598, nsec := 0, offset := 0 }] :=
  (filterEmails_spec
    [emailFromBob { unix := 1700000000, nsec := 0, offset := 0 },
      emailFromBob { unix := 1704153598, nsec := 0, offset := 0 }] searchBobNewYear).1.trans
    (by decide)

end IntentEngine
